import Mathlib

/-!
Verification of the distributed-tracing context-propagation engine of
dd-trace-go (`ddtrace/tracer/textmap.go`), shallowly embedded in Lean.

Go strings are modelled as `List Char` (the relevant data is ASCII), Go
maps used as carriers are modelled as ordered association lists, and the
mutation-heavy Go code is modelled by explicit state passing.  Machine
integers (`uint64`, `int`, `uint32`) are modelled as `Nat`/`Int` with
explicit bounds or `% 2^w` where overflow matters.
-/

namespace DDTrace

/-- Go strings modelled as lists of characters. -/
abbrev GoStr := List Char

/-- Convert a Lean string literal to the embedding's string type. -/
def gs (s : String) : GoStr := s.data

/-! ## Go `strings` package primitives (models of the Go standard library) -/

/-- Model of Go `strings.ToLower` restricted to ASCII (all data handled by
the propagation engine is ASCII). -/
def strToLower (s : GoStr) : GoStr := s.map Char.toLower

/-- Model of Go `strings.Split(s, sep)` for a one-character separator:
always returns `n+1` pieces for `n` separators, `[[]]` on the empty
string. -/
def splitCh (sep : Char) : GoStr → List GoStr
  | [] => [[]]
  | c :: cs =>
    match splitCh sep cs with
    | [] => if c = sep then [[], []] else [[c]]
    | h :: t => if c = sep then [] :: h :: t else (c :: h) :: t

theorem splitCh_ne_nil (sep : Char) (s : GoStr) : splitCh sep s ≠ [] := by
  cases s with
  | nil => simp [splitCh]
  | cons c cs =>
    simp only [splitCh]
    cases h : splitCh sep cs with
    | nil => by_cases hc : c = sep <;> simp [hc]
    | cons a b => by_cases hc : c = sep <;> simp [hc]

/-- `splitCh` of a separator-free string is the singleton list. -/
theorem splitCh_of_not_mem {sep : Char} {s : GoStr} (h : sep ∉ s) :
    splitCh sep s = [s] := by
  induction s with
  | nil => rfl
  | cons c cs ih =>
    simp only [List.mem_cons, not_or] at h
    have hc : ¬ c = sep := fun hh => h.1 hh.symm
    simp only [splitCh]
    rw [ih h.2]
    simp [hc]

/-- Splitting `a ++ sep :: b` where `a` is separator-free prepends `a` to
the splits of `b`. -/
theorem splitCh_append {sep : Char} {a : GoStr} (b : GoStr) (h : sep ∉ a) :
    splitCh sep (a ++ sep :: b) = a :: splitCh sep b := by
  induction a with
  | nil =>
    simp only [List.nil_append, splitCh]
    cases hb : splitCh sep b with
    | nil => exact absurd hb (splitCh_ne_nil sep b)
    | cons x y => simp
  | cons c cs ih =>
    simp only [List.mem_cons, not_or] at h
    have hc : ¬ c = sep := fun hh => h.1 hh.symm
    have ih2 := ih h.2
    simp only [List.cons_append, splitCh, List.append_eq] at ih2 ⊢
    rw [ih2]
    simp [hc]

/-- Model of Go `strings.Join` for a one-character separator. -/
def joinCh (sep : Char) : List GoStr → GoStr
  | [] => []
  | [s] => s
  | s :: rest => s ++ sep :: joinCh sep rest

/-- Model of Go `strings.SplitN(s, sep, n)` for `n > 0` and a
one-character separator: at most `n` pieces, the last piece keeps the
remaining separators. -/
def splitNCh (sep : Char) (n : Nat) (s : GoStr) : List GoStr :=
  let parts := splitCh sep s
  if parts.length ≤ n then parts
  else parts.take (n - 1) ++ [joinCh sep (parts.drop (n - 1))]

/-- Model of Go `strings.TrimLeft(s, cutset)`. -/
def trimLeftAny (cut : GoStr) : GoStr → GoStr
  | [] => []
  | c :: cs => if c ∈ cut then trimLeftAny cut cs else c :: cs

/-- Model of Go `strings.TrimRight(s, cutset)`. -/
def trimRightAny (cut : GoStr) (s : GoStr) : GoStr :=
  (trimLeftAny cut s.reverse).reverse

/-- Model of Go `strings.Trim(s, cutset)`. -/
def trimAny (cut : GoStr) (s : GoStr) : GoStr :=
  trimRightAny cut (trimLeftAny cut s)

theorem trimLeftAny_of_head_not_mem {cut : GoStr} :
    ∀ {s : GoStr}, (∀ c ∈ s, c ∉ cut) → trimLeftAny cut s = s
  | [], _ => rfl
  | c :: cs, h => by
    simp only [trimLeftAny, if_neg (h c (List.mem_cons_self c cs))]

theorem trimAny_of_not_mem {cut : GoStr} {s : GoStr} (h : ∀ c ∈ s, c ∉ cut) :
    trimAny cut s = s := by
  unfold trimAny trimRightAny
  rw [trimLeftAny_of_head_not_mem h,
      trimLeftAny_of_head_not_mem (fun c hc => h c (List.mem_reverse.mp hc)),
      List.reverse_reverse]

/-- Model of Go `strings.HasPrefix`. -/
def strStartsWith (pre s : GoStr) : Bool := pre.isPrefixOf s

/-- Model of Go `strings.TrimPrefix`. -/
def strDropStart (pre s : GoStr) : GoStr :=
  if strStartsWith pre s then s.drop pre.length else s

/-- Model of Go `strings.ReplaceAll` for one-character pattern and
replacement. -/
def replaceAllCh (cOld cNew : Char) (s : GoStr) : GoStr :=
  s.map (fun c => if c = cOld then cNew else c)

/-- Model of Go `strings.Cut(s, sep)` for a one-character separator:
`(before, after, found)`. -/
def cutCh (sep : Char) : GoStr → GoStr × GoStr × Bool
  | [] => ([], [], false)
  | c :: cs =>
    if c = sep then ([], cs, true)
    else
      let r := cutCh sep cs
      (c :: r.1, r.2.1, r.2.2)

/-- Model of Go `strings.TrimSpace` (ASCII whitespace). -/
def trimSpace (s : GoStr) : GoStr :=
  trimAny [' ', '\t', '\n', '\x0b', '\x0c', '\r'] s

/-- Model of Go `strings.Contains` for a one-character pattern. -/
def containsCh (sep : Char) (s : GoStr) : Bool := s.contains sep

/-! ## Numeric codecs (models of Go `strconv`) -/

/-- Little-endian digits of `n` in base `b`, computed with explicit fuel
so that the definition is structurally recursive and kernel-evaluable. -/
def digitsAux (b : Nat) : Nat → Nat → List Nat
  | 0, _ => []
  | _ + 1, 0 => []
  | fuel + 1, n + 1 => (n + 1) % b :: digitsAux b fuel ((n + 1) / b)

/-- Little-endian base-`b` digits of `n` (`[]` for `0`). -/
def natDigits (b n : Nat) : List Nat := digitsAux b n n

theorem digitsAux_eq_digits (b : Nat) (hb : 1 < b) :
    ∀ fuel n, n ≤ fuel → digitsAux b fuel n = Nat.digits b n := by
  intro fuel
  induction fuel with
  | zero => intro n hn; interval_cases n; simp [digitsAux]
  | succ f ih =>
    intro n hn
    match n with
    | 0 => simp [digitsAux]
    | m + 1 =>
      rw [digitsAux, Nat.digits_def' hb (Nat.succ_pos m)]
      congr 1
      exact ih _ (Nat.lt_succ_iff.mp (Nat.lt_of_lt_of_le
        (Nat.div_lt_self (Nat.succ_pos m) hb) hn))

theorem natDigits_eq (b n : Nat) (hb : 1 < b) : natDigits b n = Nat.digits b n :=
  digitsAux_eq_digits b hb n n le_rfl

/-- The character for digit value `d` (`0`–`9`, then lowercase `a`–`f`). -/
def digitToChar (d : Nat) : Char :=
  if d < 10 then Char.ofNat (48 + d) else Char.ofNat (87 + d)

/-- Digit value of a character in base 10 (`none` if not a digit). -/
def decVal? (c : Char) : Option Nat :=
  if 48 ≤ c.toNat ∧ c.toNat ≤ 57 then some (c.toNat - 48) else none

/-- Digit value of a character in base 16, lowercase or uppercase hex. -/
def hexVal? (c : Char) : Option Nat :=
  if 48 ≤ c.toNat ∧ c.toNat ≤ 57 then some (c.toNat - 48)
  else if 97 ≤ c.toNat ∧ c.toNat ≤ 102 then some (c.toNat - 87)
  else if 65 ≤ c.toNat ∧ c.toNat ≤ 70 then some (c.toNat - 55)
  else none

/-- Big-endian decimal rendering of a natural number; model of Go
`strconv.FormatUint(n, 10)`. -/
def formatUintDec (n : Nat) : GoStr :=
  if n = 0 then ['0'] else ((natDigits 10 n).reverse).map digitToChar

/-- Big-endian lowercase-hex rendering padded to width `w`; model of Go
`fmt.Sprintf("%0<w>x", n)`. -/
def formatHexPad (w n : Nat) : GoStr :=
  let ds := (natDigits 16 n).reverse.map digitToChar
  List.replicate (w - ds.length) '0' ++ ds

/-- Fold a digit string in base `b`; `none` when a character is not a
digit of the base or the string is empty. -/
def digitStep (val? : Char → Option Nat) (b : Nat) (acc : Option Nat)
    (c : Char) : Option Nat :=
  match acc, val? c with
  | some a, some v => some (a * b + v)
  | _, _ => none

def parseDigits (val? : Char → Option Nat) (b : Nat) (s : GoStr) : Option Nat :=
  if s = [] then none
  else s.foldl (digitStep val? b) (some 0)

/-- Model of Go `strconv.ParseUint(s, 10, 64)`. -/
def goParseUintDec (s : GoStr) : Option Nat :=
  match parseDigits decVal? 10 s with
  | some n => if n < 2 ^ 64 then some n else none
  | none => none

/-- Model of Go `strconv.ParseUint(s, 16, 64)`. -/
def goParseUintHex (s : GoStr) : Option Nat :=
  match parseDigits hexVal? 16 s with
  | some n => if n < 2 ^ 64 then some n else none
  | none => none

/-- Split an optional leading sign from a numeral, as Go `strconv.ParseInt`
does: `(negative?, rest)`. -/
def signSplit (s : GoStr) : Bool × GoStr :=
  match s with
  | [] => (false, [])
  | c :: rest =>
    if c = '-' then (true, rest)
    else if c = '+' then (false, rest)
    else (false, c :: rest)

/-- Model of Go `strconv.ParseInt(s, base, bitSize)`: optional sign, then
digits, with a two's-complement range check. -/
def goParseInt (val? : Char → Option Nat) (b : Nat) (bits : Nat) (s : GoStr) :
    Option Int :=
  let sp := signSplit s
  match parseDigits val? b sp.2 with
  | some n =>
    let v : Int := if sp.1 then -(n : Int) else (n : Int)
    if -(2 ^ (bits - 1) : Int) ≤ v ∧ v < 2 ^ (bits - 1) then some v else none
  | none => none

/-- Model of Go `strconv.Atoi` (i.e. `ParseInt(s, 10, 64)` on 64-bit
platforms). -/
def goAtoi (s : GoStr) : Option Int := goParseInt decVal? 10 64 s

/-- Model of Go `strconv.Itoa`. -/
def goItoa (i : Int) : GoStr :=
  if i < 0 then '-' :: formatUintDec i.natAbs else formatUintDec i.natAbs

/-! ### Correctness of the numeric codecs -/

theorem foldl_mul_add (b : Nat) (ds : List Nat) (a : Nat) :
    ds.foldl (fun acc d => acc * b + d) a
      = a * b ^ ds.length + Nat.ofDigits b ds.reverse := by
  induction ds generalizing a with
  | nil => simp [Nat.ofDigits]
  | cons d ds ih =>
    simp only [List.foldl_cons, List.reverse_cons, List.length_cons]
    rw [ih, Nat.ofDigits_append]
    simp [Nat.ofDigits, pow_succ]
    ring

theorem parseDigits_foldl_none (val? : Char → Option Nat) (b : Nat)
    (s : GoStr) :
    s.foldl (digitStep val? b) none = none := by
  induction s with
  | nil => rfl
  | cons c cs ih =>
    simp only [List.foldl_cons]
    rw [show digitStep val? b none c = none from rfl]
    exact ih

theorem parseDigits_foldl_some (val? : Char → Option Nat) (b : Nat)
    (ds : List Nat) (hds : ∀ d ∈ ds, val? (digitToChar d) = some d) :
    ∀ a, (ds.map digitToChar).foldl (digitStep val? b) (some a)
      = some (ds.foldl (fun x d => x * b + d) a) := by
  induction ds with
  | nil => intro a; rfl
  | cons d ds ih =>
    intro a
    have hd := hds d (List.mem_cons_self d ds)
    simp only [List.map_cons, List.foldl_cons]
    rw [show digitStep val? b (some a) (digitToChar d) = some (a * b + d) by
      unfold digitStep; rw [hd]]
    exact ih (fun x hx => hds x (List.mem_cons_of_mem d hx)) (a * b + d)

theorem parseDigits_map (val? : Char → Option Nat) (b : Nat) (ds : List Nat)
    (hds : ∀ d ∈ ds, val? (digitToChar d) = some d) (hne : ds ≠ []) :
    parseDigits val? b (ds.map digitToChar) = some (Nat.ofDigits b ds.reverse) := by
  unfold parseDigits
  rw [if_neg (by simpa using hne)]
  rw [parseDigits_foldl_some val? b ds hds 0, foldl_mul_add]
  simp

theorem decVal_digitToChar {d : Nat} (h : d < 10) :
    decVal? (digitToChar d) = some d := by
  interval_cases d <;> decide

theorem hexVal_digitToChar {d : Nat} (h : d < 16) :
    hexVal? (digitToChar d) = some d := by
  interval_cases d <;> decide

theorem parseDigits_formatUintDec {n : Nat} :
    parseDigits decVal? 10 (formatUintDec n) = some n := by
  rcases Nat.eq_zero_or_pos n with h0 | h0
  · subst h0; decide
  · have hne : n ≠ 0 := Nat.pos_iff_ne_zero.mp h0
    unfold formatUintDec
    rw [if_neg hne, natDigits_eq 10 n (by norm_num)]
    have hrev : (Nat.digits 10 n).reverse ≠ [] := by
      simp [Nat.digits_ne_nil_iff_ne_zero, hne]
    rw [parseDigits_map decVal? 10 (Nat.digits 10 n).reverse
        (fun d hd => decVal_digitToChar
          (Nat.digits_lt_base (by norm_num) (List.mem_reverse.mp hd))) hrev]
    simp [Nat.ofDigits_digits]

/-- Decimal `uint64` formatting round-trips through parsing. -/
theorem goParseUintDec_format {n : Nat} (h : n < 2 ^ 64) :
    goParseUintDec (formatUintDec n) = some n := by
  unfold goParseUintDec
  rw [parseDigits_formatUintDec]
  show (if n < 2 ^ 64 then some n else none) = some n
  rw [if_pos h]

theorem ofDigits_replicate_zero (b k : Nat) :
    Nat.ofDigits b (List.replicate k 0) = 0 := by
  induction k with
  | zero => simp [Nat.ofDigits]
  | succ k ih => simp [List.replicate_succ, Nat.ofDigits, ih]

theorem parseDigits_formatHexPad {w n : Nat} (hw : 0 < w) :
    parseDigits hexVal? 16 (formatHexPad w n) = some n := by
  unfold formatHexPad
  have hds : ∀ d ∈ (List.replicate (w - ((natDigits 16 n).reverse.map digitToChar).length) 0
      ++ (natDigits 16 n).reverse), hexVal? (digitToChar d) = some d := by
    intro d hd
    rcases List.mem_append.mp hd with hd | hd
    · rw [List.eq_of_mem_replicate hd]; decide
    · exact hexVal_digitToChar (by
        rw [natDigits_eq 16 n (by norm_num)] at hd
        exact Nat.digits_lt_base (by norm_num) (List.mem_reverse.mp hd))
  have hne : (List.replicate (w - ((natDigits 16 n).reverse.map digitToChar).length) 0
      ++ (natDigits 16 n).reverse) ≠ [] := by
    intro hcon
    have h1 := (List.append_eq_nil.mp hcon).1
    have h2 := (List.append_eq_nil.mp hcon).2
    rw [h2] at h1
    simp at h1
    omega
  have hmap : List.replicate (w - ((natDigits 16 n).reverse.map digitToChar).length) '0'
      ++ (natDigits 16 n).reverse.map digitToChar
      = (List.replicate (w - ((natDigits 16 n).reverse.map digitToChar).length) 0
          ++ (natDigits 16 n).reverse).map digitToChar := by
    rw [List.map_append, List.map_replicate]
    rfl
  rw [hmap, parseDigits_map hexVal? 16 _ hds hne]
  rw [List.reverse_append, List.reverse_replicate, Nat.ofDigits_append,
      List.reverse_reverse, natDigits_eq 16 n (by norm_num),
      Nat.ofDigits_digits, ofDigits_replicate_zero]
  simp

/-- Padded hex formatting round-trips through `ParseUint(·, 16, 64)`. -/
theorem goParseUintHex_formatPad {w n : Nat} (h : n < 2 ^ 64) (hw : 0 < w) :
    goParseUintHex (formatHexPad w n) = some n := by
  unfold goParseUintHex
  rw [parseDigits_formatHexPad hw]
  show (if n < 2 ^ 64 then some n else none) = some n
  rw [if_pos h]

theorem formatHexPad_length {w n : Nat} (h : n < 16 ^ w) :
    (formatHexPad w n).length = w := by
  unfold formatHexPad
  simp only [List.length_append, List.length_replicate, List.length_map]
  have hlen : (natDigits 16 n).length ≤ w := by
    rw [natDigits_eq 16 n (by norm_num)]
    rcases Nat.eq_zero_or_pos n with h0 | h0
    · simp [h0]
    · rw [Nat.digits_len 16 n (by norm_num) (Nat.pos_iff_ne_zero.mp h0)]
      have := (Nat.lt_pow_iff_log_lt (by norm_num : 1 < 16)
        (Nat.pos_iff_ne_zero.mp h0)).mp h
      omega
  simp only [List.length_reverse]
  omega

/-- A decimal-digit character. -/
def isDecDigitCh (c : Char) : Bool := 48 ≤ c.toNat && c.toNat ≤ 57

/-- A lowercase hex-digit character. -/
def isHexLowerCh (c : Char) : Bool :=
  (48 ≤ c.toNat && c.toNat ≤ 57) || (97 ≤ c.toNat && c.toNat ≤ 102)

theorem digitToChar_dec {d : Nat} (h : d < 10) :
    isDecDigitCh (digitToChar d) = true := by
  interval_cases d <;> decide

theorem digitToChar_hexLower {d : Nat} (h : d < 16) :
    isHexLowerCh (digitToChar d) = true := by
  interval_cases d <;> decide

theorem formatUintDec_digits {n : Nat} :
    ∀ c ∈ formatUintDec n, isDecDigitCh c = true := by
  intro c hc
  unfold formatUintDec at hc
  split at hc
  · simp at hc; subst hc; decide
  · rcases List.mem_map.mp hc with ⟨d, hd, rfl⟩
    exact digitToChar_dec (by
      rw [natDigits_eq 10 n (by norm_num)] at hd
      exact Nat.digits_lt_base (by norm_num) (List.mem_reverse.mp hd))

theorem formatHexPad_digits {w n : Nat} :
    ∀ c ∈ formatHexPad w n, isHexLowerCh c = true := by
  intro c hc
  unfold formatHexPad at hc
  rcases List.mem_append.mp hc with hc | hc
  · rw [List.eq_of_mem_replicate hc]; decide
  · rcases List.mem_map.mp hc with ⟨d, hd, rfl⟩
    exact digitToChar_hexLower (by
      rw [natDigits_eq 16 n (by norm_num)] at hd
      exact Nat.digits_lt_base (by norm_num) (List.mem_reverse.mp hd))

theorem signSplit_of_digits {s : GoStr} (h : ∀ c ∈ s, isDecDigitCh c = true) :
    signSplit s = (false, s) := by
  cases s with
  | nil => rfl
  | cons c cs =>
    have hc := h c (List.mem_cons_self c cs)
    unfold isDecDigitCh at hc
    show (if c = '-' then ((true : Bool), cs)
      else if c = '+' then ((false : Bool), cs)
      else ((false : Bool), c :: cs)) = ((false : Bool), c :: cs)
    rw [if_neg, if_neg]
    · intro hcon; subst hcon; simp at hc
    · intro hcon; subst hcon; simp at hc

/-- `Atoi ∘ Itoa` round-trips for 64-bit-representable integers. -/
theorem goAtoi_goItoa {i : Int} (hlo : -(2 ^ 63) ≤ i) (hhi : i < 2 ^ 63) :
    goAtoi (goItoa i) = some i := by
  unfold goAtoi goItoa goParseInt
  by_cases hneg : i < 0
  · rw [if_pos hneg]
    have hsign : signSplit ('-' :: formatUintDec i.natAbs) =
        (true, formatUintDec i.natAbs) := by
      simp [signSplit]
    rw [hsign]
    simp only [parseDigits_formatUintDec]
    show (if -(2 ^ (64 - 1) : Int) ≤ -((i.natAbs : Nat) : Int) ∧
        -((i.natAbs : Nat) : Int) < 2 ^ (64 - 1)
      then some (-((i.natAbs : Nat) : Int)) else none) = some i
    rw [if_pos (by constructor <;> omega)]
    congr 1
    omega
  · rw [if_neg hneg]
    rw [signSplit_of_digits formatUintDec_digits]
    simp only [parseDigits_formatUintDec]
    show (if -(2 ^ (64 - 1) : Int) ≤ ((i.natAbs : Nat) : Int) ∧
        ((i.natAbs : Nat) : Int) < 2 ^ (64 - 1)
      then some (((i.natAbs : Nat) : Int)) else none) = some i
    rw [if_pos (by constructor <;> omega)]
    congr 1
    omega

theorem foldl_digitStep_mono (val? : Char → Option Nat) {b : Nat}
    (_hb : 1 ≤ b) (s : GoStr) :
    ∀ a v, s.foldl (digitStep val? b) (some a) = some v → a ≤ v := by
  induction s with
  | nil => intro a v h; simp at h; omega
  | cons c cs ih =>
    intro a v h
    simp only [List.foldl_cons] at h
    cases hval : val? c with
    | none =>
      rw [show digitStep val? b (some a) c = none by
        unfold digitStep; rw [hval]] at h
      rw [parseDigits_foldl_none] at h
      exact absurd h (by simp)
    | some d =>
      rw [show digitStep val? b (some a) c = some (a * b + d) by
        unfold digitStep; rw [hval]] at h
      have := ih (a * b + d) v h
      nlinarith

theorem foldl_digitStep_mem (val? : Char → Option Nat) (b : Nat) (s : GoStr) :
    ∀ a v, s.foldl (digitStep val? b) (some a) = some v →
      ∀ c ∈ s, val? c ≠ none := by
  induction s with
  | nil => intro a v _ c hc; simp at hc
  | cons c0 cs ih =>
    intro a v h c hc
    simp only [List.foldl_cons] at h
    cases hval : val? c0 with
    | none =>
      rw [show digitStep val? b (some a) c0 = none by
        unfold digitStep; rw [hval]] at h
      rw [parseDigits_foldl_none] at h
      exact absurd h (by simp)
    | some d =>
      rw [show digitStep val? b (some a) c0 = some (a * b + d) by
        unfold digitStep; rw [hval]] at h
      rcases List.mem_cons.mp hc with rfl | hc
      · rw [hval]; simp
      · exact ih (a * b + d) v h c hc

/-- Every character of a successfully parsed numeral is a digit. -/
theorem parseDigits_mem {val? : Char → Option Nat} {b : Nat} {s : GoStr}
    {v : Nat} (h : parseDigits val? b s = some v) :
    ∀ c ∈ s, val? c ≠ none := by
  unfold parseDigits at h
  split at h
  · exact absurd h (by simp)
  · exact foldl_digitStep_mem val? b s 0 v h

theorem foldl_digitStep_lt (val? : Char → Option Nat) {b : Nat} (_hb : 0 < b)
    (hdig : ∀ c d, val? c = some d → d < b) (s : GoStr) :
    ∀ a v, s.foldl (digitStep val? b) (some a) = some v →
      v < (a + 1) * b ^ s.length := by
  induction s with
  | nil =>
    intro a v h
    simp only [List.foldl_nil, Option.some.injEq] at h
    subst h
    simp only [List.length_nil, pow_zero, mul_one]
    omega
  | cons c cs ih =>
    intro a v h
    simp only [List.foldl_cons] at h
    cases hval : val? c with
    | none =>
      rw [show digitStep val? b (some a) c = none by
        unfold digitStep; rw [hval]] at h
      rw [parseDigits_foldl_none] at h
      exact absurd h (by simp)
    | some d =>
      rw [show digitStep val? b (some a) c = some (a * b + d) by
        unfold digitStep; rw [hval]] at h
      have hd := hdig c d hval
      have := ih (a * b + d) v h
      have hstep : a * b + d + 1 ≤ (a + 1) * b := by
        have : (a + 1) * b = a * b + b := by ring
        omega
      calc v < (a * b + d + 1) * b ^ cs.length := this
        _ ≤ ((a + 1) * b) * b ^ cs.length :=
            Nat.mul_le_mul_right _ hstep
        _ = (a + 1) * b ^ (c :: cs).length := by
            simp only [List.length_cons, pow_succ]; ring

/-- A parsed numeral is bounded by `base ^ length`. -/
theorem parseDigits_lt {val? : Char → Option Nat} {b : Nat} (hb : 0 < b)
    (hdig : ∀ c d, val? c = some d → d < b) {s : GoStr} {v : Nat}
    (h : parseDigits val? b s = some v) : v < b ^ s.length := by
  unfold parseDigits at h
  split at h
  · exact absurd h (by simp)
  · have := foldl_digitStep_lt val? hb hdig s 0 v h
    simpa using this

/-- A numeral containing a nonzero digit parses to a nonzero value. -/
theorem parseDigits_pos {val? : Char → Option Nat} {b : Nat} (hb : 1 ≤ b)
    {s : GoStr} {v : Nat} (h : parseDigits val? b s = some v)
    {c : Char} {d : Nat} (hc : c ∈ s) (hcd : val? c = some d) (hd : 0 < d) :
    0 < v := by
  unfold parseDigits at h
  split at h
  · exact absurd h (by simp)
  · rcases List.append_of_mem hc with ⟨s1, s2, rfl⟩
    rw [List.foldl_append] at h
    cases hmid : s1.foldl (digitStep val? b) (some 0) with
    | none =>
      rw [hmid, parseDigits_foldl_none] at h
      · exact absurd h (by simp)
    | some a =>
      rw [hmid] at h
      simp only [List.foldl_cons] at h
      rw [show digitStep val? b (some a) c = some (a * b + d) by
        unfold digitStep; rw [hcd]] at h
      have := foldl_digitStep_mono val? hb s2 (a * b + d) v h
      nlinarith

/-! ## Association-list operations (model of Go map reads/writes) -/

/-- Look up a key in an association list (Go map read). -/
def assocGet (m : List (GoStr × GoStr)) (k : GoStr) : Option GoStr :=
  (m.find? (fun p => p.1 == k)).map (fun p => p.2)

/-- Write a key in an association list (Go map write): replace in place or
append. -/
def assocSet (m : List (GoStr × GoStr)) (k v : GoStr) : List (GoStr × GoStr) :=
  if m.any (fun p => p.1 == k) then
    m.map (fun p => if p.1 == k then (k, v) else p)
  else m ++ [(k, v)]

/-- Delete a key from an association list (Go map delete). -/
def assocDel (m : List (GoStr × GoStr)) (k : GoStr) : List (GoStr × GoStr) :=
  m.filter (fun p => !(p.1 == k))

/-- Key-membership in an association list. -/
def assocHas (m : List (GoStr × GoStr)) (k : GoStr) : Bool :=
  m.any (fun p => p.1 == k)

/-! ## Data model

`SpanContext`, `trace` and the `traceID` type live in `spancontext.go` /
`internal`, which is not part of the sources at hand; the fields and the
behaviour of their accessors are modelled from the spec (§3 Data model,
§4.1 TraceId). -/

/-- Modelled from the spec: the provenance tag attached to a sampling
priority (`samplernames.SamplerName`); only the two values the
propagation code mentions are distinguished. -/
inductive SamplerName where
  | unknown
  | defaultName
deriving DecidableEq, Repr

/-- Modelled from the spec: the per-trace shared state reachable from a
span context (priority with provenance, propagating tags, plain tags);
`root` models whether the trace has a local root span
(`trace.root != nil`), consulted by the W3C inject decision (§4.7). -/
structure Trace where
  priority : Option Int := none
  samplerName : SamplerName := .unknown
  propagatingTags : List (GoStr × GoStr) := []
  tags : List (GoStr × GoStr) := []
  root : Bool := false
deriving DecidableEq, Repr

/-- Modelled from the spec: `newTrace` gives a fresh empty trace. -/
def newTrace : Trace := {}

def Trace.propagatingTag (t : Trace) (k : GoStr) : GoStr :=
  (assocGet t.propagatingTags k).getD []

def Trace.setPropagatingTag (t : Trace) (k v : GoStr) : Trace :=
  { t with propagatingTags := assocSet t.propagatingTags k v }

def Trace.unsetPropagatingTag (t : Trace) (k : GoStr) : Trace :=
  { t with propagatingTags := assocDel t.propagatingTags k }

def Trace.hasPropagatingTag (t : Trace) (k : GoStr) : Bool :=
  assocHas t.propagatingTags k

def Trace.propagatingTagsLen (t : Trace) : Nat := t.propagatingTags.length

def Trace.setTag (t : Trace) (k v : GoStr) : Trace :=
  { t with tags := assocSet t.tags k v }

def Trace.replacePropagatingTags (t : Trace) (tags : List (GoStr × GoStr)) :
    Trace :=
  { t with propagatingTags := tags }

/-- `SpanLink` as declared in the public API (`TraceID`/`TraceIDHigh`/
`SpanID` are `uint64`, `Flags` is `uint32`). -/
structure SpanLink where
  traceID : Nat := 0
  traceIDHigh : Nat := 0
  spanID : Nat := 0
  flags : Nat := 0
  tracestate : GoStr := []
  attributes : List (GoStr × GoStr) := []
deriving DecidableEq, Repr

/-- Modelled from the spec: the mutable span context (§3).  The 128-bit
trace id is stored as its two unsigned 64-bit halves. -/
structure SpanContext where
  traceIDUpper : Nat := 0
  traceIDLower : Nat := 0
  spanID : Nat := 0
  origin : GoStr := []
  baggage : List (GoStr × GoStr) := []
  hasBaggage : Bool := false
  baggageOnly : Bool := false
  reparentID : GoStr := []
  isRemote : Bool := false
  updated : Bool := false
  trace : Option Trace := none
  spanLinks : List SpanLink := []
deriving DecidableEq, Repr

/-- Modelled from the spec: `traceID.Empty()` — both halves zero. -/
def SpanContext.traceIDEmpty (c : SpanContext) : Bool :=
  c.traceIDUpper == 0 && c.traceIDLower == 0

/-- Modelled from the spec: `traceID.HasUpper()`. -/
def SpanContext.hasUpper (c : SpanContext) : Bool := !(c.traceIDUpper == 0)

/-- Modelled from the spec: `traceID.UpperHex()` — fixed-width 16 hex. -/
def SpanContext.upperHex (c : SpanContext) : GoStr :=
  formatHexPad 16 c.traceIDUpper

/-- Modelled from the spec: `SpanContext.TraceID()` — the 32-hex-digit
encoding of the 128-bit id. -/
def SpanContext.traceIDHex (c : SpanContext) : GoStr :=
  formatHexPad 16 c.traceIDUpper ++ formatHexPad 16 c.traceIDLower

/-- Modelled from the spec: `traceID.SetUpperFromHex` rejects non-hex
input and length ≠ 16. -/
def SpanContext.setUpperFromHex (c : SpanContext) (s : GoStr) :
    Option SpanContext :=
  if s.length = 16 then
    (goParseUintHex s).map (fun u => { c with traceIDUpper := u })
  else none

/-- Modelled from the spec: `SamplingPriority() (int, bool)`. -/
def SpanContext.samplingPriority (c : SpanContext) : Int × Bool :=
  match c.trace with
  | none => (0, false)
  | some t =>
    match t.priority with
    | none => (0, false)
    | some p => (p, true)

/-- Modelled from the spec: `setSamplingPriority` records the priority and
its provenance on the trace, creating the trace if needed. -/
def SpanContext.setSamplingPriority (c : SpanContext) (p : Int)
    (n : SamplerName) : SpanContext :=
  match c.trace with
  | none => { c with trace := some { newTrace with priority := some p, samplerName := n } }
  | some t => { c with trace := some { t with priority := some p, samplerName := n } }

/-- Modelled from the spec: `setBaggageItem` (also raises the baggage
flag). -/
def SpanContext.setBaggageItem (c : SpanContext) (k v : GoStr) : SpanContext :=
  { c with baggage := assocSet c.baggage k v, hasBaggage := true }

/-- The propagating tag of a context, `[]` when the trace is absent
(models the nil-receiver guard of the Go accessor). -/
def SpanContext.tracePropTag (c : SpanContext) (k : GoStr) : GoStr :=
  match c.trace with
  | none => []
  | some t => t.propagatingTag k

deriving instance DecidableEq for Except

/-- The errors produced by the propagation engine
(`ErrInvalidCarrier`, `ErrInvalidSpanContext`, `ErrSpanContextNotFound`,
`ErrSpanContextCorrupted`). -/
inductive TracerErr where
  | invalidCarrier
  | invalidSpanContext
  | spanContextNotFound
  | spanContextCorrupted
deriving DecidableEq, Repr

/-- A text-map carrier: ordered key/value pairs.  `TextMapCarrier` is a
Go map (one entry per key); `HTTPHeadersCarrier` may repeat a key.  The
iteration order of `ForeachKey` is the list order. -/
abbrev Carrier := List (GoStr × GoStr)

/-- `Set` on a carrier (overwrites the key if present). -/
def carrierSet (c : Carrier) (k v : GoStr) : Carrier := assocSet c k v

/-! ## Header names and tag keys (`textmap.go` constants) -/

def defaultBaggageHeaderKeyStart : GoStr := gs ("ot-baggage-")
def defaultTraceIDHeader : GoStr := gs ("x-datadog-trace-id")
def defaultParentIDHeader : GoStr := gs ("x-datadog-parent-id")
def defaultPriorityHeader : GoStr := gs ("x-datadog-sampling-priority")
def defaultBaggageHeader : GoStr := gs ("baggage")
def originHeader : GoStr := gs ("x-datadog-origin")
def traceTagsHeader : GoStr := gs ("x-datadog-tags")
def traceparentHeader : GoStr := gs ("traceparent")
def tracestateHeader : GoStr := gs ("tracestate")
def keyTraceID128 : GoStr := gs ("_dd.p.tid")
def keyDecisionMaker : GoStr := gs ("_dd.p.dm")
def keyPropagationError : GoStr := gs ("_dd.propagation_error")
def originSynthetics : GoStr := gs ("synthetics")

/-- `propagationExtractMaxSize` — the 512-byte cap on incoming tags. -/
def propagationExtractMaxSize : Nat := 512

/-- `ext.PriorityAutoKeep` / `ext.PriorityAutoReject`. -/
def priorityAutoKeep : Int := 1
def priorityAutoReject : Int := 0

/-- `PropagatorConfig` (only the fields the Datadog format reads). -/
structure PropagatorConfig where
  baggageKeyStart : GoStr := defaultBaggageHeaderKeyStart
  traceHeader : GoStr := defaultTraceIDHeader
  parentHeader : GoStr := defaultParentIDHeader
  priorityHeader : GoStr := defaultPriorityHeader
  maxTagsHeaderLen : Int := 128

/-! ## Shared helpers from `textmap.go` -/

/-- `isValidID`: equivalent to the regexp `^[a-f0-9]+$` (source lines
1025–1038). -/
def isValidID (id : GoStr) : Bool :=
  id.length != 0 &&
  id.all (fun c =>
    let ascii := c.toNat
    !(ascii < 48 || ascii > 102 || (ascii > 57 && ascii < 97)))

/-- `validateTID` (source lines 573–581): 16 characters, all valid hex. -/
def validateTID (tid : GoStr) : Bool :=
  tid.length == 16 && isValidID tid

/-- Modelled from the spec: `parseUint64` (defined in `util.go`, not in
the sources at hand) parses a decimal `uint64`; a leading `-` is parsed
as an `int64` and converted two's-complement. -/
def parseUint64 (s : GoStr) : Option Nat :=
  if strStartsWith ['-'] s then
    (goParseInt decVal? 10 64 s).map (fun i => (i.emod (2 ^ 64)).toNat)
  else goParseUintDec s

/-- Modelled from the spec: `isValidPropagatableTag` (defined outside the
sources at hand); §4.3: keys/values must be non-empty printable ASCII
without `,` or `=`. -/
def isValidPropagatableTag (k v : GoStr) : Bool :=
  k.length != 0 && v.length != 0 &&
  k.all (fun c => 32 ≤ c.toNat && c.toNat ≤ 126 && !(c == ',') && !(c == '=')) &&
  v.all (fun c => 32 ≤ c.toNat && c.toNat ≤ 126 && !(c == ','))

/-- One piece of `parsePropagatableTraceTags`: a strict `k=v` pair with
non-empty key and value, otherwise the whole parse fails. -/
def parseTagsStep (acc : Option (List (GoStr × GoStr))) (piece : GoStr) :
    Option (List (GoStr × GoStr)) :=
  match acc with
  | none => none
  | some tags =>
    let r := cutCh '=' piece
    if r.2.2 && !(r.1 == ([] : GoStr)) && !(r.2.1 == ([] : GoStr)) then
      some (assocSet tags r.1 r.2.1)
    else none

/-- Modelled from the spec: `parsePropagatableTraceTags` (defined outside
the sources at hand); §4.3: strict `k=v` pairs separated by `,`, any
malformed pair is an error (`none`). -/
def parsePropagatableTraceTags (s : GoStr) : Option (List (GoStr × GoStr)) :=
  if s = [] then some []
  else (splitCh ',' s).foldl parseTagsStep (some [])

/-- `unmarshalPropagatingTags` (source lines 611–626). -/
def unmarshalPropagatingTags (ctx : SpanContext) (v : GoStr) : SpanContext :=
  let t := ctx.trace.getD newTrace
  if v.length > propagationExtractMaxSize then
    { ctx with trace := some (t.setTag keyPropagationError (gs ("extract_max_size"))) }
  else
    match parsePropagatableTraceTags v with
    | some tags => { ctx with trace := some (t.replacePropagatingTags tags) }
    | none =>
      let t := t.setTag keyPropagationError (gs ("decoding_error"))
      { ctx with trace := some (t.replacePropagatingTags []) }

/-- The free function `setPropagatingTag` (source lines 630–636):
initializes the trace when absent. -/
def setPropagatingTagSC (ctx : SpanContext) (k v : GoStr) : SpanContext :=
  let t := ctx.trace.getD newTrace
  { ctx with trace := some (t.setPropagatingTag k v) }

/-- Iteration with early stop, as `iteratePropagatingTags` does: the
callback returns `false` to stop. -/
def iterStop (f : σ → GoStr × GoStr → σ × Bool) : List (GoStr × GoStr) → σ → σ
  | [], st => st
  | x :: xs, st =>
    let r := f st x
    if r.2 then iterStop f xs r.1 else r.1

/-! ## The Datadog propagator (`propagator`, source lines 422–571) -/

/-- The body of the tag loop of `marshalPropagatingTags` (source lines
481–501): state is the string builder and the propagation error. -/
def marshalTagStep (cfg : PropagatorConfig) (st : GoStr × GoStr)
    (kv : GoStr × GoStr) : (GoStr × GoStr) × Bool :=
  let (sb, properr) := st
  if kv.1 == tracestateHeader || kv.1 == traceparentHeader then
    ((sb, properr), true)
  else if !(isValidPropagatableTag kv.1 kv.2) then
    ((sb, gs ("encoding_error")), true)
  else if (sb.length + kv.1.length + kv.2.length : Int) > cfg.maxTagsHeaderLen then
    (([], gs ("inject_max_size")), false)
  else if sb.length > 0 then
    ((sb ++ ',' :: kv.1 ++ '=' :: kv.2, properr), true)
  else
    ((sb ++ kv.1 ++ '=' :: kv.2, properr), true)

/-- `marshalPropagatingTags` (source lines 474–508): returns the encoded
header value and the (possibly tag-annotated) context. -/
def marshalPropagatingTags (cfg : PropagatorConfig) (ctx : SpanContext) :
    GoStr × SpanContext :=
  match ctx.trace with
  | none => ([], ctx)
  | some t =>
    let st := iterStop (marshalTagStep cfg) t.propagatingTags ([], [])
    let ctx := if st.2 ≠ [] then
        { ctx with trace := some (t.setTag keyPropagationError st.2) }
      else ctx
    (st.1, ctx)

/-- `(*propagator).injectTextMap` (source lines 440–471); returns the
mutated context and carrier. -/
def injectTextMapDD (cfg : PropagatorConfig) (spanCtx : SpanContext)
    (writer : Carrier) : Except TracerErr (SpanContext × Carrier) :=
  if spanCtx.traceIDEmpty || spanCtx.spanID == 0 then
    .error .invalidSpanContext
  else
    let ctx :=
      if spanCtx.hasUpper then
        setPropagatingTagSC spanCtx keyTraceID128 spanCtx.upperHex
      else
        match spanCtx.trace with
        | some t => { spanCtx with trace := some (t.unsetPropagatingTag keyTraceID128) }
        | none => spanCtx
    let w := carrierSet writer cfg.traceHeader (formatUintDec ctx.traceIDLower)
    let w := carrierSet w cfg.parentHeader (formatUintDec ctx.spanID)
    let w :=
      if (ctx.samplingPriority).2 then
        carrierSet w cfg.priorityHeader (goItoa (ctx.samplingPriority).1)
      else w
    let w := if ctx.origin ≠ [] then carrierSet w originHeader ctx.origin else w
    let w := ctx.baggage.foldl
      (fun w kv => carrierSet w (cfg.baggageKeyStart ++ kv.1) kv.2) w
    if cfg.maxTagsHeaderLen ≤ 0 then .ok (ctx, w)
    else
      let r := marshalPropagatingTags cfg ctx
      if r.1.length > 0 then .ok (r.2, carrierSet w traceTagsHeader r.1)
      else .ok (r.2, w)

/-- One step of the `ForeachKey` handler of
`(*propagator).extractTextMap` (source lines 519–553). -/
def ddExtractStep (cfg : PropagatorConfig) (st : Except TracerErr SpanContext)
    (kv : GoStr × GoStr) : Except TracerErr SpanContext :=
  match st with
  | .error e => .error e
  | .ok ctx =>
    let key := strToLower kv.1
    if key == cfg.traceHeader then
      match parseUint64 kv.2 with
      | some v => .ok { ctx with traceIDLower := v }
      | none => .error .spanContextCorrupted
    else if key == cfg.parentHeader then
      match parseUint64 kv.2 with
      | some v => .ok { ctx with spanID := v }
      | none => .error .spanContextCorrupted
    else if key == cfg.priorityHeader then
      match goAtoi kv.2 with
      | some p => .ok (ctx.setSamplingPriority p .unknown)
      | none => .error .spanContextCorrupted
    else if key == originHeader then .ok { ctx with origin := kv.2 }
    else if key == traceTagsHeader then .ok (unmarshalPropagatingTags ctx kv.2)
    else if strStartsWith cfg.baggageKeyStart key then
      .ok (ctx.setBaggageItem (strDropStart cfg.baggageKeyStart key) kv.2)
    else .ok ctx

/-- `(*propagator).extractTextMap` (source lines 519–571). -/
def extractTextMapDD (cfg : PropagatorConfig) (reader : Carrier) :
    Except TracerErr SpanContext :=
  match reader.foldl (ddExtractStep cfg) (.ok {}) with
  | .error e => .error e
  | .ok ctx =>
    let ctx :=
      match ctx.trace with
      | none => ctx
      | some t =>
        let tid := t.propagatingTag keyTraceID128
        if validateTID tid then
          match ctx.setUpperFromHex tid with
          | some ctx' => ctx'
          | none => { ctx with trace := some (t.unsetPropagatingTag keyTraceID128) }
        else { ctx with trace := some (t.unsetPropagatingTag keyTraceID128) }
    if ctx.traceIDEmpty || (ctx.spanID == 0 && !(ctx.origin == originSynthetics)) then
      .error .spanContextNotFound
    else .ok ctx

/-! ## W3C traceparent / tracestate (`propagatorW3c`) -/

/-- `extractTraceID128` (source lines 1311–1332).  The error of
`SetUpperFromHex` is discarded, as in the source. -/
def extractTraceID128 (ctx : SpanContext) (v : GoStr) :
    Except TracerErr SpanContext :=
  let v := if v.length > 32 then v.drop (v.length - 32) else v
  let v := trimLeftAny ['0'] v
  if v.length ≤ 16 then
    match goParseUintHex v with
    | some tid => .ok { ctx with traceIDLower := tid }
    | none => .error .spanContextCorrupted
  else
    match goParseUintHex (v.drop (v.take (v.length - 16)).length) with
    | some l =>
      .ok { (ctx.setUpperFromHex (v.take (v.length - 16))).getD ctx with
            traceIDLower := l }
    | none => .error .spanContextCorrupted

/-- The cutset `"_-\t \n"` used by `parseTraceparent`. -/
def nonWordCutset : GoStr := ['_', '-', '\t', ' ', '\n']

/-- The canonicalised traceparent header:
`strings.ToLower(strings.Trim(header, "\t -"))`. -/
def tpHeaderCanon (header : GoStr) : GoStr :=
  strToLower (trimAny ['\t', ' ', '-'] header)

/-- `strings.SplitN(header, "-", 5)` on the canonicalised header. -/
def tpParts (header : GoStr) : List GoStr :=
  splitNCh '-' 5 (tpHeaderCanon header)

/-- `parseTraceparent` (source lines 1166–1232). -/
def parseTraceparent (ctx : SpanContext) (header : GoStr) :
    Except TracerErr SpanContext :=
  if (tpHeaderCanon header).length == 0 then .error .spanContextNotFound
  else if (tpHeaderCanon header).length < 55 then .error .spanContextCorrupted
  else if (tpParts header).length < 4 then .error .spanContextCorrupted
  else if (trimAny nonWordCutset ((tpParts header).getD 0 [])).length ≠ 2 then
    .error .spanContextCorrupted
  else
    match goParseUintHex (trimAny nonWordCutset ((tpParts header).getD 0 [])) with
    | none => .error .spanContextCorrupted
    | some v =>
      if v == 255 then .error .spanContextCorrupted
      else if v == 0 && (tpHeaderCanon header).length ≠ 55 then
        .error .spanContextCorrupted
      else if (trimAny nonWordCutset ((tpParts header).getD 1 [])).length ≠ 32 then
        .error .spanContextCorrupted
      else if !(isValidID (trimAny nonWordCutset ((tpParts header).getD 1 []))) then
        .error .spanContextCorrupted
      else
        match extractTraceID128
          (match ctx.trace with
           | some t => { ctx with trace := some (t.unsetPropagatingTag keyTraceID128) }
           | none => ctx)
          (trimAny nonWordCutset ((tpParts header).getD 1 [])) with
        | .error e => .error e
        | .ok ctx =>
          if (trimAny nonWordCutset ((tpParts header).getD 2 [])).length ≠ 16 then
            .error .spanContextCorrupted
          else if !(isValidID (trimAny nonWordCutset ((tpParts header).getD 2 []))) then
            .error .spanContextCorrupted
          else
            match goParseUintHex (trimAny nonWordCutset ((tpParts header).getD 2 [])) with
            | none => .error .spanContextCorrupted
            | some sid =>
              if sid == 0 then .error .spanContextNotFound
              else
                match goParseInt hexVal? 16 8 ((tpParts header).getD 3 []) with
                | none => .error .spanContextCorrupted
                | some f =>
                  .ok ({ ctx with spanID := sid }.setSamplingPriority
                    (f.emod 2) .unknown)

/-- `parseTracestate` (source lines 1243–1306). -/
def parseTracestate (ctx : SpanContext) (header : GoStr) : SpanContext :=
  if header == ([] : GoStr) then ctx
  else
    let ctx := setPropagatingTagSC ctx tracestateHeader header
    let combined := splitCh ',' (trimAny ['	', ' '] header)
    combined.foldl (fun ctx group =>
      if !(strStartsWith (gs ("dd=")) group) then ctx
      else
        let ddMembers := splitCh ';' (group.drop 3)
        (ddMembers.foldl (fun (st : SpanContext × Bool) member =>
          let ctx := st.1
          let dropDM := st.2
          let keyVal := splitNCh ':' 2 member
          if keyVal.length ≠ 2 then (ctx, dropDM)
          else
            let key := keyVal.getD 0 []
            let val := keyVal.getD 1 []
            if key == gs ("o") then
              ({ ctx with origin := replaceAllCh '~' '=' val }, dropDM)
            else if key == gs ("s") then
              match goAtoi val with
              | none => (ctx, dropDM)
              | some stateP =>
                let parentP := (ctx.samplingPriority).1
                let ctx :=
                  if (parentP == 1 && stateP > 0) || (parentP == 0 && stateP ≤ 0)
                  then ctx.setSamplingPriority stateP .unknown else ctx
                let ctx :=
                  if parentP == 1 && stateP ≤ 0
                  then ctx.setSamplingPriority priorityAutoKeep .defaultName else ctx
                if parentP == 0 && stateP > 0 then
                  (ctx.setSamplingPriority priorityAutoReject .unknown, true)
                else (ctx, dropDM)
            else if key == gs ("p") then
              ({ ctx with reparentID := val }, dropDM)
            else if strStartsWith (gs ("t.dm")) key then
              if (match ctx.trace with
                  | some t => t.hasPropagatingTag keyDecisionMaker
                  | none => false) || dropDM then (ctx, dropDM)
              else (setPropagatingTagSC ctx keyDecisionMaker val, dropDM)
            else if strStartsWith (gs ("t.")) key then
              (setPropagatingTagSC ctx (gs ("_dd.p.") ++ key.drop 2)
                (replaceAllCh '~' '=' val), dropDM)
            else (ctx, dropDM)) (ctx, false)).1) ctx

/-- One step of the `ForeachKey` handler of
`(*propagatorW3c).extractTextMap`. -/
def w3cScanStep (st : Except TracerErr (GoStr × GoStr × SpanContext))
    (kv : GoStr × GoStr) : Except TracerErr (GoStr × GoStr × SpanContext) :=
  match st with
  | .error e => .error e
  | .ok st =>
    let ph := st.1
    let sh := st.2.1
    let ctx := st.2.2
    let key := strToLower kv.1
    if key == traceparentHeader then
      if ph ≠ ([] : GoStr) then .error TracerErr.spanContextCorrupted
      else .ok (kv.2, sh, ctx)
    else if key == tracestateHeader then .ok (ph, kv.2, ctx)
    else if strStartsWith defaultBaggageHeaderKeyStart key then
      .ok (ph, sh,
        ctx.setBaggageItem (strDropStart defaultBaggageHeaderKeyStart key) kv.2)
    else .ok (ph, sh, ctx)

/-- `(*propagatorW3c).extractTextMap` (source lines 1121–1151). -/
def extractTextMapW3C (reader : Carrier) : Except TracerErr SpanContext :=
  match reader.foldl w3cScanStep (.ok ([], [], { isRemote := true })) with
  | .error e => .error e
  | .ok st =>
    match parseTraceparent st.2.2 st.1 with
    | .error e => .error e
    | .ok ctx => .ok (parseTracestate ctx st.2.1)

/-! ## The string mutator and the three sanitizers (source lines 897–1011) -/

/-- The state-machine core of `(*stringMutator).Mutate`: `fn` returns the
replacement (`none` models the rune `-1`, i.e. drop) and whether
consecutive matches of the same case must be collapsed; the `Bool`
argument is the mutator state `n`. -/
def mutateAux (fn : Char → Option Char × Bool) : Bool → GoStr → GoStr
  | _, [] => []
  | n, c :: cs =>
    match fn c with
    | (none, _) => mutateAux fn false cs
    | (some v, true) =>
      if n then mutateAux fn true cs
      else v :: mutateAux fn true cs
    | (some v, false) => v :: mutateAux fn false cs

/-- `(*stringMutator).Mutate` (fresh state, then reset). -/
def smMutate (fn : Char → Option Char × Bool) (s : GoStr) : GoStr :=
  mutateAux fn false s

/-- `keyDisallowedFn` (source lines 962–970). -/
def keyDisallowedFn (r : Char) : Option Char × Bool :=
  if r = ',' || r = '=' then (some '_', false)
  else if r.toNat < 32 || r.toNat > 126 then (some '_', true)
  else (some r, false)

/-- `valueDisallowedFn` (source lines 980–990). -/
def valueDisallowedFn (r : Char) : Option Char × Bool :=
  if r = '=' then (some '~', false)
  else if r = ',' || r = '~' || r = ';' then (some '_', false)
  else if r.toNat < 32 || r.toNat > 126 then (some '_', true)
  else (some r, false)

/-- `originDisallowedFn` (source lines 1000–1010). -/
def originDisallowedFn (r : Char) : Option Char × Bool :=
  if r = '=' then (some '~', false)
  else if r = ',' || r = '~' || r = ';' then (some '_', false)
  else if r.toNat < 33 || r.toNat > 126 then (some '_', true)
  else (some r, false)

/-! ## Tracestate composition (`composeTracestate`, source lines 1045–1110) -/

/-- The `dd=` part built by `composeTracestate` before the old vendor
state is appended (the `s:`/`o:`/`p:` prefix and the budgeted tag loop).
`spanIDHexEncoded(·, 16)` is modelled from the spec as fixed-width-16
hex. -/
def composeTracestateDDStart (ctx : SpanContext) (priority : Int) : GoStr :=
  let b := gs ("dd=s:") ++ goItoa priority
  let b :=
    if ctx.origin ≠ ([] : GoStr) then
      b ++ gs (";o:") ++ smMutate originDisallowedFn ctx.origin
    else b
  if !ctx.isRemote then b ++ gs (";p:") ++ formatHexPad 16 ctx.spanID
  else if ctx.reparentID ≠ ([] : GoStr) then b ++ gs (";p:") ++ ctx.reparentID
  else b

/-- The body of the propagating-tag loop of `composeTracestate`: appends
`;t.<key>:<value>` while the 256-character budget allows. -/
def tracestateTagStep (sb : GoStr) (kv : GoStr × GoStr) : GoStr × Bool :=
  if !(strStartsWith (gs ("_dd.p.")) kv.1) then (sb, true)
  else
    let key := smMutate keyDisallowedFn (kv.1.drop 6)
    let value := smMutate valueDisallowedFn kv.2
    if sb.length + key.length + value.length + 4 > 256 then (sb, false)
    else (sb ++ gs (";t.") ++ key ++ ':' :: value, true)

def composeTracestateDD (ctx : SpanContext) (priority : Int) : GoStr :=
  iterStop tracestateTagStep
    (match ctx.trace with
     | none => []
     | some t => t.propagatingTags)
    (composeTracestateDDStart ctx priority)

/-- `composeTracestate`: the `dd=` part followed by up to 31 non-`dd=`
members of the previous tracestate. -/
def tracestateVendorStep (st : GoStr × Nat × Bool) (s : GoStr) :
    GoStr × Nat × Bool :=
  if st.2.2 then st
  else if strStartsWith (gs ("dd=")) s then st
  else if st.2.1 + 1 > 32 then (st.1, st.2.1 + 1, true)
  else (st.1 ++ ',' :: trimAny [' ', '\t'] s, st.2.1 + 1, false)

def composeTracestate (ctx : SpanContext) (priority : Int) (oldState : GoStr) :
    GoStr :=
  let b := composeTracestateDD ctx priority
  if oldState.length == 0 then b
  else
    ((splitCh ',' (trimAny [' ', '\t'] oldState)).foldl tracestateVendorStep
      (b, 1, false)).1

/-! ## The baggage propagator (`propagatorBaggage`, source lines 1364–1472) -/

/-- Model of Go `net/url.QueryUnescape` restricted to single-byte
escapes: `+` becomes space, `%XY` decodes, an invalid escape is an
error (`none`). -/
def unescapeAux : GoStr → Option GoStr
  | [] => some []
  | '%' :: a :: b :: rest =>
    match hexVal? a, hexVal? b with
    | some x, some y => (unescapeAux rest).map (fun r => Char.ofNat (16 * x + y) :: r)
    | _, _ => none
  | '%' :: [_] => none
  | ['%'] => none
  | '+' :: rest => (unescapeAux rest).map (fun r => ' ' :: r)
  | c :: rest => (unescapeAux rest).map (fun r => c :: r)

/-- `url.QueryUnescape` as used by the source: the error is ignored and
the (empty) value is used. -/
def queryUnescape (s : GoStr) : GoStr := (unescapeAux s).getD []

/-- The `ForeachKey` scan of `(*propagatorBaggage).extractTextMap`: the
last `baggage` header value wins. -/
def baggageHeaderOf (reader : Carrier) : GoStr :=
  reader.foldl
    (fun acc kv => if strToLower kv.1 == defaultBaggageHeader then kv.2 else acc)
    ([] : GoStr)

/-- A syntactically acceptable baggage list item: it has an `=`, and key
and value are non-empty after trimming. -/
def goodBaggagePiece (kv : GoStr) : Bool :=
  let r := cutCh '=' kv
  r.2.2 && !(trimSpace r.1 == ([] : GoStr)) && !(trimSpace r.2.1 == ([] : GoStr))

/-- One piece of the validation-and-trim pass: an invalid piece maps the
whole accumulator to `none` (the Go code returns early, discarding the
header). -/
def baggageValidateStep (kv : GoStr) (acc : Option (List GoStr)) :
    Option (List GoStr) :=
  match acc with
  | none => none
  | some l =>
    let r := cutCh '=' kv
    if !(goodBaggagePiece kv) then none
    else some ((trimSpace r.1 ++ '=' :: trimSpace r.2.1) :: l)

/-- `(*propagatorBaggage).extractTextMap` (source lines 1429–1472). -/
def extractTextMapBaggage (reader : Carrier) : Except TracerErr SpanContext :=
  let bh := baggageHeaderOf reader
  let ctx : SpanContext := {}
  if bh == ([] : GoStr) then .ok ctx
  else
    let parts := splitCh ',' bh
    let vparts := parts.foldr baggageValidateStep (some [])
    match vparts with
    | none => .ok ctx
    | some ps =>
      .ok (ps.foldl (fun ctx kv =>
        let r := cutCh '=' kv
        ctx.setBaggageItem (queryUnescape r.1) (queryUnescape r.2.1)) ctx)

/-! ## The B3 propagators (`propagatorB3`, `propagatorB3SingleHeader`,
source lines 639–824) -/

def b3TraceIDHeader : GoStr := gs ("x-b3-traceid")
def b3SpanIDHeader : GoStr := gs ("x-b3-spanid")
def b3SampledHeader : GoStr := gs ("x-b3-sampled")
def b3SingleHeader : GoStr := gs ("b3")

/-- `(*propagatorB3).injectTextMap` (source lines 661–683). -/
def injectTextMapB3 (spanCtx : SpanContext) (writer : Carrier) :
    Except TracerErr Carrier :=
  if spanCtx.traceIDEmpty || spanCtx.spanID == 0 then .error .invalidSpanContext
  else
    let w :=
      if !spanCtx.hasUpper then
        carrierSet writer b3TraceIDHeader (formatHexPad 16 spanCtx.traceIDLower)
      else carrierSet writer b3TraceIDHeader spanCtx.traceIDHex
    let w := carrierSet w b3SpanIDHeader (formatHexPad 16 spanCtx.spanID)
    let pr := spanCtx.samplingPriority
    if pr.2 then
      .ok (carrierSet w b3SampledHeader
        (if pr.1 ≥ priorityAutoKeep then gs ("1") else gs ("0")))
    else .ok w

/-- One step of the `ForeachKey` handler of
`(*propagatorB3).extractTextMap` (source lines 694–719).  A failure of
`extractTraceID128` is swallowed (`return nil`); on that swallowed error
the Go code may keep a partially written upper half, a path no theorem
below exercises (all inputs used parse successfully). -/
def b3ScanStep (st : Except TracerErr SpanContext) (kv : GoStr × GoStr) :
    Except TracerErr SpanContext :=
  match st with
  | .error e => .error e
  | .ok ctx =>
    let key := strToLower kv.1
    if key == b3TraceIDHeader then
      match extractTraceID128 ctx kv.2 with
      | .ok c => .ok c
      | .error _ => .ok ctx
    else if key == b3SpanIDHeader then
      match goParseUintHex kv.2 with
      | some sid => .ok { ctx with spanID := sid }
      | none => .error .spanContextCorrupted
    else if key == b3SampledHeader then
      match goAtoi kv.2 with
      | some p => .ok (ctx.setSamplingPriority p .unknown)
      | none => .error .spanContextCorrupted
    else .ok ctx

/-- `(*propagatorB3).extractTextMap` (source lines 694–726). -/
def extractTextMapB3 (reader : Carrier) : Except TracerErr SpanContext :=
  match reader.foldl b3ScanStep (.ok {}) with
  | .error e => .error e
  | .ok ctx =>
    if ctx.traceIDEmpty || ctx.spanID == 0 then .error .spanContextNotFound
    else .ok ctx

/-- `(*propagatorB3SingleHeader).injectTextMap` (source lines 744–768). -/
def injectTextMapB3Single (spanCtx : SpanContext) (writer : Carrier) :
    Except TracerErr Carrier :=
  if spanCtx.traceIDEmpty || spanCtx.spanID == 0 then .error .invalidSpanContext
  else
    let traceID :=
      if !spanCtx.hasUpper then formatHexPad 16 spanCtx.traceIDLower
      else spanCtx.traceIDHex
    let sb := traceID ++ '-' :: formatHexPad 16 spanCtx.spanID
    let pr := spanCtx.samplingPriority
    let sb :=
      if pr.2 then
        sb ++ (if pr.1 ≥ priorityAutoKeep then gs ("-1") else gs ("-0"))
      else sb
    .ok (carrierSet writer b3SingleHeader sb)

/-- One step of the `ForeachKey` handler of
`(*propagatorB3SingleHeader).extractTextMap` (source lines 779–818). -/
def b3SingleScanStep (st : Except TracerErr SpanContext) (kv : GoStr × GoStr) :
    Except TracerErr SpanContext :=
  match st with
  | .error e => .error e
  | .ok ctx =>
    let key := strToLower kv.1
    if key == b3SingleHeader then
      let parts := splitCh '-' kv.2
      if parts.length ≥ 2 then
        match extractTraceID128 ctx (parts.getD 0 []) with
        | .error e => .error e
        | .ok ctx =>
          match goParseUintHex (parts.getD 1 []) with
          | none => .error .spanContextCorrupted
          | some sid =>
            let ctx := { ctx with spanID := sid }
            if parts.length ≥ 3 then
              let f := parts.getD 2 []
              if f == ([] : GoStr) then .ok ctx
              else if f == gs ("1") || f == gs ("d") then
                .ok (ctx.setSamplingPriority priorityAutoKeep .unknown)
              else if f == gs ("0") then
                .ok (ctx.setSamplingPriority priorityAutoReject .unknown)
              else .error .spanContextCorrupted
            else .ok ctx
      else .error .spanContextCorrupted
    else .ok ctx

/-- `(*propagatorB3SingleHeader).extractTextMap` (source lines 779–824). -/
def extractTextMapB3Single (reader : Carrier) : Except TracerErr SpanContext :=
  match reader.foldl b3SingleScanStep (.ok {}) with
  | .error e => .error e
  | .ok ctx =>
    if ctx.traceIDEmpty || ctx.spanID == 0 then .error .spanContextNotFound
    else .ok ctx

/-! ## The W3C injector (`(*propagatorW3c).injectTextMap`,
source lines 853–896) -/

/-- `(*propagatorW3c).injectTextMap`: traceparent
`00-<32 hex>-<16 hex>-<flags>` plus the tracestate, recomputed by
`composeTracestate` when the context was updated, is local (or remote
with a local root span), the cached tracestate does not start with
`dd=`, or there are no propagating tags; otherwise the cached
tracestate is reused. -/
def injectTextMapW3C (spanCtx : SpanContext) (writer : Carrier) :
    Except TracerErr Carrier :=
  if spanCtx.traceIDEmpty || spanCtx.spanID == 0 then .error .invalidSpanContext
  else
    let pr := spanCtx.samplingPriority
    let flags :=
      if pr.2 && pr.1 ≥ priorityAutoKeep then gs ("01") else gs ("00")
    let ctx :=
      if spanCtx.hasUpper then
        setPropagatingTagSC spanCtx keyTraceID128 spanCtx.upperHex
      else
        match spanCtx.trace with
        | some t =>
          { spanCtx with trace := some (t.unsetPropagatingTag keyTraceID128) }
        | none => spanCtx
    let traceID :=
      if spanCtx.hasUpper then spanCtx.traceIDHex
      else formatHexPad 32 spanCtx.traceIDLower
    let w := carrierSet writer traceparentHeader
      (gs ("00-") ++ traceID ++ '-' :: (formatHexPad 16 ctx.spanID ++ '-' :: flags))
    let ts := ctx.tracePropTag tracestateHeader
    let tagsLen :=
      match ctx.trace with
      | none => 0
      | some t => t.propagatingTagsLen
    let hasRoot :=
      match ctx.trace with
      | none => false
      | some t => t.root
    if ctx.updated ||
       (!ctx.isRemote || (ctx.isRemote && hasRoot)) ||
       (ctx.trace.isSome && !(strStartsWith (gs ("dd=")) ts)) ||
       tagsLen == 0 then
      .ok (carrierSet w tracestateHeader (composeTracestate ctx pr.1 ts))
    else .ok (carrierSet w tracestateHeader ts)

/-! ## The baggage injector (`(*propagatorBaggage).injectTextMap`,
source lines 1330–1419) -/

def baggageMaxItems : Nat := 64
def baggageMaxBytes : Nat := 8192
def safeCharactersKey : GoStr :=
  gs ("ABCDEFGHIJKLMNOPQRSTUVWXYZabcdefghijklmnopqrstuvwxyz0123456789!#$%&'*+-.^_`|~")
def safeCharactersValue : GoStr :=
  gs ("ABCDEFGHIJKLMNOPQRSTUVWXYZabcdefghijklmnopqrstuvwxyz0123456789!#$%&'()*+-./:<>?@[]^_`\x7b|\x7d~")

/-- An upper-case hex digit, as produced by `url.QueryEscape`. -/
def hexUpperChar (d : Nat) : Char :=
  if d < 10 then Char.ofNat (48 + d) else Char.ofNat (55 + d)

/-- Model of `url.QueryEscape` for one character, restricted to single
byte codepoints: space becomes `+`, anything else `%XX`. -/
def queryEscapeChar (c : Char) : GoStr :=
  if c = ' ' then ['+']
  else ['%', hexUpperChar (c.toNat / 16 % 16), hexUpperChar (c.toNat % 16)]

/-- `urlEncode` (source lines 1352–1362). -/
def urlEncode (safe : GoStr) (s : GoStr) : GoStr :=
  (s.map (fun c => if c ∈ safe then [c] else queryEscapeChar c)).flatten

/-- `encodeKey` / `encodeValue` (source lines 1342–1349). -/
def encodeKey (k : GoStr) : GoStr := urlEncode safeCharactersKey (trimSpace k)
def encodeValue (v : GoStr) : GoStr :=
  urlEncode safeCharactersValue (trimSpace v)

/-- `(*propagatorBaggage).injectTextMap` (source lines 1387–1419): at
most 64 items and 8192 bytes, percent-encoded, joined by commas. -/
def injectTextMapBaggage (ctx : SpanContext) (writer : Carrier) :
    Except TracerErr Carrier :=
  let sb := iterStop (fun (st : Nat × GoStr) kv =>
      let (ctr, bb) := st
      if ctr ≥ baggageMaxItems then ((ctr, bb), false)
      else
        let item := (if ctr > 0 then [','] else []) ++
          (encodeKey kv.1 ++ '=' :: encodeValue kv.2)
        if item.length + bb.length > baggageMaxBytes then ((ctr, bb), false)
        else ((ctr + 1, bb ++ item), true)) ctx.baggage (0, [])
  if sb.2.length > 0 then .ok (carrierSet writer defaultBaggageHeader sb.2)
  else .ok writer

/-! ## The chained orchestrator (`chainedPropagator`, source lines 182–420) -/

/-- The five concrete propagator types distinguished by the orchestrator's
type switches. -/
inductive PropKind where
  | datadog
  | b3
  | b3single
  | w3c
  | baggage
deriving DecidableEq, BEq, Repr

/-- `getPropagatorName` (source lines 376–391). -/
def propagatorName : PropKind → GoStr
  | .datadog => gs ("datadog")
  | .b3 => gs ("b3multi")
  | .b3single => gs ("b3")
  | .w3c => gs ("tracecontext")
  | .baggage => gs ("baggage")

/-- An extractor of the chain: its dynamic type and its `Extract`
behaviour on a carrier. -/
structure Extractor where
  kind : PropKind
  run : Carrier → Except TracerErr SpanContext

/-- `TraceID()` through a possibly-nil pointer (the nil-receiver accessor
returns the zero string; the comparison outcome is the same for any
nil-value convention, since the other side is a 32-digit id). -/
def optTraceIDHex : Option SpanContext → GoStr
  | none => []
  | some c => c.traceIDHex

/-- `SpanID()` through a possibly-nil pointer. -/
def optSpanID : Option SpanContext → Nat
  | none => 0
  | some c => c.spanID

/-- `getDatadogPropagator` (source lines 584–592). -/
def getDatadogPropagator (exts : List Extractor) : Option Extractor :=
  exts.find? (fun e => e.kind == PropKind.datadog)

/-- `overrideDatadogParentID` (source lines 597–608). -/
def overrideDatadogParentID (ctx : SpanContext)
    (w3cCtx ddCtx : Option SpanContext) : SpanContext :=
  match w3cCtx, ddCtx with
  | some w, some dd =>
    let ctx := { ctx with spanID := w.spanID }
    if w.reparentID ≠ ([] : GoStr) then { ctx with reparentID := w.reparentID }
    else { ctx with reparentID := formatHexPad 16 dd.spanID }
  | _, _ => ctx

/-- `(*propagatorW3c).propagateTracestate` (source lines 399–420). -/
def propagateTracestate (ctx : SpanContext) (w3cCtx : Option SpanContext) :
    SpanContext :=
  match w3cCtx with
  | none => ctx
  | some w =>
    if !(ctx.traceIDHex == w.traceIDHex) then ctx
    else
      match w.trace with
      | none => ctx
      | some wt =>
        let ctx := if ctx.trace.isNone then { ctx with trace := some newTrace } else ctx
        let ts := wt.propagatingTag tracestateHeader
        let priority := (ctx.samplingPriority).1
        let ctx := setPropagatingTagSC ctx tracestateHeader
          (composeTracestate ctx priority ts)
        { ctx with isRemote := w.isRemote }

/-- The span link built for a conflicting context (source lines 331–342).
The Go code dereferences `*trace.priority` and converts it to `uint32`
(two's complement); the nil-pointer dereference is modelled with
`getD 0` and never exercised by the theorems below. -/
def mkSpanLink (c2 : SpanContext) (kind : PropKind) : SpanLink :=
  let base : SpanLink :=
    { traceID := c2.traceIDLower, spanID := c2.spanID,
      traceIDHigh := c2.traceIDUpper,
      attributes := [(gs ("reason"), gs ("terminated_context")),
                     (gs ("context_headers"), propagatorName kind)] }
  match c2.trace with
  | none => base
  | some t =>
    let flagsU : Nat := (((t.priority.getD 0).emod (2 ^ 32))).toNat
    { base with
      flags := if flagsU > 0 then 1 else 0,
      tracestate := t.propagatingTag tracestateHeader }

/-- The loop state of `(*chainedPropagator).Extract`: the winning
context, the collected span links, and the pending baggage. -/
structure ChainState where
  ctx : Option SpanContext := none
  links : List SpanLink := []
  pending : List (GoStr × GoStr) := []
deriving Repr

/-- The code after the extractor loop of `Extract` (source lines
346–373). -/
def chainFinish (st : ChainState) : Except TracerErr SpanContext :=
  match st.ctx with
  | none =>
    if st.pending.length > 0 then
      .ok { baggage := st.pending.foldl (fun m kv => assocSet m kv.1 kv.2) [],
            baggageOnly := true, hasBaggage := true }
    else .error .spanContextNotFound
  | some c =>
    let c :=
      if st.pending.length > 0 then
        { c with
          baggage := st.pending.foldl (fun m kv => assocSet m kv.1 kv.2) c.baggage,
          hasBaggage := true }
      else c
    let c := if st.links.length > 0 then { c with spanLinks := st.links } else c
    .ok c

/-- The extractor loop of `(*chainedPropagator).Extract` (source lines
284–344): `ef` is `onlyExtractFirst`, `allExt` the full extractor list
(consulted again by `getDatadogPropagator`). -/
def chainLoop (ef : Bool) (allExt : List Extractor) (carrier : Carrier) :
    List Extractor → ChainState → Except TracerErr SpanContext
  | [], st => chainFinish st
  | v :: rest, st =>
    let res := v.run carrier
    if v.kind == PropKind.baggage then
      let pending' :=
        match res with
        | .ok c =>
          if c.baggage.length > 0 then
            c.baggage.foldl (fun m kv => assocSet m kv.1 kv.2) st.pending
          else st.pending
        | .error _ => st.pending
      chainLoop ef allExt carrier rest { st with pending := pending' }
    else
      match st.ctx with
      | none =>
        match res with
        | .error e =>
          if ef then .error e
          else if e ≠ TracerErr.spanContextNotFound then .error e
          else chainLoop ef allExt carrier rest st
        | .ok c =>
          if ef then .ok c
          else chainLoop ef allExt carrier rest { st with ctx := some c }
      | some c0 =>
        let ec := res.toOption
        if optTraceIDHex ec == c0.traceIDHex then
          if v.kind == PropKind.w3c then
            let c0 := propagateTracestate c0 ec
            let c0 :=
              if optSpanID ec != c0.spanID then
                let ddCtx :=
                  match getDatadogPropagator allExt with
                  | none => none
                  | some dd => (dd.run carrier).toOption
                overrideDatadogParentID c0 ec ddCtx
              else c0
            chainLoop ef allExt carrier rest { st with ctx := some c0 }
          else chainLoop ef allExt carrier rest st
        else
          match ec with
          | some c2 =>
            chainLoop ef allExt carrier rest
              { st with links := st.links ++ [mkSpanLink c2 v.kind] }
          | none => chainLoop ef allExt carrier rest st

/-- `(*chainedPropagator).Extract` (source lines 279–374). -/
def chainedExtract (ef : Bool) (exts : List Extractor) (carrier : Carrier) :
    Except TracerErr SpanContext :=
  chainLoop ef exts carrier exts {}

/-- `(*chainedPropagator).Inject` (source lines 258–269), stated
abstractly over the injectors' behaviours: the first failure wins, the
carrier threads through all injectors. -/
def chainedInject (injectors : List (Carrier → Except TracerErr Carrier))
    (carrier : Carrier) : Except TracerErr Carrier :=
  injectors.foldl (fun st inj =>
    match st with
    | .error e => .error e
    | .ok c => inj c) (.ok carrier)

/-! ## Helper lemmas for symbolic evaluation of the parsers -/

theorem toLower_eq_self {c : Char} (h : ¬(65 ≤ c.toNat ∧ c.toNat ≤ 90)) :
    c.toLower = c := by
  simp only [Char.toLower]
  exact if_neg h

theorem strToLower_eq_self {s : GoStr}
    (h : ∀ c ∈ s, ¬(65 ≤ c.toNat ∧ c.toNat ≤ 90)) : strToLower s = s := by
  induction s with
  | nil => rfl
  | cons c cs ih =>
    unfold strToLower at ih ⊢
    rw [List.map_cons, toLower_eq_self (h c (List.mem_cons_self c cs)),
        ih (fun x hx => h x (List.mem_cons_of_mem c hx))]

theorem hexLower_ranges {c : Char} (h : isHexLowerCh c = true) :
    (48 ≤ c.toNat ∧ c.toNat ≤ 57) ∨ (97 ≤ c.toNat ∧ c.toNat ≤ 102) := by
  unfold isHexLowerCh at h
  simp only [Bool.or_eq_true, Bool.and_eq_true, decide_eq_true_eq] at h
  exact h

theorem hexLower_not_upper {c : Char} (h : isHexLowerCh c = true) :
    ¬(65 ≤ c.toNat ∧ c.toNat ≤ 90) := by
  rcases hexLower_ranges h with ⟨h1, h2⟩ | ⟨h1, h2⟩ <;> omega

theorem char_toNat_inj {c d : Char} (h : c.toNat = d.toNat) : c = d :=
  Char.ext (UInt32.ext h)

theorem hexLower_not_mem_trimCut {c : Char} (h : isHexLowerCh c = true) :
    c ∉ (['\t', ' ', '-'] : GoStr) := by
  intro hm
  have hr := hexLower_ranges h
  simp only [List.mem_cons, List.not_mem_nil, or_false] at hm
  rcases hm with rfl | rfl | rfl <;> revert hr <;> decide

theorem hexLower_not_mem_nonWord {c : Char} (h : isHexLowerCh c = true) :
    c ∉ nonWordCutset := by
  intro hm
  have hr := hexLower_ranges h
  unfold nonWordCutset at hm
  simp only [List.mem_cons, List.not_mem_nil, or_false] at hm
  rcases hm with rfl | rfl | rfl | rfl | rfl <;> revert hr <;> decide

theorem hexLower_ne_dash {c : Char}  (h : isHexLowerCh c = true) : c ≠ '-' := by
  intro hcon
  subst hcon
  revert h
  decide

theorem isValidID_of_hexLower {s : GoStr} (hne : s ≠ [])
    (h : ∀ c ∈ s, isHexLowerCh c = true) : isValidID s = true := by
  unfold isValidID
  rw [Bool.and_eq_true]
  constructor
  · simpa using hne
  · rw [List.all_eq_true]
    intro c hc
    have hr := hexLower_ranges (h c hc)
    simp only [Bool.not_eq_true', Bool.or_eq_false_iff, Bool.and_eq_false_iff,
      decide_eq_false_iff_not, not_lt]
    omega

theorem hexVal_isSome_of_hexLower {c : Char} (h : isHexLowerCh c = true) :
    (hexVal? c).isSome = true := by
  unfold hexVal?
  rcases hexLower_ranges h with ⟨h1, h2⟩ | ⟨h1, h2⟩
  · rw [if_pos ⟨h1, h2⟩]; rfl
  · rw [if_neg (by omega), if_pos ⟨h1, h2⟩]; rfl

theorem hexVal_pos_of_ne_zero {c : Char} (h : isHexLowerCh c = true)
    (hne : c ≠ '0') : ∃ d, hexVal? c = some d ∧ 0 < d := by
  unfold hexVal?
  have hz : c.toNat ≠ 48 := fun hcon => hne (char_toNat_inj (by simpa using hcon))
  rcases hexLower_ranges h with ⟨h1, h2⟩ | ⟨h1, h2⟩
  · rw [if_pos ⟨h1, h2⟩]
    exact ⟨c.toNat - 48, rfl, by omega⟩
  · rw [if_neg (by omega), if_pos ⟨h1, h2⟩]
    exact ⟨c.toNat - 87, rfl, by omega⟩

theorem foldl_digitStep_isSome (val? : Char → Option Nat) (b : Nat)
    (s : GoStr) (h : ∀ c ∈ s, (val? c).isSome = true) :
    ∀ a, (s.foldl (digitStep val? b) (some a)).isSome = true := by
  induction s with
  | nil => intro a; rfl
  | cons c cs ih =>
    intro a
    have hc := h c (List.mem_cons_self c cs)
    rcases Option.isSome_iff_exists.mp hc with ⟨d, hd⟩
    simp only [List.foldl_cons]
    rw [show digitStep val? b (some a) c = some (a * b + d) by
      unfold digitStep; rw [hd]]
    exact ih (fun x hx => h x (List.mem_cons_of_mem c hx)) (a * b + d)

/-- A non-empty all-hex string parses under `ParseUint(·, 16, 64)` as soon
as it has at most 16 digits. -/
theorem goParseUintHex_of_hexLower {s : GoStr} (hne : s ≠ [])
    (h : ∀ c ∈ s, isHexLowerCh c = true) (hlen : s.length ≤ 16) :
    ∃ v, goParseUintHex s = some v ∧ v < 2 ^ 64 := by
  have hsome : (parseDigits hexVal? 16 s).isSome = true := by
    unfold parseDigits
    rw [if_neg hne]
    exact foldl_digitStep_isSome hexVal? 16 s
      (fun c hc => hexVal_isSome_of_hexLower (h c hc)) 0
  rcases Option.isSome_iff_exists.mp hsome with ⟨v, hv⟩
  have hbound : v < 16 ^ s.length :=
    parseDigits_lt (by norm_num)
      (fun c d hcd => by
        unfold hexVal? at hcd
        split at hcd
        · simp at hcd; omega
        · split at hcd
          · simp at hcd; omega
          · split at hcd
            · simp at hcd; omega
            · simp at hcd) hv
  have h64 : v < 2 ^ 64 := by
    calc v < 16 ^ s.length := hbound
      _ ≤ 16 ^ 16 := Nat.pow_le_pow_right (by norm_num) hlen
      _ = 2 ^ 64 := by norm_num
  refine ⟨v, ?_, h64⟩
  unfold goParseUintHex
  rw [hv]
  show (if v < 2 ^ 64 then some v else none) = some v
  rw [if_pos h64]

theorem trimLeftAny_eq_self_of_head {cut : GoStr} {s : GoStr}
    (h : ∀ c, s.head? = some c → c ∉ cut) : trimLeftAny cut s = s := by
  cases s with
  | nil => rfl
  | cons c cs =>
    unfold trimLeftAny
    rw [if_neg (h c rfl)]

/-- `Trim` is the identity when neither end character is in the cutset. -/
theorem trimAny_eq_self {cut : GoStr} {s : GoStr}
    (h1 : ∀ c, s.head? = some c → c ∉ cut)
    (h2 : ∀ c, s.getLast? = some c → c ∉ cut) : trimAny cut s = s := by
  unfold trimAny trimRightAny
  rw [trimLeftAny_eq_self_of_head h1, trimLeftAny_eq_self_of_head (by
    intro c hc
    exact h2 c (by rwa [List.head?_reverse] at hc)), List.reverse_reverse]

/-! ## Sanitizer idempotence (claim C7) -/

/-- A mutation function acts as the identity (no collapse) on every
character of the list: mutating is then a no-op, in any state. -/
theorem mutateAux_id {fn : Char → Option Char × Bool} {s : GoStr}
    (h : ∀ c ∈ s, fn c = (some c, false)) : ∀ n, mutateAux fn n s = s := by
  induction s with
  | nil => intro n; rfl
  | cons c cs ih =>
    intro n
    unfold mutateAux
    rw [h c (List.mem_cons_self c cs)]
    simp only []
    rw [ih (fun x hx => h x (List.mem_cons_of_mem c hx)) false]

/-- Characters produced by `keyDisallowedFn` are fixed points of it. -/
theorem keyFn_clean (c0 v : Char) (flag : Bool)
    (h : keyDisallowedFn c0 = (some v, flag)) :
    keyDisallowedFn v = (some v, false) := by
  unfold keyDisallowedFn at h
  split at h
  · cases h; decide
  · split at h
    · cases h; decide
    · cases h
      next hA hB =>
        unfold keyDisallowedFn
        rw [if_neg hA, if_neg hB]

/-- Characters produced by `valueDisallowedFn` from a non-`=` input are
fixed points of it. -/
theorem valueFn_clean (c0 v : Char) (flag : Bool) (hP : c0 ≠ '=')
    (h : valueDisallowedFn c0 = (some v, flag)) :
    valueDisallowedFn v = (some v, false) := by
  unfold valueDisallowedFn at h
  split at h
  · next hc => exact absurd hc hP
  · split at h
    · cases h; decide
    · split at h
      · cases h; decide
      · cases h
        next hA hB hC =>
          unfold valueDisallowedFn
          rw [if_neg hA, if_neg hB, if_neg hC]

/-- Characters produced by `originDisallowedFn` from a non-`=` input are
fixed points of it. -/
theorem originFn_clean (c0 v : Char) (flag : Bool) (hP : c0 ≠ '=')
    (h : originDisallowedFn c0 = (some v, flag)) :
    originDisallowedFn v = (some v, false) := by
  unfold originDisallowedFn at h
  split at h
  · next hc => exact absurd hc hP
  · split at h
    · cases h; decide
    · split at h
      · cases h; decide
      · cases h
        next hA hB hC =>
          unfold originDisallowedFn
          rw [if_neg hA, if_neg hB, if_neg hC]

/-- Every character of the mutator's output is a fixed point of the
mutation function, provided the input satisfies `P` and `P`-outputs are
fixed points. -/
theorem mutateAux_out {fn : Char → Option Char × Bool} {P : Char → Prop}
    (hclean : ∀ c0 v flag, P c0 → fn c0 = (some v, flag) →
      fn v = (some v, false)) :
    ∀ s : GoStr, (∀ c ∈ s, P c) → ∀ n, ∀ c ∈ mutateAux fn n s,
      fn c = (some c, false) := by
  intro s
  induction s with
  | nil => intro _ n c hc; simp [mutateAux] at hc
  | cons c0 cs ih =>
    intro hP n c hc
    have hP0 := hP c0 (List.mem_cons_self c0 cs)
    have hPcs := fun x hx => hP x (List.mem_cons_of_mem c0 hx)
    unfold mutateAux at hc
    rcases hfn : fn c0 with ⟨vo, flag⟩
    rw [hfn] at hc
    cases vo with
    | none =>
      simp only [] at hc
      exact ih hPcs false c hc
    | some v =>
      cases flag with
      | true =>
        simp only [] at hc
        split at hc
        · exact ih hPcs true c hc
        · rcases List.mem_cons.mp hc with rfl | hc
          · exact hclean c0 c true hP0 hfn
          · exact ih hPcs true c hc
      | false =>
        simp only [] at hc
        rcases List.mem_cons.mp hc with rfl | hc
        · exact hclean c0 c false hP0 hfn
        · exact ih hPcs false c hc

/-! ## Claim C7 — sanitizer idempotence -/

/-- C7, counterexample: the value sanitizer (and likewise the origin
sanitizer) is not idempotent: `=` maps to `~`, which maps to `_`. -/
theorem c7_sanitizer_not_idempotent :
    smMutate valueDisallowedFn (gs ("=")) = gs ("~") ∧
    smMutate valueDisallowedFn (smMutate valueDisallowedFn (gs ("="))) = gs ("_") ∧
    smMutate valueDisallowedFn (smMutate valueDisallowedFn (gs ("="))) ≠
      smMutate valueDisallowedFn (gs ("=")) ∧
    smMutate originDisallowedFn (smMutate originDisallowedFn (gs ("="))) ≠
      smMutate originDisallowedFn (gs ("=")) := by
  refine ⟨by decide, by decide, by decide, by decide⟩

/-- C7 (amended): the tracestate-key sanitizer is idempotent on every
string; the tracestate-value and origin sanitizers are idempotent on
every string that contains no `=` (on a string containing `=` a single
application yields `~` where a double application yields `_`). -/
theorem c7_sanitizer_idempotence :
    (∀ s : GoStr,
      smMutate keyDisallowedFn (smMutate keyDisallowedFn s)
        = smMutate keyDisallowedFn s) ∧
    (∀ s : GoStr, '=' ∉ s →
      smMutate valueDisallowedFn (smMutate valueDisallowedFn s)
        = smMutate valueDisallowedFn s) ∧
    (∀ s : GoStr, '=' ∉ s →
      smMutate originDisallowedFn (smMutate originDisallowedFn s)
        = smMutate originDisallowedFn s) := by
  refine ⟨?_, ?_, ?_⟩
  · intro s
    exact mutateAux_id
      (mutateAux_out (P := fun _ => True)
        (fun c0 v flag _ h => keyFn_clean c0 v flag h) s
        (fun _ _ => trivial) false) false
  · intro s hs
    exact mutateAux_id
      (mutateAux_out (P := fun c => c ≠ '=')
        (fun c0 v flag hP h => valueFn_clean c0 v flag hP h) s
        (fun c hc hcon => hs (hcon ▸ hc)) false) false
  · intro s hs
    exact mutateAux_id
      (mutateAux_out (P := fun c => c ≠ '=')
        (fun c0 v flag hP h => originFn_clean c0 v flag hP h) s
        (fun c hc hcon => hs (hcon ▸ hc)) false) false

/-- Witness for `c7_sanitizer_idempotence` at a concrete string. -/
theorem c7_sanitizer_idempotence_witness :
    '=' ∉ gs ("a,b;c~~d") ∧
    smMutate valueDisallowedFn (smMutate valueDisallowedFn (gs ("a,b;c~~d")))
      = smMutate valueDisallowedFn (gs ("a,b;c~~d")) :=
  ⟨by decide, c7_sanitizer_idempotence.2.1 (gs ("a,b;c~~d")) (by decide)⟩

/-! ## Claim C8 — the `dd=` segment length bound -/

/-- One tag step either leaves the builder unchanged or leaves it within
the 256-character budget. -/
theorem tagStep_length (sb : GoStr) (kv : GoStr × GoStr) :
    (tracestateTagStep sb kv).1 = sb ∨
    (tracestateTagStep sb kv).1.length ≤ 256 := by
  unfold tracestateTagStep
  split
  · left; rfl
  · simp only []
    split
    · left; rfl
    · right
      next hgt =>
        simp only [gt_iff_lt, not_lt] at hgt
        simp only [List.length_append, List.length_cons]
        have h3 : (gs (";t.")).length = 3 := by decide
        omega

/-- The tag loop never grows the builder beyond `max 256` its starting
length. -/
theorem iterStop_tagStep_le :
    ∀ (tags : List (GoStr × GoStr)) (sb : GoStr),
      (iterStop tracestateTagStep tags sb).length ≤ max 256 sb.length := by
  intro tags
  induction tags with
  | nil => intro sb; simp [iterStop]
  | cons kv tags ih =>
    intro sb
    rcases hstep : tracestateTagStep sb kv with ⟨sb', cont⟩
    have hlen : sb' = sb ∨ sb'.length ≤ 256 := by
      have := tagStep_length sb kv
      rwa [hstep] at this
    unfold iterStop
    rw [hstep]
    cases cont with
    | true =>
      simp only [if_pos rfl]
      refine le_trans (ih sb') ?_
      rcases hlen with rfl | hle
      · exact le_rfl
      · omega
    | false =>
      simp only [Bool.false_eq_true, if_false]
      rcases hlen with rfl | hle
      · exact le_max_of_le_right le_rfl
      · omega

/-- The vendor members appended after the `dd=` part always start with a
comma, so the `dd=` part is exactly the first list member of the
composed tracestate. -/
theorem composeTracestate_split (ctx : SpanContext) (priority : Int)
    (oldState : GoStr) :
    ∃ suffix : GoStr,
      composeTracestate ctx priority oldState
        = composeTracestateDD ctx priority ++ suffix ∧
      (suffix = [] ∨ suffix.head? = some ',') := by
  unfold composeTracestate
  by_cases h0 : oldState.length == 0
  · rw [if_pos h0]
    exact ⟨[], by simp, Or.inl rfl⟩
  · rw [if_neg h0]
    have main : ∀ (l : List GoStr) (suf : GoStr) (n : Nat) (stopped : Bool),
        (suf = [] ∨ suf.head? = some ',') →
        ∃ suf' : GoStr,
          (l.foldl tracestateVendorStep
            (composeTracestateDD ctx priority ++ suf, n, stopped)).1
          = composeTracestateDD ctx priority ++ suf' ∧
          (suf' = [] ∨ suf'.head? = some ',') := by
      intro l
      induction l with
      | nil => intro suf n stopped hP; exact ⟨suf, rfl, hP⟩
      | cons x xs ih =>
        intro suf n stopped hP
        simp only [List.foldl_cons]
        unfold tracestateVendorStep
        by_cases hs : stopped = true
        · subst hs
          rw [if_pos rfl]
          exact ih suf n true hP
        · rw [if_neg hs]
          by_cases hdd : strStartsWith (gs ("dd=")) x
          · rw [if_pos (by simpa using hdd)]
            exact ih suf n stopped hP
          · rw [if_neg (by simpa using hdd)]
            by_cases hn : n + 1 > 32
            · rw [if_pos (by simpa using hn)]
              exact ih suf (n + 1) true hP
            · rw [if_neg (by simpa using hn)]
              simp only [List.append_assoc]
              refine ih (suf ++ ',' :: trimAny [' ', '\t'] x) (n + 1) false ?_
              rcases hP with rfl | hP
              · right; rfl
              · right
                rcases suf with _ | ⟨c, cs⟩
                · simp at hP
                · simpa using hP
    have hm := main (splitCh ',' (trimAny [' ', '\t'] oldState)) [] 1 false (Or.inl rfl)
    simp only [List.append_nil] at hm
    exact hm

set_option maxRecDepth 20000 in
/-- C8, counterexample: a span context whose origin alone exceeds the
budget produces a `dd=` segment of length 309 > 256 (the 256-character
check only guards the tag loop, not the `s:`/`o:`/`p:` prefix). -/
theorem c8_counterexample :
    (composeTracestate
      { origin := List.replicate 300 'a', isRemote := true } 1 []).length
      = 309 ∧ ¬ ((composeTracestate
      { origin := List.replicate 300 'a', isRemote := true } 1 []).length ≤ 256) := by
  constructor
  · decide
  · decide

/-- C8 (amended): whenever the `dd=s:<priority>[;o:<origin>][;p:<id>]`
prefix fits in 256 characters, the whole `dd=` part stays within 256
characters — the propagating-tag loop never pushes it past the budget —
and the vendor members are appended after it, separated by a comma. -/
theorem c8_dd_segment_bound (ctx : SpanContext) (priority : Int)
    (oldState : GoStr)
    (h : (composeTracestateDDStart ctx priority).length ≤ 256) :
    (composeTracestateDD ctx priority).length ≤ 256 ∧
    ∃ suffix : GoStr,
      composeTracestate ctx priority oldState
        = composeTracestateDD ctx priority ++ suffix ∧
      (suffix = [] ∨ suffix.head? = some ',') := by
  constructor
  · have := iterStop_tagStep_le
      (match ctx.trace with
       | none => []
       | some t => t.propagatingTags) (composeTracestateDDStart ctx priority)
    unfold composeTracestateDD
    omega
  · exact composeTracestate_split ctx priority oldState

/-- Witness for `c8_dd_segment_bound` at a concrete context. -/
theorem c8_dd_segment_bound_witness :
    (composeTracestateDDStart
      { origin := gs ("rum"),
        trace := some { propagatingTags := [(keyTraceID128, gs ("640cfd8d00000000"))] } }
      2).length ≤ 256 ∧
    (composeTracestateDD
      { origin := gs ("rum"),
        trace := some { propagatingTags := [(keyTraceID128, gs ("640cfd8d00000000"))] } }
      2).length ≤ 256 :=
  ⟨by decide,
   (c8_dd_segment_bound
      { origin := gs ("rum"),
        trace := some { propagatingTags := [(keyTraceID128, gs ("640cfd8d00000000"))] } }
      2 (gs ("othervendor=xyz")) (by decide)).1⟩

/-! ## Claim C9 — a malformed pair discards the whole baggage header -/

theorem baggageValidate_none {parts : List GoStr}
    (h : ∃ kv ∈ parts, goodBaggagePiece kv = false) :
    parts.foldr baggageValidateStep (some []) = none := by
  induction parts with
  | nil => rcases h with ⟨kv, hkv, _⟩; simp at hkv
  | cons p ps ih =>
    rcases h with ⟨kv, hkv, hbad⟩
    rcases List.mem_cons.mp hkv with rfl | hkv
    · simp only [List.foldr_cons]
      rcases hfr : ps.foldr baggageValidateStep (some []) with _ | l
      · rfl
      · simp [baggageValidateStep, hbad]
    · simp only [List.foldr_cons]
      rw [ih ⟨kv, hkv, hbad⟩]
      rfl

/-- C9 (confirmed): if any comma-separated piece of the baggage header is
missing its `=` or has an empty key or value after trimming, the entire
header is discarded: extraction succeeds (no error) with a context
carrying no baggage at all. -/
theorem c9_baggage_malformed_discards_all (reader : Carrier)
    (h : ∃ kv ∈ splitCh ',' (baggageHeaderOf reader),
      goodBaggagePiece kv = false) :
    extractTextMapBaggage reader = .ok ({} : SpanContext) := by
  unfold extractTextMapBaggage
  by_cases h0 : baggageHeaderOf reader == ([] : GoStr)
  · rw [if_pos h0]
  · rw [if_neg h0]
    simp only [baggageValidate_none h]

/-- Witness for `c9_baggage_malformed_discards_all`: a header with a
well-formed first pair and a malformed second piece yields an empty
context. -/
theorem c9_baggage_malformed_discards_all_witness :
    (∃ kv ∈ splitCh ',' (baggageHeaderOf
        [(gs ("baggage"), gs ("foo=bar,broken"))]),
      goodBaggagePiece kv = false) ∧
    extractTextMapBaggage [(gs ("baggage"), gs ("foo=bar,broken"))]
      = .ok ({} : SpanContext) :=
  ⟨⟨gs ("broken"), by decide, by decide⟩,
   c9_baggage_malformed_discards_all _ ⟨gs ("broken"), by decide, by decide⟩⟩

/-! ## Claim C10 — more than one traceparent header entry -/

/-- A carrier entry whose (case-insensitive) key is `traceparent`. -/
def isTraceparentEntry (kv : GoStr × GoStr) : Bool :=
  strToLower kv.1 == traceparentHeader

theorem w3cScan_error_absorbs (l : Carrier) (e : TracerErr) :
    l.foldl w3cScanStep (.error e) = .error e := by
  induction l with
  | nil => rfl
  | cons kv rest ih => simpa [w3cScanStep] using ih

/-- Once a non-empty traceparent value has been recorded, any further
traceparent entry makes the scan fail with `corrupted`. -/
theorem w3cScan_armed (l : Carrier) :
    ∀ (ph sh : GoStr) (ctx : SpanContext), ph ≠ [] →
      (∃ kv ∈ l, isTraceparentEntry kv = true) →
      l.foldl w3cScanStep (.ok (ph, sh, ctx))
        = .error .spanContextCorrupted := by
  induction l with
  | nil =>
    intro ph sh ctx _ h
    rcases h with ⟨kv, hkv, _⟩
    simp at hkv
  | cons kv rest ih =>
    intro ph sh ctx hph h
    simp only [List.foldl_cons]
    by_cases htp : isTraceparentEntry kv = true
    · unfold isTraceparentEntry at htp
      rw [show w3cScanStep (.ok (ph, sh, ctx)) kv
          = .error TracerErr.spanContextCorrupted by
        unfold w3cScanStep
        simp only []
        rw [if_pos htp, if_pos (by simpa using hph)]]
      exact w3cScan_error_absorbs rest _
    · have hstep : ∃ sh' ctx', w3cScanStep (.ok (ph, sh, ctx)) kv
          = .ok (ph, sh', ctx') := by
        unfold w3cScanStep
        simp only []
        rw [if_neg (by simpa [isTraceparentEntry] using htp)]
        by_cases h2 : strToLower kv.1 == tracestateHeader
        · rw [if_pos h2]; exact ⟨kv.2, ctx, rfl⟩
        · rw [if_neg h2]
          by_cases h3 : strStartsWith defaultBaggageHeaderKeyStart (strToLower kv.1)
          · rw [if_pos h3]; exact ⟨sh, _, rfl⟩
          · rw [if_neg h3]; exact ⟨sh, ctx, rfl⟩
      rcases hstep with ⟨sh', ctx', hstep⟩
      rw [hstep]
      refine ih ph sh' ctx' hph ?_
      rcases h with ⟨kv0, hkv0, htp0⟩
      rcases List.mem_cons.mp hkv0 with rfl | hkv0
      · exact absurd htp0 htp
      · exact ⟨kv0, hkv0, htp0⟩

/-- Before any traceparent value has been recorded, the scan errors as
soon as a non-empty-valued traceparent entry is followed by another
traceparent entry. -/
theorem w3cScan_dup (l : Carrier) :
    ∀ (sh : GoStr) (ctx : SpanContext),
      2 ≤ (l.filter isTraceparentEntry).length →
      (∀ kv, (l.filter isTraceparentEntry).head? = some kv → kv.2 ≠ []) →
      l.foldl w3cScanStep (.ok ([], sh, ctx))
        = .error .spanContextCorrupted := by
  induction l with
  | nil => intro sh ctx h _; simp at h
  | cons kv rest ih =>
    intro sh ctx hlen hhead
    simp only [List.foldl_cons]
    by_cases htp : isTraceparentEntry kv = true
    · have hne : kv.2 ≠ [] := by
        apply hhead kv
        rw [List.filter_cons_of_pos htp]
        rfl
      rw [show w3cScanStep (.ok ([], sh, ctx)) kv = .ok (kv.2, sh, ctx) by
        unfold w3cScanStep
        simp only []
        rw [if_pos (by simpa [isTraceparentEntry] using htp), if_neg (by simp)]]
      have hmem : ∃ kv0 ∈ rest, isTraceparentEntry kv0 = true := by
        rw [List.filter_cons_of_pos htp] at hlen
        have : 1 ≤ (rest.filter isTraceparentEntry).length := by
          simpa using hlen
        rcases List.exists_mem_of_length_pos this with ⟨kv0, hkv0⟩
        exact ⟨kv0, (List.mem_filter.mp hkv0).1, (List.mem_filter.mp hkv0).2⟩
      exact w3cScan_armed rest kv.2 sh ctx hne hmem
    · have hstep : ∃ sh' ctx', w3cScanStep (.ok ([], sh, ctx)) kv
          = .ok ([], sh', ctx') := by
        unfold w3cScanStep
        simp only []
        rw [if_neg (by simpa [isTraceparentEntry] using htp)]
        by_cases h2 : strToLower kv.1 == tracestateHeader
        · rw [if_pos h2]; exact ⟨kv.2, ctx, rfl⟩
        · rw [if_neg h2]
          by_cases h3 : strStartsWith defaultBaggageHeaderKeyStart (strToLower kv.1)
          · rw [if_pos h3]; exact ⟨sh, _, rfl⟩
          · rw [if_neg h3]; exact ⟨sh, ctx, rfl⟩
      rcases hstep with ⟨sh', ctx', hstep⟩
      rw [hstep]
      rw [List.filter_cons_of_neg (by simpa using htp)] at hlen hhead
      exact ih sh' ctx' hlen hhead

/-- C10, counterexample: two traceparent entries whose first value is
empty do not trip the duplicate check — extraction fails with
`not_found`, not `corrupted`. -/
theorem c10_counterexample :
    (([((gs ("traceparent")), ([] : GoStr)),
       ((gs ("traceparent")), ([] : GoStr))] : Carrier).filter
      isTraceparentEntry).length = 2 ∧
    extractTextMapW3C
      [((gs ("traceparent")), ([] : GoStr)),
       ((gs ("traceparent")), ([] : GoStr))]
      = .error .spanContextNotFound := by
  constructor
  · decide
  · decide

/-- C10 (amended): when a carrier presents more than one traceparent
entry and the first of them has a non-empty value, W3C extraction fails
with `corrupted`, regardless of the values' well-formedness. -/
theorem c10_duplicate_traceparent (reader : Carrier)
    (hlen : 2 ≤ (reader.filter isTraceparentEntry).length)
    (hhead : ∀ kv, (reader.filter isTraceparentEntry).head? = some kv →
      kv.2 ≠ []) :
    extractTextMapW3C reader = .error .spanContextCorrupted := by
  unfold extractTextMapW3C
  rw [w3cScan_dup reader [] { isRemote := true } hlen hhead]

/-- Witness for `c10_duplicate_traceparent` at a concrete carrier with
two well-formed traceparent entries. -/
theorem c10_duplicate_traceparent_witness :
    extractTextMapW3C
      [((gs ("traceparent")),
        gs ("00-00000000000000000000000000000001-0000000000000001-01")),
       ((gs ("traceparent")),
        gs ("00-00000000000000000000000000000002-0000000000000002-01"))]
      = .error .spanContextCorrupted :=
  c10_duplicate_traceparent _ (by decide) (by decide)

/-! ## Symbolic evaluation of `parseTraceparent` (claims C5 and C6) -/

theorem getLast?_mem {l : GoStr} {a : Char} (h : l.getLast? = some a) :
    a ∈ l := by
  cases l with
  | nil => simp at h
  | cons c cs =>
    rw [List.getLast?_eq_getLast _ (by simp)] at h
    have := List.getLast_mem (l := c :: cs) (by simp)
    rw [Option.some_inj] at h
    rwa [h] at this

theorem getLast?_append_right {l1 l2 : GoStr} (h : l2 ≠ []) :
    (l1 ++ l2).getLast? = l2.getLast? := by
  rw [List.getLast?_append]
  cases hl : l2.getLast? with
  | none => rw [List.getLast?_eq_none_iff] at hl; exact absurd hl h
  | some a => rfl

theorem trimLeftAny_isSuffix (cut : GoStr) (s : GoStr) :
    trimLeftAny cut s <:+ s := by
  induction s with
  | nil => exact List.suffix_refl []
  | cons c cs ih =>
    unfold trimLeftAny
    by_cases hc : c ∈ cut
    · rw [if_pos hc]
      exact ih.trans (List.suffix_cons c cs)
    · rw [if_neg hc]

theorem trimLeftAny_mem (cut : GoStr) {s : GoStr} {c : Char} (hc : c ∈ s)
    (hcut : c ∉ cut) : c ∈ trimLeftAny cut s := by
  induction s with
  | nil => simp at hc
  | cons c0 cs ih =>
    unfold trimLeftAny
    by_cases h0 : c0 ∈ cut
    · rw [if_pos h0]
      rcases List.mem_cons.mp hc with rfl | hc
      · exact absurd h0 hcut
      · exact ih hc
    · rw [if_neg h0]
      exact hc

theorem goParseUintHex_eq_parseDigits {s : GoStr} {v : Nat}
    (h : goParseUintHex s = some v) : parseDigits hexVal? 16 s = some v := by
  unfold goParseUintHex at h
  rcases hp : parseDigits hexVal? 16 s with _ | n
  · rw [hp] at h; exact absurd h (by simp)
  · rw [hp] at h
    simp only [] at h
    split at h
    · exact h
    · exact absurd h (by simp)

/-- `extractTraceID128` succeeds on a 32-digit lowercase-hex trace id
with at least one nonzero digit. -/
theorem extractTraceID128_ok (ctx : SpanContext) {tid : GoStr}
    (hlen : tid.length = 32)
    (hhex : ∀ c ∈ tid, isHexLowerCh c = true)
    (hnz : ∃ c ∈ tid, c ≠ '0') :
    ∃ ctx', extractTraceID128 ctx tid = .ok ctx' := by
  unfold extractTraceID128
  have hv : (if tid.length > 32 then List.drop (tid.length - 32) tid else tid)
      = tid := if_neg (by omega)
  rw [hv]
  rcases hnz with ⟨c, hcmem, hcne⟩
  have hsuf := trimLeftAny_isSuffix ['0'] tid
  have hsublen : (trimLeftAny ['0'] tid).length ≤ 32 := hlen ▸ hsuf.length_le
  have hsubmem : ∀ x ∈ trimLeftAny ['0'] tid, isHexLowerCh x = true :=
    fun x hx => hhex x (hsuf.subset hx)
  have hne : trimLeftAny ['0'] tid ≠ [] := by
    intro hcon
    have := trimLeftAny_mem ['0'] hcmem (by simpa using hcne)
    rw [hcon] at this
    simp at this
  by_cases h16 : (trimLeftAny ['0'] tid).length ≤ 16
  · rw [if_pos h16]
    rcases goParseUintHex_of_hexLower hne hsubmem h16 with ⟨v, hv, _⟩
    rw [hv]
    exact ⟨_, rfl⟩
  · rw [if_neg h16]
    push_neg at h16
    have hdlen : ((trimLeftAny ['0'] tid).drop
        ((trimLeftAny ['0'] tid).take ((trimLeftAny ['0'] tid).length - 16)).length).length
        = 16 := by
      rw [List.length_take, List.length_drop]
      omega
    have hdne : ((trimLeftAny ['0'] tid).drop
        ((trimLeftAny ['0'] tid).take ((trimLeftAny ['0'] tid).length - 16)).length) ≠ [] := by
      intro hcon
      have := congrArg List.length hcon
      rw [hdlen] at this
      simp at this
    rcases goParseUintHex_of_hexLower hdne
      (fun x hx => hsubmem x (List.mem_of_mem_drop hx)) (le_of_eq hdlen)
      with ⟨v, hv, _⟩
    rw [hv]
    exact ⟨_, rfl⟩

/-- The split of a canonical traceparent header into its four parts. -/
theorem traceparent_parts {ver tid sid fl : GoStr}
    (hver : '-' ∉ ver) (htid : '-' ∉ tid) (hsid : '-' ∉ sid) (hfl : '-' ∉ fl) :
    splitNCh '-' 5 (ver ++ '-' :: (tid ++ ('-' :: (sid ++ ('-' :: fl)))))
      = [ver, tid, sid, fl] := by
  have hsplit : splitCh '-' (ver ++ '-' :: (tid ++ ('-' :: (sid ++ ('-' :: fl)))))
      = [ver, tid, sid, fl] := by
    rw [splitCh_append _ hver, splitCh_append _ htid, splitCh_append _ hsid,
        splitCh_of_not_mem hfl]
  unfold splitNCh
  rw [hsplit]
  rfl

/-- Canonicalisation (`ToLower ∘ Trim`) is the identity when every
character is a dash or lowercase hex and both ends are hex. -/
theorem tpHeaderCanon_id {s : GoStr}
    (hall : ∀ c ∈ s, c = '-' ∨ isHexLowerCh c = true)
    (hh : ∀ c, s.head? = some c → isHexLowerCh c = true)
    (hl : ∀ c, s.getLast? = some c → isHexLowerCh c = true) :
    tpHeaderCanon s = s := by
  unfold tpHeaderCanon
  rw [trimAny_eq_self, strToLower_eq_self]
  · intro c hc
    rcases hall c hc with rfl | hhex
    · decide
    · exact hexLower_not_upper hhex
  · intro c hc
    exact hexLower_not_mem_trimCut (hh c hc)
  · intro c hc
    exact hexLower_not_mem_trimCut (hl c hc)

/-- Canonicalisation is the identity on a well-formed four-field
lowercase-hex traceparent header. -/
theorem traceparent_canon {ver tid sid fl : GoStr}
    (hver : ∀ c ∈ ver, isHexLowerCh c = true) (hvne : ver ≠ [])
    (htid : ∀ c ∈ tid, isHexLowerCh c = true)
    (hsid : ∀ c ∈ sid, isHexLowerCh c = true)
    (hfl : ∀ c ∈ fl, isHexLowerCh c = true) (hfne : fl ≠ []) :
    tpHeaderCanon (ver ++ '-' :: (tid ++ ('-' :: (sid ++ ('-' :: fl)))))
      = ver ++ '-' :: (tid ++ ('-' :: (sid ++ ('-' :: fl)))) := by
  refine tpHeaderCanon_id ?_ ?_ ?_
  · intro c hc
    simp only [List.mem_append, List.mem_cons] at hc
    rcases hc with h | h | h | h | h | h | h
    · exact Or.inr (hver c h)
    · exact Or.inl h
    · exact Or.inr (htid c h)
    · exact Or.inl h
    · exact Or.inr (hsid c h)
    · exact Or.inl h
    · exact Or.inr (hfl c h)
  · intro c hc
    rcases ver with _ | ⟨v0, vs⟩
    · exact absurd rfl hvne
    · simp only [List.cons_append, List.head?_cons, Option.some_inj] at hc
      rw [← hc]
      exact hver v0 (List.mem_cons_self v0 vs)
  · intro c hc
    rw [getLast?_append_right (by simp)] at hc
    rw [show ('-' :: (tid ++ ('-' :: (sid ++ ('-' :: fl)))))
        = ['-'] ++ (tid ++ ('-' :: (sid ++ ('-' :: fl)))) from rfl] at hc
    rw [getLast?_append_right (by simp)] at hc
    rw [getLast?_append_right (by simp)] at hc
    rw [show ('-' :: (sid ++ ('-' :: fl))) = ['-'] ++ (sid ++ ('-' :: fl)) from rfl] at hc
    rw [getLast?_append_right (by simp)] at hc
    rw [getLast?_append_right (by simp)] at hc
    rw [show ('-' :: fl) = ['-'] ++ fl from rfl] at hc
    rw [getLast?_append_right hfne] at hc
    exact hfl c (getLast?_mem hc)

/-- Canonicalisation is the identity on a well-formed five-field header
(version ≥ 1 with a trailing part). -/
theorem traceparent_canon5 {ver tid sid fl tail : GoStr}
    (hver : ∀ c ∈ ver, isHexLowerCh c = true) (hvne : ver ≠ [])
    (htid : ∀ c ∈ tid, isHexLowerCh c = true)
    (hsid : ∀ c ∈ sid, isHexLowerCh c = true)
    (hfl : ∀ c ∈ fl, isHexLowerCh c = true)
    (htail : ∀ c ∈ tail, isHexLowerCh c = true) (htne : tail ≠ []) :
    tpHeaderCanon (ver ++ '-' :: (tid ++ ('-' :: (sid ++ ('-' ::
        (fl ++ ('-' :: tail)))))))
      = ver ++ '-' :: (tid ++ ('-' :: (sid ++ ('-' :: (fl ++ ('-' :: tail)))))) := by
  refine tpHeaderCanon_id ?_ ?_ ?_
  · intro c hc
    simp only [List.mem_append, List.mem_cons] at hc
    rcases hc with h | h | h | h | h | h | h | h | h
    · exact Or.inr (hver c h)
    · exact Or.inl h
    · exact Or.inr (htid c h)
    · exact Or.inl h
    · exact Or.inr (hsid c h)
    · exact Or.inl h
    · exact Or.inr (hfl c h)
    · exact Or.inl h
    · exact Or.inr (htail c h)
  · intro c hc
    rcases ver with _ | ⟨v0, vs⟩
    · exact absurd rfl hvne
    · simp only [List.cons_append, List.head?_cons, Option.some_inj] at hc
      rw [← hc]
      exact hver v0 (List.mem_cons_self v0 vs)
  · intro c hc
    rw [getLast?_append_right (by simp)] at hc
    rw [show ('-' :: (tid ++ ('-' :: (sid ++ ('-' :: (fl ++ ('-' :: tail)))))))
        = ['-'] ++ (tid ++ ('-' :: (sid ++ ('-' :: (fl ++ ('-' :: tail))))))
        from rfl] at hc
    rw [getLast?_append_right (by simp)] at hc
    rw [getLast?_append_right (by simp)] at hc
    rw [show ('-' :: (sid ++ ('-' :: (fl ++ ('-' :: tail)))))
        = ['-'] ++ (sid ++ ('-' :: (fl ++ ('-' :: tail)))) from rfl] at hc
    rw [getLast?_append_right (by simp)] at hc
    rw [getLast?_append_right (by simp)] at hc
    rw [show ('-' :: (fl ++ ('-' :: tail))) = ['-'] ++ (fl ++ ('-' :: tail))
        from rfl] at hc
    rw [getLast?_append_right (by simp)] at hc
    rw [getLast?_append_right (by simp)] at hc
    rw [show ('-' :: tail) = ['-'] ++ tail from rfl] at hc
    rw [getLast?_append_right htne] at hc
    exact htail c (getLast?_mem hc)

/-- The split of a canonical five-field traceparent header. -/
theorem traceparent_parts5 {ver tid sid fl tail : GoStr}
    (hver : '-' ∉ ver) (htid : '-' ∉ tid) (hsid : '-' ∉ sid) (hfl : '-' ∉ fl)
    (htail : '-' ∉ tail) :
    splitNCh '-' 5 (ver ++ '-' :: (tid ++ ('-' :: (sid ++ ('-' ::
        (fl ++ ('-' :: tail)))))))
      = [ver, tid, sid, fl, tail] := by
  have hsplit : splitCh '-' (ver ++ '-' :: (tid ++ ('-' :: (sid ++ ('-' ::
      (fl ++ ('-' :: tail)))))))
      = [ver, tid, sid, fl, tail] := by
    rw [splitCh_append _ hver, splitCh_append _ htid, splitCh_append _ hsid,
        splitCh_append _ hfl, splitCh_of_not_mem htail]
  unfold splitNCh
  rw [hsplit]
  rfl

/-- The head of `SplitN(·, "-", 5)` is the head of the unbounded split. -/
theorem splitNCh_five_getD_zero {sep : Char} {s : GoStr} {h : GoStr}
    {t : List GoStr} (heq : splitCh sep s = h :: t) :
    (splitNCh sep 5 s).getD 0 [] = h := by
  unfold splitNCh
  rw [heq]
  by_cases hlen : (h :: t).length ≤ 5
  · rw [if_pos hlen]
    rfl
  · rw [if_neg hlen]
    rcases t with _ | ⟨a, t⟩
    · simp at hlen
    · rfl

/-- A positive hex numeral (some digit nonzero) parses to a positive
value. -/
theorem goParseUintHex_pos {s : GoStr} {v : Nat}
    (h : goParseUintHex s = some v) {c : Char} (hc : c ∈ s) (hne : c ≠ '0')
    (hhex : isHexLowerCh c = true) : 0 < v := by
  rcases hexVal_pos_of_ne_zero hhex hne with ⟨d, hd, hdpos⟩
  exact parseDigits_pos (by norm_num) (goParseUintHex_eq_parseDigits h) hc hd hdpos

/-! ## Claim C6 — all-zero span id yields `not_found` -/

/-- C6 (confirmed): a traceparent header that is well-formed except that
its 16-hex span-id field is all zeros is rejected with
`ErrSpanContextNotFound` (treated as absent), not with
`ErrSpanContextCorrupted`. -/
theorem c6_zero_spanid_not_found (ctx : SpanContext) (tid fl : GoStr)
    (htl : tid.length = 32) (hthex : ∀ c ∈ tid, isHexLowerCh c = true)
    (htnz : ∃ c ∈ tid, c ≠ '0')
    (hfl : fl.length = 2) (hfhex : ∀ c ∈ fl, isHexLowerCh c = true) :
    parseTraceparent ctx
      (gs ("00") ++ '-' :: (tid ++ ('-' :: (List.replicate 16 '0' ++ ('-' :: fl)))))
      = .error .spanContextNotFound := by
  have hzhex : ∀ c ∈ List.replicate 16 '0', isHexLowerCh c = true := by
    intro c hc
    rw [List.eq_of_mem_replicate hc]
    decide
  have hfne : fl ≠ [] := by
    intro hcon
    rw [hcon] at hfl
    simp at hfl
  have hcanon := @traceparent_canon (gs ("00")) _ _ _ (by decide) (by decide)
    hthex hzhex hfhex hfne
  have hlen : (gs ("00") ++ '-' :: (tid ++ ('-' :: (List.replicate 16 '0'
      ++ ('-' :: fl))))).length = 55 := by
    simp only [List.length_append, List.length_cons, List.length_replicate]
    rw [htl, hfl]
    decide
  have hparts : tpParts (gs ("00") ++ '-' :: (tid ++ ('-' ::
      (List.replicate 16 '0' ++ ('-' :: fl)))))
      = [gs ("00"), tid, List.replicate 16 '0', fl] := by
    unfold tpParts
    rw [hcanon]
    exact traceparent_parts (by decide)
      (fun hm => hexLower_ne_dash (hthex '-' hm) rfl)
      (fun hm => hexLower_ne_dash (hzhex '-' hm) rfl)
      (fun hm => hexLower_ne_dash (hfhex '-' hm) rfl)
  have htidtrim : trimAny nonWordCutset tid = tid :=
    trimAny_of_not_mem (fun c hc => hexLower_not_mem_nonWord (hthex c hc))
  have hvalid : isValidID tid = true :=
    isValidID_of_hexLower (by intro hcon; rw [hcon] at htl; simp at htl) hthex
  rcases extractTraceID128_ok
    (match ctx.trace with
     | some t => { ctx with trace := some (t.unsetPropagatingTag keyTraceID128) }
     | none => ctx) htl hthex htnz with ⟨ctx2, hex128⟩
  have hz1 : trimAny nonWordCutset (List.replicate 16 '0')
      = List.replicate 16 '0' := by decide
  have hzparse : goParseUintHex (List.replicate 16 '0') = some 0 := by decide
  have hv2 : goParseUintHex (trimAny nonWordCutset (gs ("00"))) = some 0 := by
    decide
  unfold parseTraceparent
  rw [hcanon, hlen, hparts]
  simp only [List.getD_cons_zero, List.getD_cons_succ]
  simp +decide [htidtrim, htl, hvalid, hex128, hz1, hzparse, hv2]
  rw [show goParseUintHex (trimAny nonWordCutset
    ['0', '0', '0', '0', '0', '0', '0', '0', '0', '0', '0', '0', '0', '0',
     '0', '0']) = some 0 from by decide]
  simp

/-- Witness for `c6_zero_spanid_not_found` at a concrete header. -/
theorem c6_zero_spanid_not_found_witness :
    parseTraceparent {}
      (gs ("00") ++ '-' :: (gs ("00000000000000001111111111111111") ++
        ('-' :: (List.replicate 16 '0' ++ ('-' :: gs ("01"))))))
      = .error .spanContextNotFound :=
  c6_zero_spanid_not_found {} _ _ (by decide) (by decide)
    ⟨'1', by decide, by decide⟩ (by decide) (by decide)

/-! ## Claim C5 — traceparent length and version discipline -/

/-- C5, counterexample: a raw header of length 54 made of blanks is
trimmed to nothing and rejected as `not_found`, not `corrupted` — the
length rules apply to the trimmed header, not the raw one. -/
theorem c5_counterexample :
    (List.replicate 54 ' ').length = 54 ∧
    parseTraceparent {} (List.replicate 54 ' ')
      = .error .spanContextNotFound := by
  constructor
  · decide
  · decide

/-- C5 (amended): with lengths measured on the canonicalised header
(`ToLower ∘ Trim(header, "\t -")`):
a non-empty canonical header shorter than 55 (in particular of length 54)
is `corrupted`; a well-formed version-0 header of canonical length 55
parses; a version-0 canonical header longer than 55 is `corrupted`; a
well-formed header with version between 1 and 254 and a trailing field is
parsed at lengths beyond 55; version `ff` is always `corrupted`. -/
theorem c5_traceparent_lengths :
    (∀ (ctx : SpanContext) (header : GoStr),
      1 ≤ (tpHeaderCanon header).length → (tpHeaderCanon header).length ≤ 54 →
      parseTraceparent ctx header = .error .spanContextCorrupted) ∧
    (∀ (ctx : SpanContext) (tid sid fl : GoStr) (f : Int),
      tid.length = 32 → (∀ c ∈ tid, isHexLowerCh c = true) →
      (∃ c ∈ tid, c ≠ '0') →
      sid.length = 16 → (∀ c ∈ sid, isHexLowerCh c = true) →
      (∃ c ∈ sid, c ≠ '0') →
      fl.length = 2 → (∀ c ∈ fl, isHexLowerCh c = true) →
      goParseInt hexVal? 16 8 fl = some f →
      (parseTraceparent ctx
        (gs ("00") ++ '-' :: (tid ++ ('-' :: (sid ++ ('-' :: fl)))))).isOk
        = true) ∧
    (∀ (ctx : SpanContext) (header rest : GoStr),
      tpHeaderCanon header = '0' :: '0' :: '-' :: rest →
      55 < (tpHeaderCanon header).length →
      parseTraceparent ctx header = .error .spanContextCorrupted) ∧
    (∀ (ctx : SpanContext) (ver tid sid fl tail : GoStr) (vv : Nat) (f : Int),
      ver.length = 2 → (∀ c ∈ ver, isHexLowerCh c = true) →
      goParseUintHex ver = some vv → vv ≠ 0 → vv ≠ 255 →
      tid.length = 32 → (∀ c ∈ tid, isHexLowerCh c = true) →
      (∃ c ∈ tid, c ≠ '0') →
      sid.length = 16 → (∀ c ∈ sid, isHexLowerCh c = true) →
      (∃ c ∈ sid, c ≠ '0') →
      (∀ c ∈ fl, isHexLowerCh c = true) →
      goParseInt hexVal? 16 8 fl = some f →
      (∀ c ∈ tail, isHexLowerCh c = true) → tail ≠ [] →
      (parseTraceparent ctx
        (ver ++ '-' :: (tid ++ ('-' :: (sid ++ ('-' ::
          (fl ++ ('-' :: tail)))))))).isOk = true) ∧
    (∀ (ctx : SpanContext) (header rest : GoStr),
      tpHeaderCanon header = 'f' :: 'f' :: rest →
      (rest = [] ∨ ∃ rest2, rest = '-' :: rest2) →
      parseTraceparent ctx header = .error .spanContextCorrupted) := by
  refine ⟨?_, ?_, ?_, ?_, ?_⟩
  · -- short canonical headers
    intro ctx header h1 h54
    unfold parseTraceparent
    rw [if_neg (by simp only [beq_iff_eq]; omega), if_pos (by omega)]
  · -- well-formed version-0 header of canonical length 55
    intro ctx tid sid fl f htl hthex htnz hsl hshex hsnz hfl hfhex hfp
    have hfne : fl ≠ [] := by
      intro hcon; rw [hcon] at hfl; simp at hfl
    have hsne : sid ≠ [] := by
      intro hcon; rw [hcon] at hsl; simp at hsl
    have hcanon := @traceparent_canon (gs ("00")) _ _ _ (by decide)
      (by decide) hthex hshex hfhex hfne
    have hlen : (gs ("00") ++ '-' :: (tid ++ ('-' :: (sid ++ ('-' ::
        fl))))).length = 55 := by
      simp only [List.length_append, List.length_cons]
      rw [htl, hsl, hfl]
      decide
    have hparts : tpParts (gs ("00") ++ '-' :: (tid ++ ('-' :: (sid ++
        ('-' :: fl)))))
        = [gs ("00"), tid, sid, fl] := by
      unfold tpParts
      rw [hcanon]
      exact traceparent_parts (by decide)
        (fun hm => hexLower_ne_dash (hthex '-' hm) rfl)
        (fun hm => hexLower_ne_dash (hshex '-' hm) rfl)
        (fun hm => hexLower_ne_dash (hfhex '-' hm) rfl)
    have htidtrim : trimAny nonWordCutset tid = tid :=
      trimAny_of_not_mem (fun c hc => hexLower_not_mem_nonWord (hthex c hc))
    have hsidtrim : trimAny nonWordCutset sid = sid :=
      trimAny_of_not_mem (fun c hc => hexLower_not_mem_nonWord (hshex c hc))
    have hvtid : isValidID tid = true :=
      isValidID_of_hexLower (by intro hcon; rw [hcon] at htl; simp at htl) hthex
    have hvsid : isValidID sid = true := isValidID_of_hexLower hsne hshex
    rcases extractTraceID128_ok
      (match ctx.trace with
       | some t => { ctx with trace := some (t.unsetPropagatingTag keyTraceID128) }
       | none => ctx) htl hthex htnz with ⟨ctx2, hex128⟩
    rcases goParseUintHex_of_hexLower hsne hshex (by omega) with ⟨sv, hsv, _⟩
    rcases hsnz with ⟨c, hcmem, hcne⟩
    have hsvpos := goParseUintHex_pos hsv hcmem hcne (hshex c hcmem)
    have hv2 : goParseUintHex (trimAny nonWordCutset (gs ("00"))) = some 0 := by
      decide
    unfold parseTraceparent
    rw [hcanon, hlen, hparts]
    simp only [List.getD_cons_zero, List.getD_cons_succ]
    simp +decide [htidtrim, hsidtrim, htl, hsl, hvtid, hvsid, hex128, hv2,
      hsv, hfp, Nat.pos_iff_ne_zero.mp hsvpos, Except.isOk]
    rfl
  · -- version-0 canonical header longer than 55
    intro ctx header rest hcanon hgt
    unfold parseTraceparent
    rw [if_neg (by simp only [beq_iff_eq]; omega), if_neg (by omega)]
    by_cases h4 : (tpParts header).length < 4
    · rw [if_pos h4]
    · rw [if_neg h4]
      have hsplit : splitCh '-' (tpHeaderCanon header)
          = ['0', '0'] :: splitCh '-' rest := by
        rw [hcanon]
        show splitCh '-' (['0', '0'] ++ '-' :: rest) = _
        exact splitCh_append rest (by decide)
      have htp : (tpParts header).getD 0 [] = ['0', '0'] := by
        unfold tpParts
        exact splitNCh_five_getD_zero hsplit
      have hne55 : (tpHeaderCanon header).length ≠ 55 := by omega
      rw [htp]
      rw [show trimAny nonWordCutset ['0', '0'] = ['0', '0'] from by decide]
      rw [show goParseUintHex ['0', '0'] = some 0 from by decide]
      simp [hne55]
  · -- version ≥ 1 with extra field
    intro ctx ver tid sid fl tail vv f hvl hvhex hvparse hv0 hv255 htl hthex
      htnz hsl hshex hsnz hfhex hfp hthex2 htne
    have hsne : sid ≠ [] := by
      intro hcon; rw [hcon] at hsl; simp at hsl
    have hvne : ver ≠ [] := by
      intro hcon; rw [hcon] at hvl; simp at hvl
    have hcanon := traceparent_canon5 hvhex hvne hthex hshex hfhex hthex2 htne
    have hlen : 55 ≤ (ver ++ '-' :: (tid ++ ('-' :: (sid ++ ('-' ::
        (fl ++ ('-' :: tail))))))).length := by
      simp only [List.length_append, List.length_cons]
      rw [htl, hsl, hvl]
      have := List.length_pos.mpr htne
      omega
    have hparts : tpParts (ver ++ '-' :: (tid ++ ('-' :: (sid ++ ('-' ::
        (fl ++ ('-' :: tail)))))))
        = [ver, tid, sid, fl, tail] := by
      unfold tpParts
      rw [hcanon]
      exact traceparent_parts5
        (fun hm => hexLower_ne_dash (hvhex '-' hm) rfl)
        (fun hm => hexLower_ne_dash (hthex '-' hm) rfl)
        (fun hm => hexLower_ne_dash (hshex '-' hm) rfl)
        (fun hm => hexLower_ne_dash (hfhex '-' hm) rfl)
        (fun hm => hexLower_ne_dash (hthex2 '-' hm) rfl)
    have hvtrim : trimAny nonWordCutset ver = ver :=
      trimAny_of_not_mem (fun c hc => hexLower_not_mem_nonWord (hvhex c hc))
    have htidtrim : trimAny nonWordCutset tid = tid :=
      trimAny_of_not_mem (fun c hc => hexLower_not_mem_nonWord (hthex c hc))
    have hsidtrim : trimAny nonWordCutset sid = sid :=
      trimAny_of_not_mem (fun c hc => hexLower_not_mem_nonWord (hshex c hc))
    have hvtid : isValidID tid = true :=
      isValidID_of_hexLower (by intro hcon; rw [hcon] at htl; simp at htl) hthex
    have hvsid : isValidID sid = true := isValidID_of_hexLower hsne hshex
    rcases extractTraceID128_ok
      (match ctx.trace with
       | some t => { ctx with trace := some (t.unsetPropagatingTag keyTraceID128) }
       | none => ctx) htl hthex htnz with ⟨ctx2, hex128⟩
    rcases goParseUintHex_of_hexLower hsne hshex (by omega) with ⟨sv, hsv, _⟩
    rcases hsnz with ⟨c, hcmem, hcne⟩
    have hsvpos := goParseUintHex_pos hsv hcmem hcne (hshex c hcmem)
    unfold parseTraceparent
    rw [hcanon, hparts]
    simp only [List.getD_cons_zero, List.getD_cons_succ]
    simp +decide [hvtrim, hvl, hvparse, hv0, hv255, htidtrim, hsidtrim, htl,
      hsl, hvtid, hvsid, hex128, hsv, hfp, Nat.pos_iff_ne_zero.mp hsvpos,
      Except.isOk, beq_iff_eq]
    have he : 1 ≤ tail.length := List.length_pos.mpr htne
    rw [if_neg (by omega)]
    rfl
  · -- version ff
    intro ctx header rest hcanon hshape
    unfold parseTraceparent
    rcases hshape with rfl | ⟨rest2, rfl⟩
    · rw [if_neg (by rw [hcanon]; decide), if_pos (by rw [hcanon]; decide)]
    · by_cases h55 : (tpHeaderCanon header).length < 55
      · rw [if_neg (by simp only [beq_iff_eq]; rw [hcanon]; simp), if_pos h55]
      · rw [if_neg (by simp only [beq_iff_eq]; rw [hcanon]; simp),
          if_neg h55]
        by_cases h4 : (tpParts header).length < 4
        · rw [if_pos h4]
        · rw [if_neg h4]
          have hsplit : splitCh '-' (tpHeaderCanon header)
              = ['f', 'f'] :: splitCh '-' rest2 := by
            rw [hcanon]
            show splitCh '-' (['f', 'f'] ++ '-' :: rest2) = _
            exact splitCh_append rest2 (by decide)
          have htp : (tpParts header).getD 0 [] = ['f', 'f'] := by
            unfold tpParts
            exact splitNCh_five_getD_zero hsplit
          rw [htp]
          rw [show trimAny nonWordCutset ['f', 'f'] = ['f', 'f'] from by decide]
          rw [show goParseUintHex ['f', 'f'] = some 255 from by decide]
          simp

/-- Witness for `c5_traceparent_lengths` at concrete headers. -/
theorem c5_traceparent_lengths_witness :
    parseTraceparent {} (gs ("0")) = .error .spanContextCorrupted ∧
    (parseTraceparent {} (gs ("00") ++ '-' ::
      (gs ("00000000000000001111111111111111") ++ ('-' ::
        (gs ("2222222222222222") ++ ('-' :: gs ("01"))))))).isOk = true :=
  ⟨c5_traceparent_lengths.1 {} (gs ("0")) (by decide) (by decide),
   c5_traceparent_lengths.2.1 {} _ _ _ 1 (by decide) (by decide)
     ⟨'1', by decide, by decide⟩ (by decide) (by decide)
     ⟨'2', by decide, by decide⟩ (by decide) (by decide) (by decide)⟩

/-! ## Association-list lemmas and tracestate evaluation (claim C3) -/

theorem assocGet_set_self (m : List (GoStr × GoStr)) (k v : GoStr) :
    assocGet (assocSet m k v) k = some v := by
  unfold assocSet
  by_cases h : m.any (fun p => p.1 == k)
  · rw [if_pos h]
    unfold assocGet
    induction m with
    | nil => simp at h
    | cons p ps ih =>
      simp only [List.any_cons, Bool.or_eq_true] at h
      by_cases hp : p.1 == k
      · simp only [List.map_cons, if_pos hp, List.find?_cons,
          show ((k, v).1 == k) = true by simp]
        rfl
      · simp only [List.map_cons, if_neg hp]
        rw [List.find?_cons_of_neg _ (by simpa using hp)]
        rcases h with h | h
        · exact absurd h hp
        · exact ih h
  · rw [if_neg h]
    unfold assocGet
    induction m with
    | nil => simp
    | cons p ps ih =>
      simp only [List.any_cons, Bool.or_eq_true, not_or] at h
      rw [List.cons_append, List.find?_cons_of_neg _ (by simpa using h.1)]
      exact ih h.2

theorem assocGet_set_ne (m : List (GoStr × GoStr)) (k v k' : GoStr)
    (hne : ¬(k' = k)) : assocGet (assocSet m k v) k' = assocGet m k' := by
  unfold assocSet
  by_cases h : m.any (fun p => p.1 == k)
  · rw [if_pos h]
    unfold assocGet
    clear h
    induction m with
    | nil => simp
    | cons p ps ih =>
      by_cases hp : p.1 == k
      · have hpk : p.1 = k := by simpa using hp
        simp only [List.map_cons, if_pos hp]
        rw [List.find?_cons_of_neg _ (by simpa using fun h => hne h.symm),
          List.find?_cons_of_neg _ (by
            simp only [beq_iff_eq, hpk]
            exact fun h => hne h.symm)]
        exact ih
      · simp only [List.map_cons, if_neg hp]
        cases hfind : (p.1 == k' : Bool) with
        | true =>
          have h1 := List.find?_cons_of_pos (p := fun q => q.1 == k')
            (List.map (fun q => if (q.1 == k) = true then (k, v) else q) ps) hfind
          have h2 := List.find?_cons_of_pos (p := fun q => q.1 == k') ps hfind
          rw [h1, h2]
        | false =>
          rw [List.find?_cons_of_neg _ (by simp [hfind]),
            List.find?_cons_of_neg _ (by simp [hfind])]
          exact ih
  · rw [if_neg h]
    unfold assocGet
    rw [List.find?_append]
    have : List.find? (fun p => p.1 == k') [(k, v)] = none :=
      List.find?_cons_of_neg _ (by simpa using fun h => hne h.symm) |>.trans rfl
    rw [this]
    cases List.find? (fun p => p.1 == k') m <;> rfl

theorem assocHas_set_ne (m : List (GoStr × GoStr)) (k v k' : GoStr)
    (hne : ¬(k' = k)) : assocHas (assocSet m k v) k' = assocHas m k' := by
  unfold assocSet assocHas
  by_cases h : m.any (fun p => p.1 == k)
  · rw [if_pos h]
    clear h
    induction m with
    | nil => simp
    | cons p ps ih =>
      by_cases hp : p.1 == k
      · have hpk : p.1 = k := by simpa using hp
        simp only [List.map_cons, if_pos hp, List.any_cons]
        rw [ih]
        congr 1
        simp only [beq_iff_eq, hpk]
      · simp only [List.map_cons, if_neg hp, List.any_cons]
        rw [ih]
  · rw [if_neg h]
    simp only [List.any_append, List.any_cons, List.any_nil]
    have : ((k, v).1 == k') = false := by
      simp only [beq_eq_false_iff_ne, ne_eq]
      exact fun hh => hne hh.symm
    rw [this]
    simp

theorem goItoa_ne_nil (i : Int) : goItoa i ≠ [] := by
  unfold goItoa formatUintDec
  split
  · simp
  · split
    · simp
    · simp only [ne_eq, List.map_eq_nil_iff, List.reverse_eq_nil_iff]
      rw [natDigits_eq _ _ (by norm_num)]
      next h1 h2 => exact Nat.digits_ne_nil_iff_ne_zero.mpr (by omega)

theorem goItoa_chars {i : Int} :
    ∀ c ∈ goItoa i, c = '-' ∨ isDecDigitCh c = true := by
  intro c hc
  unfold goItoa at hc
  split at hc
  · rcases List.mem_cons.mp hc with rfl | hc
    · exact Or.inl rfl
    · exact Or.inr (formatUintDec_digits c hc)
  · exact Or.inr (formatUintDec_digits c hc)

theorem decDigit_range {c : Char} (h : isDecDigitCh c = true) :
    48 ≤ c.toNat ∧ c.toNat ≤ 57 := by
  unfold isDecDigitCh at h
  simp only [Bool.and_eq_true, decide_eq_true_eq] at h
  exact h

/-! ## Tracestate sampling-priority reconciliation (claim C3) -/

/-- A tracestate header `dd=s:<sp>;t.dm:<v>` with a canonically rendered
priority. -/
def c3hdr (sp : Int) (v : GoStr) : GoStr :=
  gs ("dd=s:") ++ goItoa sp ++ ';' :: (gs ("t.dm:") ++ v)

/-- A tracestate header `dd=s:<sp>` with no decision-maker member. -/
def c3hdrNoDM (sp : Int) : GoStr := gs ("dd=s:") ++ goItoa sp

/-- A character that is neither a separator nor whitespace, as required of
the decision-maker value in the C3 headers. -/
def c3plain (c : Char) : Prop :=
  ¬ c = ',' ∧ ¬ c = ';' ∧ ¬ c = ':' ∧ ¬ c = '\t' ∧ ¬ c = ' '

instance (c : Char) : Decidable (c3plain c) := by
  unfold c3plain; infer_instance

theorem goItoa_plain {i : Int} : ∀ c ∈ goItoa i, c3plain c := by
  intro c hc
  rcases goItoa_chars c hc with rfl | hd
  · decide
  · have hr := decDigit_range hd
    refine ⟨?_, ?_, ?_, ?_, ?_⟩ <;>
      (intro h; subst h; exact absurd hr (by decide))

theorem c3hdr_not_empty (sp : Int) (v : GoStr) :
    (c3hdr sp v == ([] : GoStr)) = false := by
  unfold c3hdr
  simp [beq_eq_false_iff_ne, gs]

theorem c3hdr_mem {sp : Int} {v : GoStr} {c : Char} (hc : c ∈ c3hdr sp v) :
    c ∈ gs ("dd=s:") ∨ c ∈ goItoa sp ∨ c = ';' ∨ c ∈ gs ("t.dm:") ∨ c ∈ v := by
  unfold c3hdr at hc
  rcases List.mem_append.mp hc with hc | hc
  · rcases List.mem_append.mp hc with hc | hc
    · exact Or.inl hc
    · exact Or.inr (Or.inl hc)
  · rcases List.mem_cons.mp hc with rfl | hc
    · exact Or.inr (Or.inr (Or.inl rfl))
    · rcases List.mem_append.mp hc with hc | hc
      · exact Or.inr (Or.inr (Or.inr (Or.inl hc)))
      · exact Or.inr (Or.inr (Or.inr (Or.inr hc)))

theorem c3hdr_trim {sp : Int} {v : GoStr} (hv : ∀ c ∈ v, c3plain c) :
    trimAny ['\t', ' '] (c3hdr sp v) = c3hdr sp v := by
  apply trimAny_of_not_mem
  intro c hc
  rcases c3hdr_mem hc with h | h | rfl | h | h
  · exact (by decide : ∀ x ∈ gs ("dd=s:"), x ∉ ['\t', ' ']) c h
  · rcases goItoa_plain c h with ⟨_, _, _, h4, h5⟩
    simp only [List.mem_cons, List.not_mem_nil, or_false]
    exact fun hh => hh.elim h4 h5
  · decide
  · exact (by decide : ∀ x ∈ gs ("t.dm:"), x ∉ ['\t', ' ']) c h
  · rcases hv c h with ⟨_, _, _, h4, h5⟩
    simp only [List.mem_cons, List.not_mem_nil, or_false]
    exact fun hh => hh.elim h4 h5

theorem c3hdr_split_comma {sp : Int} {v : GoStr} (hv : ∀ c ∈ v, c3plain c) :
    splitCh ',' (c3hdr sp v) = [c3hdr sp v] := by
  apply splitCh_of_not_mem
  intro hc
  rcases c3hdr_mem hc with h | h | h | h | h
  · exact (by decide : ∀ x ∈ gs ("dd=s:"), ¬ x = ',') _ h rfl
  · exact (goItoa_plain _ h).1 rfl
  · simp at h
  · exact (by decide : ∀ x ∈ gs ("t.dm:"), ¬ x = ',') _ h rfl
  · exact (hv _ h).1 rfl

theorem c3hdr_drop3 (sp : Int) (v : GoStr) :
    (c3hdr sp v).drop 3 =
      (gs ("s:") ++ goItoa sp) ++ ';' :: (gs ("t.dm:") ++ v) := by
  show ('s' :: ':' :: (goItoa sp ++ ';' :: (gs ("t.dm:") ++ v))) = _
  simp [gs]

theorem c3hdr_members {sp : Int} {v : GoStr} (hv : ∀ c ∈ v, c3plain c) :
    splitCh ';' ((gs ("s:") ++ goItoa sp) ++ ';' :: (gs ("t.dm:") ++ v)) =
      [gs ("s:") ++ goItoa sp, gs ("t.dm:") ++ v] := by
  rw [splitCh_append _ (fun hc => by
    rcases List.mem_append.mp hc with h | h
    · exact (by decide : ∀ x ∈ gs ("s:"), ¬ x = ';') _ h rfl
    · exact (goItoa_plain _ h).2.1 rfl)]
  rw [splitCh_of_not_mem (fun hc => by
    rcases List.mem_append.mp hc with h | h
    · exact (by decide : ∀ x ∈ gs ("t.dm:"), ¬ x = ';') _ h rfl
    · exact (hv _ h).2.1 rfl)]

theorem c3_member_s (sp : Int) :
    splitNCh ':' 2 (gs ("s:") ++ goItoa sp) = [gs ("s"), goItoa sp] := by
  have h1 : splitCh ':' (gs ("s:") ++ goItoa sp) = [gs ("s"), goItoa sp] := by
    show splitCh ':' (['s'] ++ ':' :: goItoa sp) = _
    rw [splitCh_append _ (by decide)]
    rw [splitCh_of_not_mem (fun hc => (goItoa_plain _ hc).2.2.1 rfl)]
    rfl
  unfold splitNCh
  rw [h1]
  simp

theorem c3_member_dm {v : GoStr} (hv : ∀ c ∈ v, c3plain c) :
    splitNCh ':' 2 (gs ("t.dm:") ++ v) = [gs ("t.dm"), v] := by
  have h1 : splitCh ':' (gs ("t.dm:") ++ v) = [gs ("t.dm"), v] := by
    show splitCh ':' (gs ("t.dm") ++ ':' :: v) = _
    rw [splitCh_append _ (fun hc =>
      (by decide : ∀ x ∈ gs ("t.dm"), ¬ x = ':') _ hc rfl)]
    rw [splitCh_of_not_mem (fun hc => (hv _ hc).2.2.1 rfl)]
  unfold splitNCh
  rw [h1]
  simp

theorem c3nd_not_empty (sp : Int) :
    (c3hdrNoDM sp == ([] : GoStr)) = false := by
  unfold c3hdrNoDM
  simp [beq_eq_false_iff_ne, gs]

theorem c3nd_mem {sp : Int} {c : Char} (hc : c ∈ c3hdrNoDM sp) :
    c ∈ gs ("dd=s:") ∨ c ∈ goItoa sp := by
  unfold c3hdrNoDM at hc
  exact List.mem_append.mp hc

theorem c3nd_trim (sp : Int) :
    trimAny ['\t', ' '] (c3hdrNoDM sp) = c3hdrNoDM sp := by
  apply trimAny_of_not_mem
  intro c hc
  rcases c3nd_mem hc with h | h
  · exact (by decide : ∀ x ∈ gs ("dd=s:"), x ∉ ['\t', ' ']) c h
  · rcases goItoa_plain c h with ⟨_, _, _, h4, h5⟩
    simp only [List.mem_cons, List.not_mem_nil, or_false]
    exact fun hh => hh.elim h4 h5

theorem c3nd_split_comma (sp : Int) :
    splitCh ',' (c3hdrNoDM sp) = [c3hdrNoDM sp] := by
  apply splitCh_of_not_mem
  intro hc
  rcases c3nd_mem hc with h | h
  · exact (by decide : ∀ x ∈ gs ("dd=s:"), ¬ x = ',') _ h rfl
  · exact (goItoa_plain _ h).1 rfl

theorem c3nd_drop3 (sp : Int) :
    (c3hdrNoDM sp).drop 3 = gs ("s:") ++ goItoa sp := by
  show ('s' :: ':' :: goItoa sp) = _
  rfl

theorem c3nd_members (sp : Int) :
    splitCh ';' (gs ("s:") ++ goItoa sp) = [gs ("s:") ++ goItoa sp] := by
  apply splitCh_of_not_mem
  intro hc
  rcases List.mem_append.mp hc with h | h
  · exact (by decide : ∀ x ∈ gs ("s:"), ¬ x = ';') _ h rfl
  · exact (goItoa_plain _ h).2.1 rfl

theorem c3_pre (sp : Int) (v : GoStr) :
    strStartsWith (gs ("dd=")) (c3hdr sp v) = true := rfl

theorem c3nd_pre (sp : Int) :
    strStartsWith (gs ("dd=")) (c3hdrNoDM sp) = true := rfl

/-- **C3**: parsing a tracestate whose `dd=` member carries `s:<sp>`
reconciles the priority with the traceparent flag already on the context:
flag 1 with `sp > 0` keeps `sp` (provenance unknown) and the `t.dm`
member is applied unchanged; flag 0 with `sp ≤ 0` likewise; flag 1 with
`sp ≤ 0` yields auto-keep with the decision maker reset to default; flag
0 with `sp > 0` yields auto-reject and the `t.dm` member is dropped. -/
theorem c3_priority_reconciliation
    (ctx : SpanContext) (t : Trace) (sp : Int) (v : GoStr)
    (hctx : ctx.trace = some t)
    (hdm : t.hasPropagatingTag keyDecisionMaker = false)
    (hlo : -(2 ^ 63) ≤ sp) (hhi : sp < 2 ^ 63)
    (hv : ∀ c ∈ v, c3plain c) :
    (t.priority = some 1 → 0 < sp →
      ∃ tf, (parseTracestate ctx (c3hdr sp v)).trace = some tf ∧
        tf.priority = some sp ∧ tf.samplerName = .unknown ∧
        tf.propagatingTag keyDecisionMaker = v) ∧
    (t.priority = some 0 → sp ≤ 0 →
      ∃ tf, (parseTracestate ctx (c3hdr sp v)).trace = some tf ∧
        tf.priority = some sp ∧ tf.samplerName = .unknown ∧
        tf.propagatingTag keyDecisionMaker = v) ∧
    (t.priority = some 1 → sp ≤ 0 →
      ∃ tf, (parseTracestate ctx (c3hdrNoDM sp)).trace = some tf ∧
        tf.priority = some priorityAutoKeep ∧
        tf.samplerName = .defaultName) ∧
    (t.priority = some 0 → 0 < sp →
      ∃ tf, (parseTracestate ctx (c3hdr sp v)).trace = some tf ∧
        tf.priority = some priorityAutoReject ∧
        tf.samplerName = .unknown ∧
        tf.hasPropagatingTag keyDecisionMaker = false) := by
  have e8 := goAtoi_goItoa hlo hhi
  have e9 : assocHas (assocSet t.propagatingTags tracestateHeader (c3hdr sp v))
      keyDecisionMaker = false :=
    (assocHas_set_ne _ _ _ _ (by decide)).trans hdm
  refine ⟨?_, ?_, ?_, ?_⟩
  · intro hp hsp
    have hsp2 : ¬ sp ≤ 0 := by omega
    simp only [parseTracestate, c3hdr_not_empty, Bool.false_eq_true, if_false,
      c3hdr_trim hv, c3hdr_split_comma hv, List.foldl_cons, List.foldl_nil,
      c3hdr_drop3, c3hdr_members hv, c3_member_s, c3_member_dm hv, c3_pre,
      setPropagatingTagSC, hctx, Option.getD_some, Trace.setPropagatingTag,
      SpanContext.samplingPriority, SpanContext.setSamplingPriority,
      Trace.hasPropagatingTag, e8, e9, hp, hsp, hsp2]
    simp +decide [hsp, hsp2, e8, e9, c3_pre, Trace.hasPropagatingTag,
      Trace.propagatingTag, SpanContext.setSamplingPriority,
      setPropagatingTagSC, Trace.setPropagatingTag]
    rw [assocGet_set_self]
    rfl
  · intro hp hsp
    have hsp2 : ¬ 0 < sp := by omega
    simp only [parseTracestate, c3hdr_not_empty, Bool.false_eq_true, if_false,
      c3hdr_trim hv, c3hdr_split_comma hv, List.foldl_cons, List.foldl_nil,
      c3hdr_drop3, c3hdr_members hv, c3_member_s, c3_member_dm hv, c3_pre,
      setPropagatingTagSC, hctx, Option.getD_some, Trace.setPropagatingTag,
      SpanContext.samplingPriority, SpanContext.setSamplingPriority,
      Trace.hasPropagatingTag, e8, e9, hp, hsp, hsp2]
    simp +decide [hsp, hsp2, e8, e9, c3_pre, Trace.hasPropagatingTag,
      Trace.propagatingTag, SpanContext.setSamplingPriority,
      setPropagatingTagSC, Trace.setPropagatingTag]
    rw [assocGet_set_self]
    rfl
  · intro hp hsp
    have hsp2 : ¬ 0 < sp := by omega
    simp only [parseTracestate, c3nd_not_empty, Bool.false_eq_true, if_false,
      c3nd_trim, c3nd_split_comma, List.foldl_cons, List.foldl_nil,
      c3nd_drop3, c3nd_members, c3_member_s, c3nd_pre,
      setPropagatingTagSC, hctx, Option.getD_some, Trace.setPropagatingTag,
      SpanContext.samplingPriority, SpanContext.setSamplingPriority,
      Trace.hasPropagatingTag, e8, hp, hsp, hsp2]
    simp +decide [hsp, hsp2, e8, c3nd_pre, Trace.hasPropagatingTag,
      Trace.propagatingTag, SpanContext.setSamplingPriority,
      setPropagatingTagSC, Trace.setPropagatingTag]
  · intro hp hsp
    have hsp2 : ¬ sp ≤ 0 := by omega
    simp only [parseTracestate, c3hdr_not_empty, Bool.false_eq_true, if_false,
      c3hdr_trim hv, c3hdr_split_comma hv, List.foldl_cons, List.foldl_nil,
      c3hdr_drop3, c3hdr_members hv, c3_member_s, c3_member_dm hv, c3_pre,
      setPropagatingTagSC, hctx, Option.getD_some, Trace.setPropagatingTag,
      SpanContext.samplingPriority, SpanContext.setSamplingPriority,
      Trace.hasPropagatingTag, e8, e9, hp, hsp, hsp2]
    simp +decide [hsp, hsp2, e8, e9, c3_pre, Trace.hasPropagatingTag,
      Trace.propagatingTag, SpanContext.setSamplingPriority,
      setPropagatingTagSC, Trace.setPropagatingTag]

theorem c3_priority_reconciliation_witness :
    ∃ tf, (parseTracestate { trace := some { priority := some 1 } }
        (c3hdr 2 (gs ("-4")))).trace = some tf ∧
      tf.priority = some 2 ∧ tf.samplerName = .unknown ∧
      tf.propagatingTag keyDecisionMaker = gs ("-4") :=
  (c3_priority_reconciliation _ { priority := some 1 } 2 _ rfl (by decide)
      (by decide) (by decide) (by decide)).1 rfl (by decide)

/-! ## Chained extraction error handling (claim C2) -/

/-- **C2**: in the extractor loop of `(*chainedPropagator).Extract`,
while no context has been extracted yet (`st.ctx = none`) and the
extractor at hand is not the baggage propagator: with extract-first off,
an error other than `not_found` fails the whole extract with that error,
`not_found` is absorbed and the loop continues unchanged, and a
successfully extracted context becomes the winning context; with
extract-first on, the first such extractor's result — value or error —
is returned as-is. -/
theorem c2_chain_error_handling
    (allExt : List Extractor) (carrier : Carrier) (v : Extractor)
    (rest : List Extractor) (st : ChainState)
    (hkind : ¬ v.kind = PropKind.baggage) (hctx : st.ctx = none) :
    (∀ e, v.run carrier = .error e → ¬ e = TracerErr.spanContextNotFound →
      chainLoop false allExt carrier (v :: rest) st = .error e) ∧
    (v.run carrier = .error TracerErr.spanContextNotFound →
      chainLoop false allExt carrier (v :: rest) st =
        chainLoop false allExt carrier rest st) ∧
    (∀ c, v.run carrier = .ok c →
      chainLoop false allExt carrier (v :: rest) st =
        chainLoop false allExt carrier rest { st with ctx := some c }) ∧
    (chainLoop true allExt carrier (v :: rest) st = v.run carrier) := by
  have hbk : (v.kind == PropKind.baggage) = false := by
    cases hv : v.kind <;> first | rfl | exact absurd hv hkind
  refine ⟨?_, ?_, ?_, ?_⟩
  · intro e he hne
    simp only [chainLoop, hbk, Bool.false_eq_true, if_false, hctx, he]
    rw [if_pos hne]
  · intro he
    simp only [chainLoop, hbk, Bool.false_eq_true, if_false, hctx, he]
    rw [if_neg (by simp)]
  · intro c hc
    simp only [chainLoop, hbk, Bool.false_eq_true, if_false, hctx, hc]
  · simp only [chainLoop, hbk, Bool.false_eq_true, if_false, hctx]
    cases hres : v.run carrier with
    | error e => simp
    | ok c => simp

theorem c2_chain_error_handling_witness :
    chainLoop false [] []
        [⟨PropKind.datadog, fun _ => .error .spanContextCorrupted⟩] {} =
      .error .spanContextCorrupted :=
  (c2_chain_error_handling [] [] _ [] {} (by decide) rfl).1 _ rfl (by decide)

/-! ## Span links for conflicting later contexts (claim C4) -/

def c4ctxA : SpanContext :=
  { traceIDLower := 1, spanID := 1, trace := some { priority := some 1 } }

def c4ctxB : SpanContext :=
  { traceIDLower := 2, spanID := 2, trace := some { priority := some (-1) } }

def c4ext1 : Extractor := ⟨.datadog, fun _ => .ok c4ctxA⟩
def c4ext2 : Extractor := ⟨.b3, fun _ => .ok c4ctxB⟩

/-- **C4, counterexample**: a second extractor whose context carries
sampling priority `-1` (so not `> 0`) still produces a span link with
`flags = 1`: the Go code converts the priority to `uint32` (two's
complement) before comparing with zero, so every negative priority sets
the flag, contradicting the claimed `priority > 0 ? 1 : 0`. -/
theorem c4_counterexample :
    ((chainedExtract false [c4ext1, c4ext2] []).toOption.map
        (fun c => c.spanLinks.map (fun l => l.flags))) = some [1] ∧
    ¬ (0 : Int) < -1 := by decide

/-- **C4, amended**: while a winning context `c0` is held, an extractor
whose context `c2` has a different 128-bit trace id appends exactly one
span link carrying `c2`'s id halves, span id, tracestate tag and the
`terminated_context` attributes; its `flags` field is `0` when `c2`'s
sampling priority is `0` and `1` for every other priority in `int32`
range (the `uint32` two's-complement cast makes negative priorities
non-zero). -/
theorem c4_conflicting_link (ef : Bool) (allExt : List Extractor)
    (carrier : Carrier) (v : Extractor) (rest : List Extractor)
    (st : ChainState) (c0 c2 : SpanContext) (t : Trace) (pr : Int)
    (hkind : ¬ v.kind = PropKind.baggage)
    (hctx : st.ctx = some c0)
    (hrun : v.run carrier = .ok c2)
    (hne : (c2.traceIDHex == c0.traceIDHex) = false)
    (ht : c2.trace = some t) (hp : t.priority = some pr)
    (hlo : -(2 ^ 31) ≤ pr) (hhi : pr < 2 ^ 31) :
    chainLoop ef allExt carrier (v :: rest) st =
      chainLoop ef allExt carrier rest
        { st with links := st.links ++ [
            { traceID := c2.traceIDLower, traceIDHigh := c2.traceIDUpper,
              spanID := c2.spanID,
              flags := if pr = 0 then 0 else 1,
              tracestate := t.propagatingTag tracestateHeader,
              attributes := [(gs ("reason"), gs ("terminated_context")),
                             (gs ("context_headers"),
                              propagatorName v.kind)] }] } := by
  have hbk : (v.kind == PropKind.baggage) = false := by
    cases hv : v.kind <;> first | rfl | exact absurd hv hkind
  have hlink : mkSpanLink c2 v.kind =
      { traceID := c2.traceIDLower, traceIDHigh := c2.traceIDUpper,
        spanID := c2.spanID,
        flags := if pr = 0 then 0 else 1,
        tracestate := t.propagatingTag tracestateHeader,
        attributes := [(gs ("reason"), gs ("terminated_context")),
                       (gs ("context_headers"), propagatorName v.kind)] } := by
    unfold mkSpanLink
    rw [ht]
    simp only [hp, Option.getD_some]
    congr 1
    by_cases h0 : pr = 0
    · subst h0
      rw [if_pos rfl]
      decide
    · have hcond : (pr.emod (2 ^ 32)).toNat > 0 := by
        show (pr % 4294967296).toNat > 0
        omega
      rw [if_neg h0, if_pos hcond]
  simp only [chainLoop, hbk, Bool.false_eq_true, if_false, hctx, hrun,
    Except.toOption, optTraceIDHex, hne, hlink]

theorem c4_conflicting_link_witness :
    chainLoop false [] [] [c4ext2] { ctx := some c4ctxA } =
      chainLoop false [] [] []
        { ctx := some c4ctxA, links := [
            { traceID := 2, traceIDHigh := 0, spanID := 2,
              flags := if (-1 : Int) = 0 then 0 else 1,
              tracestate := [],
              attributes := [(gs ("reason"), gs ("terminated_context")),
                             (gs ("context_headers"),
                              propagatorName PropKind.b3)] }] } :=
  c4_conflicting_link false [] [] c4ext2 [] { ctx := some c4ctxA }
    c4ctxA c4ctxB { priority := some (-1) } (-1) (by decide) rfl rfl
    (by decide) rfl rfl (by decide) (by decide)

/-! ## Datadog inject/extract round trip (claim C1) -/

theorem assocSet_fresh {m : List (GoStr × GoStr)} {k : GoStr} (v : GoStr)
    (h : ∀ p ∈ m, ¬ p.1 = k) : assocSet m k v = m ++ [(k, v)] := by
  unfold assocSet
  rw [if_neg]
  simp only [List.any_eq_true, Bool.not_eq_true, not_exists, not_and]
  intro p hp
  simp only [beq_eq_false_iff_ne, ne_eq]
  exact fun hh => h p hp hh

theorem assoc_foldl_fresh :
    ∀ (bags : List (GoStr × GoStr)) (m : List (GoStr × GoStr)),
    (∀ kv ∈ bags, ∀ q ∈ m, ¬ q.1 = kv.1) →
    (bags.map Prod.fst).Nodup →
    bags.foldl (fun acc kv => assocSet acc kv.1 kv.2) m = m ++ bags
  | [], m, _, _ => by simp
  | (k, v) :: rest, m, h1, h2 => by
    simp only [List.foldl_cons]
    rw [assocSet_fresh v (fun q hq => h1 (k, v) (List.mem_cons_self _ _) q hq)]
    rw [assoc_foldl_fresh rest (m ++ [(k, v)]) ?_ ?_]
    · simp
    · intro kv hkv q hq
      rcases List.mem_append.mp hq with hq | hq
      · exact h1 kv (List.mem_cons_of_mem _ hkv) q hq
      · simp only [List.mem_singleton] at hq
        subst hq
        simp only [List.map_cons, List.nodup_cons] at h2
        intro hh
        apply h2.1
        rw [show k = kv.1 from hh]
        exact List.mem_map_of_mem Prod.fst hkv
    · simp only [List.map_cons, List.nodup_cons] at h2
      exact h2.2

theorem formatUintDec_ne_nil (n : Nat) : formatUintDec n ≠ [] := by
  unfold formatUintDec
  split
  · simp
  · simp only [ne_eq, List.map_eq_nil_iff, List.reverse_eq_nil_iff]
    rw [natDigits_eq _ _ (by norm_num)]
    next h => exact Nat.digits_ne_nil_iff_ne_zero.mpr h

theorem parseUint64_format {n : Nat} (h : n < 2 ^ 64) :
    parseUint64 (formatUintDec n) = some n := by
  have hsw : strStartsWith ['-'] (formatUintDec n) = false := by
    cases hd : formatUintDec n with
    | nil => exact absurd hd (formatUintDec_ne_nil n)
    | cons c cs =>
      have hc : isDecDigitCh c = true := formatUintDec_digits c (by
        rw [hd]; exact List.mem_cons_self c cs)
      have hne : ¬ '-' = c := by
        intro hh; rw [← hh] at hc; exact absurd hc (by decide)
      simp [strStartsWith, List.isPrefixOf, hne]
  unfold parseUint64
  simp only [hsw, Bool.false_eq_true, if_false]
  exact goParseUintDec_format h

theorem cutCh_append {sep : Char} {a : GoStr} (b : GoStr) (h : sep ∉ a) :
    cutCh sep (a ++ sep :: b) = (a, b, true) := by
  induction a with
  | nil => simp [cutCh]
  | cons c cs ih =>
    simp only [List.mem_cons, not_or] at h
    have hc : ¬ c = sep := fun hh => h.1 hh.symm
    have ih2 := ih h.2
    simp only [List.cons_append, cutCh, if_neg hc, List.append_eq] at ih2 ⊢
    rw [ih2]

theorem strToLower_append (a b : GoStr) :
    strToLower (a ++ b) = strToLower a ++ strToLower b := by
  unfold strToLower
  exact List.map_append _ a b

theorem cons_ne_cons_of_head {a b : Char} {s t : GoStr} (h : ¬ a = b) :
    ¬ (a :: s) = (b :: t) := by
  intro hh
  injection hh with h1 h2
  exact h h1

theorem ddStep_trace (ctx : SpanContext) (v : GoStr) :
    ddExtractStep {} (.ok ctx) (defaultTraceIDHeader, v) =
      (match parseUint64 v with
       | some n => .ok { ctx with traceIDLower := n }
       | none => .error .spanContextCorrupted) := rfl

theorem ddStep_parent (ctx : SpanContext) (v : GoStr) :
    ddExtractStep {} (.ok ctx) (defaultParentIDHeader, v) =
      (match parseUint64 v with
       | some n => .ok { ctx with spanID := n }
       | none => .error .spanContextCorrupted) := rfl

theorem ddStep_priority (ctx : SpanContext) (v : GoStr) :
    ddExtractStep {} (.ok ctx) (defaultPriorityHeader, v) =
      (match goAtoi v with
       | some p => .ok (ctx.setSamplingPriority p .unknown)
       | none => .error .spanContextCorrupted) := rfl

theorem ddStep_tags (ctx : SpanContext) (v : GoStr) :
    ddExtractStep {} (.ok ctx) (traceTagsHeader, v) =
      .ok (unmarshalPropagatingTags ctx v) := rfl

theorem isPrefixOf_append (pre s : GoStr) :
    List.isPrefixOf pre (pre ++ s) = true := by
  induction pre with
  | nil => cases s <;> rfl
  | cons c cs ih => simp [List.isPrefixOf, ih]

theorem ddStep_baggage (ctx : SpanContext) (k v : GoStr) :
    ddExtractStep {} (.ok ctx) (gs ("ot-baggage-") ++ k, v) =
      .ok (ctx.setBaggageItem (strToLower k) v) := by
  have hsw : strStartsWith defaultBaggageHeaderKeyStart
      (gs ("ot-baggage-") ++ strToLower k) = true :=
    isPrefixOf_append _ _
  simp only [ddExtractStep]
  simp only [show strToLower (gs ("ot-baggage-") ++ k) =
    gs ("ot-baggage-") ++ strToLower k from rfl]
  simp only [show ((gs ("ot-baggage-") ++ strToLower k) ==
      defaultTraceIDHeader) = false from rfl,
    show ((gs ("ot-baggage-") ++ strToLower k) ==
      defaultParentIDHeader) = false from rfl,
    show ((gs ("ot-baggage-") ++ strToLower k) ==
      defaultPriorityHeader) = false from rfl,
    show ((gs ("ot-baggage-") ++ strToLower k) == originHeader) = false from rfl,
    show ((gs ("ot-baggage-") ++ strToLower k) == traceTagsHeader) = false from rfl,
    Bool.false_eq_true, if_false, hsw, if_true]
  simp only [strDropStart, hsw, if_true]
  rfl

theorem ddBase_eval {p : Int} {lower sid : Nat}
    (hlow : lower < 2 ^ 64) (hs : sid < 2 ^ 64)
    (hplo : -(2 ^ 63) ≤ p) (hphi : p < 2 ^ 63) :
    List.foldl (ddExtractStep {}) (.ok ({} : SpanContext))
      [(defaultTraceIDHeader, formatUintDec lower),
       (defaultParentIDHeader, formatUintDec sid),
       (defaultPriorityHeader, goItoa p)] =
      .ok { traceIDLower := lower, spanID := sid,
            trace := some { priority := some p,
                            samplerName := .unknown } } := by
  simp only [List.foldl_cons, List.foldl_nil, ddStep_trace,
    parseUint64_format hlow]
  simp only [ddStep_parent, parseUint64_format hs]
  simp only [ddStep_priority, goAtoi_goItoa hplo hphi]
  rfl

theorem ddFold_baggage (bags : List (GoStr × GoStr)) :
    ∀ ctx : SpanContext, (∀ kv ∈ bags, strToLower kv.1 = kv.1) →
    (bags.map (fun kv => (gs ("ot-baggage-") ++ kv.1, kv.2))).foldl
        (ddExtractStep {}) (.ok ctx) =
      .ok (bags.foldl (fun c kv => c.setBaggageItem kv.1 kv.2) ctx) := by
  induction bags with
  | nil => intro ctx _; rfl
  | cons kv rest ih =>
    intro ctx hk
    simp only [List.map_cons, List.foldl_cons, ddStep_baggage,
      hk kv (List.mem_cons_self _ _)]
    exact ih _ (fun q hq => hk q (List.mem_cons_of_mem _ hq))

theorem foldl_setBaggage_fields (bags : List (GoStr × GoStr)) :
    ∀ ctx : SpanContext,
      (bags.foldl (fun c kv => c.setBaggageItem kv.1 kv.2) ctx).trace
          = ctx.trace ∧
      (bags.foldl (fun c kv => c.setBaggageItem kv.1 kv.2) ctx).traceIDUpper
          = ctx.traceIDUpper ∧
      (bags.foldl (fun c kv => c.setBaggageItem kv.1 kv.2) ctx).traceIDLower
          = ctx.traceIDLower ∧
      (bags.foldl (fun c kv => c.setBaggageItem kv.1 kv.2) ctx).spanID
          = ctx.spanID ∧
      (bags.foldl (fun c kv => c.setBaggageItem kv.1 kv.2) ctx).origin
          = ctx.origin ∧
      (bags.foldl (fun c kv => c.setBaggageItem kv.1 kv.2) ctx).baggage
          = bags.foldl (fun m kv => assocSet m kv.1 kv.2) ctx.baggage := by
  induction bags with
  | nil => intro ctx; exact ⟨rfl, rfl, rfl, rfl, rfl, rfl⟩
  | cons kv rest ih =>
    intro ctx
    simp only [List.foldl_cons]
    exact ih (ctx.setBaggageItem kv.1 kv.2)

theorem encKeys_nodup {bags : List (GoStr × GoStr)}
    (hnd : (bags.map Prod.fst).Nodup) :
    ((bags.map (fun kv => (gs ("ot-baggage-") ++ kv.1, kv.2))).map
      Prod.fst).Nodup := by
  rw [List.map_map]
  have he : (Prod.fst ∘ fun kv : GoStr × GoStr =>
      (gs ("ot-baggage-") ++ kv.1, kv.2)) =
      (fun s => gs ("ot-baggage-") ++ s) ∘ Prod.fst := rfl
  rw [he, ← List.map_map]
  exact hnd.map (fun a b hab => List.append_cancel_left hab)

theorem inject_baggage_carrier (bags : List (GoStr × GoStr)) (w : Carrier)
    (hfresh : ∀ kv ∈ bags, ∀ q ∈ w, ¬ q.1 = gs ("ot-baggage-") ++ kv.1)
    (hnd : (bags.map Prod.fst).Nodup) :
    bags.foldl (fun w kv =>
        carrierSet w (gs ("ot-baggage-") ++ kv.1) kv.2) w =
      w ++ bags.map (fun kv => (gs ("ot-baggage-") ++ kv.1, kv.2)) := by
  have h := assoc_foldl_fresh
    (bags.map (fun kv => (gs ("ot-baggage-") ++ kv.1, kv.2))) w ?_
    (encKeys_nodup hnd)
  · rw [List.foldl_map] at h
    exact h
  · intro kv hkv q hq
    rcases List.mem_map.mp hkv with ⟨kv0, hkv0, rfl⟩
    exact hfresh kv0 hkv0 q hq

theorem tid_tag_valid {u : Nat} (hu : u < 2 ^ 64) :
    isValidPropagatableTag keyTraceID128 (formatHexPad 16 u) = true := by
  have hlen : (formatHexPad 16 u).length = 16 :=
    formatHexPad_length (lt_of_lt_of_le hu (by norm_num))
  unfold isValidPropagatableTag
  refine (Bool.and_eq_true ..).mpr ⟨(Bool.and_eq_true ..).mpr
    ⟨(Bool.and_eq_true ..).mpr ⟨by decide, by
      simp only [hlen]; decide⟩, by decide⟩, ?_⟩
  rw [List.all_eq_true]
  intro c hc
  rcases hexLower_ranges (formatHexPad_digits c hc) with ⟨h1, h2⟩ | ⟨h1, h2⟩ <;>
  · refine (Bool.and_eq_true ..).mpr ⟨(Bool.and_eq_true ..).mpr
      ⟨by simpa using by omega, by simpa using by omega⟩, ?_⟩
    simp only [Bool.not_eq_true', beq_eq_false_iff_ne, ne_eq]
    intro hcon
    subst hcon
    simp at h1 h2

theorem formatHexPad_ne_nil {u : Nat} (h : u < 2 ^ 64) :
    formatHexPad 16 u ≠ [] := by
  have hl : (formatHexPad 16 u).length = 16 :=
    formatHexPad_length (lt_of_lt_of_le h (by norm_num))
  intro hcon
  rw [hcon] at hl
  simp at hl

theorem validateTID_hex {u : Nat} (h : u < 2 ^ 64) :
    validateTID (formatHexPad 16 u) = true := by
  have hl : (formatHexPad 16 u).length = 16 :=
    formatHexPad_length (lt_of_lt_of_le h (by norm_num))
  unfold validateTID
  rw [Bool.and_eq_true]
  exact ⟨by simp [hl], isValidID_of_hexLower (formatHexPad_ne_nil h)
    formatHexPad_digits⟩

theorem unmarshal_tid (ctx : SpanContext) (u : Nat) (hu : u < 2 ^ 64) :
    unmarshalPropagatingTags ctx
        (keyTraceID128 ++ '=' :: formatHexPad 16 u) =
      { ctx with trace := some ((ctx.trace.getD newTrace).replacePropagatingTags
          [(keyTraceID128, formatHexPad 16 u)]) } := by
  have hlen16 : (formatHexPad 16 u).length = 16 :=
    formatHexPad_length (lt_of_lt_of_le hu (by norm_num))
  have hlen : (keyTraceID128 ++ '=' :: formatHexPad 16 u).length = 26 := by
    rw [List.length_append, List.length_cons, hlen16]
    rfl
  have hsplit : splitCh ',' (keyTraceID128 ++ '=' :: formatHexPad 16 u) =
      [keyTraceID128 ++ '=' :: formatHexPad 16 u] := by
    apply splitCh_of_not_mem
    intro hc
    rcases List.mem_append.mp hc with h | h
    · exact (by decide : ∀ x ∈ keyTraceID128, ¬ x = ',') _ h rfl
    · rcases List.mem_cons.mp h with h | h
      · exact absurd h.symm (by decide)
      · rcases hexLower_ranges (formatHexPad_digits _ h) with ⟨h1, h2⟩ | ⟨h1, h2⟩ <;>
          (revert h1 h2; decide)
  have hcut : cutCh '=' (keyTraceID128 ++ '=' :: formatHexPad 16 u) =
      (keyTraceID128, formatHexPad 16 u, true) :=
    cutCh_append _ (by decide)
  have hhexne : ((formatHexPad 16 u) == ([] : GoStr)) = false := by
    cases hx : formatHexPad 16 u with
    | nil => exact absurd hx (formatHexPad_ne_nil hu)
    | cons a l => rfl
  have hne2 : ((keyTraceID128 ++ '=' :: formatHexPad 16 u)
      == ([] : GoStr)) = false := rfl
  unfold unmarshalPropagatingTags
  rw [hlen, if_neg (by norm_num [propagationExtractMaxSize])]
  unfold parsePropagatableTraceTags
  rw [if_neg (by
    intro hcon
    have : (keyTraceID128 ++ '=' :: formatHexPad 16 u).length = 0 := by
      rw [hcon]; rfl
    rw [hlen] at this
    exact absurd this (by norm_num))]
  rw [hsplit]
  simp only [List.foldl_cons, List.foldl_nil, parseTagsStep, hcut, hhexne]
  simp +decide
  rfl

def c1ctx : SpanContext :=
  { traceIDLower := 1, spanID := 2,
    baggage := [(gs ("Foo"), gs ("bar"))], hasBaggage := true }

/-! ## The `x-datadog-tags` wire format (claim C1, general tags) -/

/-- The tail of the marshalled tag list: `,k=v` for each tag. -/
def tagsFlat : List (GoStr × GoStr) → GoStr
  | [] => []
  | kv :: rest => ',' :: (kv.1 ++ '=' :: (kv.2 ++ tagsFlat rest))

/-- The full marshalled tag list as written into `x-datadog-tags`:
`k1=v1,k2=v2,…`. -/
def tagsWire : List (GoStr × GoStr) → GoStr
  | [] => []
  | kv :: rest => kv.1 ++ '=' :: (kv.2 ++ tagsFlat rest)

/-- The tags the marshal loop accepts unchanged: propagatable and not
one of the two W3C cache keys (which the loop skips). -/
def goodTags (ts : List (GoStr × GoStr)) : Prop :=
  ∀ kv ∈ ts, isValidPropagatableTag kv.1 kv.2 = true ∧
    ¬ kv.1 = tracestateHeader ∧ ¬ kv.1 = traceparentHeader

instance (ts : List (GoStr × GoStr)) : Decidable (goodTags ts) := by
  unfold goodTags; infer_instance

theorem valid_parts {k v : GoStr} (h : isValidPropagatableTag k v = true) :
    k ≠ [] ∧ v ≠ [] ∧ (∀ c ∈ k, ¬ c = ',' ∧ ¬ c = '=') ∧
      (∀ c ∈ v, ¬ c = ',') := by
  unfold isValidPropagatableTag at h
  simp only [Bool.and_eq_true, bne_iff_ne, ne_eq, List.length_eq_zero,
    List.all_eq_true, Bool.not_eq_true', beq_eq_false_iff_ne,
    decide_eq_true_eq] at h
  obtain ⟨⟨⟨hk, hv⟩, hkc⟩, hvc⟩ := h
  refine ⟨hk, hv, ?_, ?_⟩
  · intro c hc
    have := hkc c hc
    exact ⟨this.1.2, this.2⟩
  · intro c hc
    exact (hvc c hc).2

theorem tagsWire_ne_nil {ts : List (GoStr × GoStr)} (hg : goodTags ts)
    (hne : ts ≠ []) : tagsWire ts ≠ [] := by
  cases ts with
  | nil => exact absurd rfl hne
  | cons kv rest =>
    obtain ⟨hval, _, _⟩ := hg kv (List.mem_cons_self _ _)
    obtain ⟨hk, _, _, _⟩ := valid_parts hval
    cases hx : kv.1 with
    | nil => exact absurd hx hk
    | cons a l =>
      show kv.1 ++ '=' :: (kv.2 ++ tagsFlat rest) ≠ []
      rw [hx]
      simp

theorem tagsFlat_length (kv : GoStr × GoStr) (rest : List (GoStr × GoStr)) :
    (tagsFlat (kv :: rest)).length =
      kv.1.length + kv.2.length + 2 + (tagsFlat rest).length := by
  show (',' :: (kv.1 ++ '=' :: (kv.2 ++ tagsFlat rest))).length = _
  simp [List.length_append]
  omega

theorem tagsWire_length (kv : GoStr × GoStr) (rest : List (GoStr × GoStr)) :
    (tagsWire (kv :: rest)).length =
      kv.1.length + kv.2.length + 1 + (tagsFlat rest).length := by
  show (kv.1 ++ '=' :: (kv.2 ++ tagsFlat rest)).length = _
  simp [List.length_append]
  omega

theorem marshal_step_good {k v b e : GoStr}
    (hval : isValidPropagatableTag k v = true)
    (hts : ¬ k = tracestateHeader) (htp : ¬ k = traceparentHeader)
    (hbudget : (b.length + k.length + v.length : Int) ≤ 128) :
    marshalTagStep {} (b, e) (k, v) =
      (if b.length > 0 then ((b ++ ',' :: k ++ '=' :: v), e)
       else ((b ++ k ++ '=' :: v), e), true) := by
  unfold marshalTagStep
  simp only [beq_eq_false_iff_ne, ne_eq]
  rw [if_neg (by simp [hts, htp]), if_neg (by simp [hval]),
    if_neg (by omega)]
  by_cases hb : b.length > 0
  · rw [if_pos hb, if_pos hb]
  · rw [if_neg hb, if_neg hb]

theorem marshal_go : ∀ (ts : List (GoStr × GoStr)) (b pe : GoStr),
    goodTags ts → b ≠ [] → b.length + (tagsFlat ts).length ≤ 128 →
    iterStop (marshalTagStep {}) ts (b, pe) = (b ++ tagsFlat ts, pe)
  | [], b, pe, _, _, _ => by simp [iterStop, tagsFlat]
  | (k, v) :: rest, b, pe, hg, hb, hlen => by
    obtain ⟨hval, hts, htp⟩ := hg (k, v) (List.mem_cons_self _ _)
    have hfl : (tagsFlat ((k, v) :: rest)).length =
        k.length + v.length + 2 + (tagsFlat rest).length :=
      tagsFlat_length (k, v) rest
    have hstep := marshal_step_good (b := b) (e := pe) hval hts htp
      (by push_cast; omega)
    rw [if_pos (List.length_pos.mpr hb)] at hstep
    show (if (marshalTagStep {} (b, pe) (k, v)).2 = true then
        iterStop (marshalTagStep {}) rest (marshalTagStep {} (b, pe) (k, v)).1
      else (marshalTagStep {} (b, pe) (k, v)).1) = _
    rw [hstep]
    show iterStop (marshalTagStep {}) rest (b ++ ',' :: k ++ '=' :: v, pe) = _
    rw [marshal_go rest (b ++ ',' :: k ++ '=' :: v) pe
      (fun q hq => hg q (List.mem_cons_of_mem _ hq))
      (by simp)
      (by simp only [List.length_append, List.length_cons]; omega)]
    exact congrArg (fun x => (x, pe)) (by simp [tagsFlat])

theorem marshal_top (ts : List (GoStr × GoStr)) (hg : goodTags ts)
    (hlen : (tagsWire ts).length ≤ 128) :
    iterStop (marshalTagStep {}) ts ([], []) = (tagsWire ts, []) := by
  match ts with
  | [] => rfl
  | (k, v) :: rest =>
    obtain ⟨hval, hts, htp⟩ := hg (k, v) (List.mem_cons_self _ _)
    obtain ⟨hk, _, _, _⟩ := valid_parts hval
    have hwl : (tagsWire ((k, v) :: rest)).length =
        k.length + v.length + 1 + (tagsFlat rest).length :=
      tagsWire_length (k, v) rest
    have hstep := marshal_step_good (b := []) (e := [])
      (k := k) (v := v) hval hts htp
      (by simp only [List.length_nil]; push_cast; omega)
    rw [if_neg (by simp)] at hstep
    show (if (marshalTagStep {} ([], []) (k, v)).2 = true then
        iterStop (marshalTagStep {}) rest (marshalTagStep {} ([], []) (k, v)).1
      else (marshalTagStep {} ([], []) (k, v)).1) = _
    rw [hstep]
    show iterStop (marshalTagStep {}) rest (k ++ '=' :: v, []) = _
    rw [marshal_go rest (k ++ '=' :: v) []
      (fun q hq => hg q (List.mem_cons_of_mem _ hq))
      (by cases hx : k with
        | nil => exact absurd hx hk
        | cons a l => simp)
      (by simp only [List.length_append, List.length_cons]; omega)]
    exact congrArg (fun x => (x, ([] : GoStr))) (by simp [tagsWire])


theorem marshal_go_cases : ∀ (ts : List (GoStr × GoStr)) (b pe : GoStr),
    goodTags ts → b ≠ [] →
    iterStop (marshalTagStep {}) ts (b, pe) = (b ++ tagsFlat ts, pe) ∨
    iterStop (marshalTagStep {}) ts (b, pe) = ([], gs ("inject_max_size"))
  | [], b, pe, _, _ => Or.inl (by simp [iterStop, tagsFlat])
  | (k, v) :: rest, b, pe, hg, hb => by
    obtain ⟨hval, hts, htp⟩ := hg (k, v) (List.mem_cons_self _ _)
    by_cases hbud : (b.length + k.length + v.length : Int) >
        ({} : PropagatorConfig).maxTagsHeaderLen
    · refine Or.inr ?_
      have hstep : marshalTagStep {} (b, pe) (k, v) =
          (([], gs ("inject_max_size")), false) := by
        unfold marshalTagStep
        simp only [beq_eq_false_iff_ne, ne_eq]
        rw [if_neg (by simp [hts, htp]), if_neg (by simp [hval]),
          if_pos hbud]
      show (if (marshalTagStep {} (b, pe) (k, v)).2 = true then
          iterStop (marshalTagStep {}) rest (marshalTagStep {} (b, pe) (k, v)).1
        else (marshalTagStep {} (b, pe) (k, v)).1) = _
      rw [hstep]
      rfl
    · have hstep := marshal_step_good (b := b) (e := pe) hval hts htp
        (by simpa using not_lt.mp (by simpa using hbud))
      rw [if_pos (List.length_pos.mpr hb)] at hstep
      have hrec := marshal_go_cases rest (b ++ ',' :: k ++ '=' :: v) pe
        (fun q hq => hg q (List.mem_cons_of_mem _ hq)) (by simp)
      rcases hrec with h | h
      · refine Or.inl ?_
        show (if (marshalTagStep {} (b, pe) (k, v)).2 = true then
            iterStop (marshalTagStep {}) rest
              (marshalTagStep {} (b, pe) (k, v)).1
          else (marshalTagStep {} (b, pe) (k, v)).1) = _
        rw [hstep]
        show iterStop (marshalTagStep {}) rest
          (b ++ ',' :: k ++ '=' :: v, pe) = _
        rw [h]
        exact congrArg (fun x => (x, pe)) (by simp [tagsFlat])
      · refine Or.inr ?_
        show (if (marshalTagStep {} (b, pe) (k, v)).2 = true then
            iterStop (marshalTagStep {}) rest
              (marshalTagStep {} (b, pe) (k, v)).1
          else (marshalTagStep {} (b, pe) (k, v)).1) = _
        rw [hstep]
        exact h

theorem marshal_top_cases (ts : List (GoStr × GoStr)) (hg : goodTags ts) :
    iterStop (marshalTagStep {}) ts ([], []) = (tagsWire ts, []) ∨
    iterStop (marshalTagStep {}) ts ([], []) = ([], gs ("inject_max_size")) := by
  match ts with
  | [] => exact Or.inl rfl
  | (k, v) :: rest =>
    obtain ⟨hval, hts, htp⟩ := hg (k, v) (List.mem_cons_self _ _)
    obtain ⟨hk, _, _, _⟩ := valid_parts hval
    by_cases hbud : (([] : GoStr).length + k.length + v.length : Int) >
        ({} : PropagatorConfig).maxTagsHeaderLen
    · refine Or.inr ?_
      have hstep : marshalTagStep {} ([], []) (k, v) =
          (([], gs ("inject_max_size")), false) := by
        unfold marshalTagStep
        simp only [beq_eq_false_iff_ne, ne_eq]
        rw [if_neg (by simp [hts, htp]), if_neg (by simp [hval]),
          if_pos hbud]
      show (if (marshalTagStep {} ([], []) (k, v)).2 = true then
          iterStop (marshalTagStep {}) rest (marshalTagStep {} ([], []) (k, v)).1
        else (marshalTagStep {} ([], []) (k, v)).1) = _
      rw [hstep]
      rfl
    · have hstep := marshal_step_good (b := []) (e := [])
        (k := k) (v := v) hval hts htp
        (by simpa using not_lt.mp (by simpa using hbud))
      rw [if_neg (by simp)] at hstep
      have hrec := marshal_go_cases rest (k ++ '=' :: v) []
        (fun q hq => hg q (List.mem_cons_of_mem _ hq))
        (by cases hx : k with
          | nil => exact absurd hx hk
          | cons a l => simp)
      rcases hrec with h | h
      · refine Or.inl ?_
        show (if (marshalTagStep {} ([], []) (k, v)).2 = true then
            iterStop (marshalTagStep {}) rest
              (marshalTagStep {} ([], []) (k, v)).1
          else (marshalTagStep {} ([], []) (k, v)).1) = _
        rw [hstep]
        show iterStop (marshalTagStep {}) rest (k ++ '=' :: v, []) = _
        rw [h]
        exact congrArg (fun x => (x, ([] : GoStr))) (by simp [tagsWire])
      · refine Or.inr ?_
        show (if (marshalTagStep {} ([], []) (k, v)).2 = true then
            iterStop (marshalTagStep {}) rest
              (marshalTagStep {} ([], []) (k, v)).1
          else (marshalTagStep {} ([], []) (k, v)).1) = _
        rw [hstep]
        exact h

theorem splitCh_tagsWire : ∀ ts : List (GoStr × GoStr), goodTags ts →
    ts ≠ [] → splitCh ',' (tagsWire ts) =
      ts.map (fun kv => kv.1 ++ '=' :: kv.2)
  | [], _, hne => absurd rfl hne
  | (k, v) :: rest, hg, _ => by
    obtain ⟨hval, _, _⟩ := hg (k, v) (List.mem_cons_self _ _)
    obtain ⟨hk, hv, hkc, hvc⟩ := valid_parts hval
    have hpiece : ∀ c ∈ k ++ '=' :: v, ¬ c = ',' := by
      intro c hc
      rcases List.mem_append.mp hc with h | h
      · exact (hkc c h).1
      · rcases List.mem_cons.mp h with rfl | h
        · decide
        · exact hvc c h
    match rest, hg with
    | [], _ =>
      show splitCh ',' (k ++ '=' :: (v ++ tagsFlat [])) = _
      have : v ++ tagsFlat [] = v := by simp [tagsFlat]
      rw [this, splitCh_of_not_mem (fun hc => hpiece ',' hc rfl)]
      rfl
    | kv2 :: r2, hg =>
      show splitCh ',' (k ++ '=' :: (v ++ tagsFlat (kv2 :: r2))) = _
      have hshape : k ++ '=' :: (v ++ tagsFlat (kv2 :: r2)) =
          (k ++ '=' :: v) ++ ',' :: tagsWire (kv2 :: r2) := by
        show _ = (k ++ '=' :: v) ++ ',' ::
          (kv2.1 ++ '=' :: (kv2.2 ++ tagsFlat r2))
        simp [tagsFlat]
      rw [hshape, splitCh_append _ (fun hc => hpiece ',' hc rfl),
        splitCh_tagsWire (kv2 :: r2)
          (fun q hq => hg q (List.mem_cons_of_mem _ hq)) (by simp)]
      rfl

theorem parse_fold_tags : ∀ (ts m : List (GoStr × GoStr)),
    goodTags ts → (∀ kv ∈ ts, ∀ q ∈ m, ¬ q.1 = kv.1) →
    (ts.map Prod.fst).Nodup →
    (ts.map (fun kv => kv.1 ++ '=' :: kv.2)).foldl parseTagsStep (some m) =
      some (m ++ ts)
  | [], m, _, _, _ => by simp
  | (k, v) :: rest, m, hg, hfresh, hnd => by
    obtain ⟨hval, _, _⟩ := hg (k, v) (List.mem_cons_self _ _)
    obtain ⟨hk, hv, hkc, _⟩ := valid_parts hval
    have hcut : cutCh '=' (k ++ '=' :: v) = (k, v, true) :=
      cutCh_append _ (fun hc => (hkc '=' hc).2 rfl)
    have hkb : (k == ([] : GoStr)) = false := by
      cases hx : k with
      | nil => exact absurd hx hk
      | cons a l => rfl
    have hvb : (v == ([] : GoStr)) = false := by
      cases hx : v with
      | nil => exact absurd hx hv
      | cons a l => rfl
    have hfresh2 : ∀ kv ∈ rest, ∀ q ∈ m ++ [(k, v)], ¬ q.1 = kv.1 := by
      intro kv hkv q hq
      rcases List.mem_append.mp hq with hq | hq
      · exact hfresh kv (List.mem_cons_of_mem _ hkv) q hq
      · simp only [List.mem_singleton] at hq
        subst hq
        simp only [List.map_cons, List.nodup_cons] at hnd
        intro hh
        apply hnd.1
        rw [show k = kv.1 from hh]
        exact List.mem_map_of_mem Prod.fst hkv
    have hnd2 : (rest.map Prod.fst).Nodup := by
      simp only [List.map_cons, List.nodup_cons] at hnd
      exact hnd.2
    have hacc : parseTagsStep (some m) (k ++ '=' :: v) =
        some (m ++ [(k, v)]) := by
      unfold parseTagsStep
      simp only [hcut, hkb, hvb]
      rw [if_pos (by decide)]
      rw [assocSet_fresh v (fun q hq => hfresh (k, v)
        (List.mem_cons_self _ _) q hq)]
    rw [List.map_cons, List.foldl_cons, hacc,
      parse_fold_tags rest (m ++ [(k, v)])
        (fun q hq => hg q (List.mem_cons_of_mem _ hq)) hfresh2 hnd2]
    simp

theorem parseTags_wire (ts : List (GoStr × GoStr)) (hg : goodTags ts)
    (hnd : (ts.map Prod.fst).Nodup) (hne : ts ≠ []) :
    parsePropagatableTraceTags (tagsWire ts) = some ts := by
  unfold parsePropagatableTraceTags
  rw [if_neg (tagsWire_ne_nil hg hne), splitCh_tagsWire ts hg hne]
  rw [parse_fold_tags ts [] hg
    (fun kv _ q hq => absurd hq (List.not_mem_nil q)) hnd]
  simp

/-- `unmarshalPropagatingTags` on a marshalled tag list of at most 512
characters parses it back exactly. -/
theorem unmarshal_wire (ctx : SpanContext) (ts : List (GoStr × GoStr))
    (hg : goodTags ts) (hnd : (ts.map Prod.fst).Nodup) (hne : ts ≠ [])
    (hlen : (tagsWire ts).length ≤ 512) :
    unmarshalPropagatingTags ctx (tagsWire ts) =
      { ctx with trace := some ((ctx.trace.getD newTrace).replacePropagatingTags ts) } := by
  unfold unmarshalPropagatingTags
  rw [if_neg (by simp [propagationExtractMaxSize]; omega),
    parseTags_wire ts hg hnd hne]

/-- `unmarshalPropagatingTags` on an over-long value only records the
`extract_max_size` error tag. -/
theorem unmarshal_big (ctx : SpanContext) (v : GoStr)
    (hlen : v.length > 512) :
    unmarshalPropagatingTags ctx v =
      { ctx with trace := some ((ctx.trace.getD newTrace).setTag
          keyPropagationError (gs ("extract_max_size"))) } := by
  unfold unmarshalPropagatingTags
  rw [if_pos (by simpa [propagationExtractMaxSize] using hlen)]

theorem assocGet_eq_none {m : List (GoStr × GoStr)} {k : GoStr}
    (h : ∀ q ∈ m, ¬ q.1 = k) : assocGet m k = none := by
  unfold assocGet
  rw [List.find?_eq_none.mpr (fun q hq => by simpa using h q hq)]
  rfl

theorem assocDel_of_not_has {m : List (GoStr × GoStr)} {k : GoStr}
    (h : ∀ q ∈ m, ¬ q.1 = k) : assocDel m k = m := by
  unfold assocDel
  rw [List.filter_eq_self.mpr (fun q hq => by simpa using h q hq)]

theorem ddStep_origin (ctx : SpanContext) (v : GoStr) :
    ddExtractStep {} (.ok ctx) (originHeader, v) =
      .ok { ctx with origin := v } := rfl

/-- The context accumulated by the Datadog extractor after the id,
parent, optional priority and optional origin headers. -/
def ddHeadCtx (lower sid : Nat) (pr : Int × Bool) (orig : GoStr) :
    SpanContext :=
  { traceIDLower := lower, spanID := sid, origin := orig,
    trace := if pr.2 then
        some { priority := some pr.1, samplerName := .unknown }
      else none }

theorem ddHead_eval {lower sid : Nat} (pr : Int × Bool) (orig : GoStr)
    (hlow : lower < 2 ^ 64) (hs : sid < 2 ^ 64)
    (hplo : -(2 ^ 63) ≤ pr.1) (hphi : pr.1 < 2 ^ 63) :
    List.foldl (ddExtractStep {}) (.ok ({} : SpanContext))
      ([(defaultTraceIDHeader, formatUintDec lower),
        (defaultParentIDHeader, formatUintDec sid)] ++
       (if pr.2 = true then [(defaultPriorityHeader, goItoa pr.1)] else []) ++
       (if orig = [] then [] else [(originHeader, orig)])) =
      .ok (ddHeadCtx lower sid pr orig) := by
  unfold ddHeadCtx
  cases hpr : pr.2 with
  | false =>
    by_cases ho : orig = []
    · subst ho
      simp only [Bool.false_eq_true, if_false, eq_self_iff_true, if_true,
        List.append_nil]
      simp only [List.foldl_cons, List.foldl_nil, ddStep_trace,
        parseUint64_format hlow]
      simp only [ddStep_parent, parseUint64_format hs]
    · simp only [Bool.false_eq_true, if_false, if_neg ho, List.append_nil]
      simp only [List.foldl_append, List.foldl_cons, List.foldl_nil,
        ddStep_trace, parseUint64_format hlow]
      simp only [ddStep_parent, parseUint64_format hs]
      simp only [ddStep_origin]
  | true =>
    by_cases ho : orig = []
    · subst ho
      simp only [eq_self_iff_true, if_true, List.append_nil]
      simp only [List.foldl_append, List.foldl_cons, List.foldl_nil,
        ddStep_trace, parseUint64_format hlow]
      simp only [ddStep_parent, parseUint64_format hs]
      simp only [ddStep_priority, goAtoi_goItoa hplo hphi]
      rfl
    · simp only [eq_self_iff_true, if_true, if_neg ho]
      simp only [List.foldl_append, List.foldl_cons, List.foldl_nil,
        ddStep_trace, parseUint64_format hlow]
      simp only [ddStep_parent, parseUint64_format hs]
      simp only [ddStep_priority, goAtoi_goItoa hplo hphi]
      simp only [ddStep_origin]
      rfl

theorem ddExtract_of_fold_none (reader : Carrier) (ctx : SpanContext)
    (hfold : reader.foldl (ddExtractStep {}) (.ok {}) = .ok ctx)
    (h : ctx.trace = none)
    (hg1 : ctx.traceIDEmpty = false) (hg2 : (ctx.spanID == 0) = false) :
    extractTextMapDD {} reader = .ok ctx := by
  unfold extractTextMapDD
  rw [hfold]
  simp [h, hg1, hg2]

theorem ddExtract_of_fold_noTID (reader : Carrier) (ctx : SpanContext)
    (tr : Trace)
    (hfold : reader.foldl (ddExtractStep {}) (.ok {}) = .ok ctx)
    (h : ctx.trace = some tr)
    (htid : ∀ q ∈ tr.propagatingTags, ¬ q.1 = keyTraceID128)
    (hg1 : ctx.traceIDEmpty = false) (hg2 : (ctx.spanID == 0) = false) :
    extractTextMapDD {} reader =
      .ok { ctx with trace := some (tr.unsetPropagatingTag keyTraceID128) } := by
  have hpt : tr.propagatingTag keyTraceID128 = [] := by
    unfold Trace.propagatingTag
    rw [assocGet_eq_none htid]
    rfl
  have hg1' : ({ ctx with
      trace := some (tr.unsetPropagatingTag keyTraceID128) } :
      SpanContext).traceIDEmpty = false := by
    simpa [SpanContext.traceIDEmpty] using hg1
  unfold extractTextMapDD
  rw [hfold]
  simp [h, hpt, show validateTID ([] : GoStr) = false from rfl, hg1', hg2]

theorem ddExtract_of_fold_tid (reader : Carrier) (ctx : SpanContext)
    (tr : Trace) (u : Nat)
    (hfold : reader.foldl (ddExtractStep {}) (.ok {}) = .ok ctx)
    (h : ctx.trace = some tr)
    (htag : tr.propagatingTag keyTraceID128 = formatHexPad 16 u)
    (hu : u < 2 ^ 64) (hu0 : ¬ u = 0)
    (hg2 : (ctx.spanID == 0) = false) :
    extractTextMapDD {} reader = .ok { ctx with traceIDUpper := u } := by
  have hlen16 : (formatHexPad 16 u).length = 16 :=
    formatHexPad_length (lt_of_lt_of_le hu (by norm_num))
  have hub : (u == 0) = false := beq_eq_false_iff_ne.mpr hu0
  unfold extractTextMapDD
  rw [hfold]
  simp [h, htag, validateTID_hex hu, SpanContext.setUpperFromHex, hlen16,
    goParseUintHex_formatPad (w := 16) hu (by norm_num),
    SpanContext.traceIDEmpty, hub, hg2]

/-- The fixed-header part of the carrier written by
`(*propagator).injectTextMap`: trace id, parent id, and the optional
priority and origin entries. -/
def ddHeadCar (c : SpanContext) : Carrier :=
  [(defaultTraceIDHeader, formatUintDec c.traceIDLower),
   (defaultParentIDHeader, formatUintDec c.spanID)] ++
  (if (c.samplingPriority).2 = true then
    [(defaultPriorityHeader, goItoa (c.samplingPriority).1)] else []) ++
  (if c.origin = [] then [] else [(originHeader, c.origin)])

/-- Evaluation of the carrier pipeline of `injectTextMapDD` for an
arbitrary priority, origin and baggage list. -/
theorem dd_carrier_eval (lo sid : Nat) (pr : Int × Bool) (og : GoStr)
    (bag : List (GoStr × GoStr)) (hnd : (bag.map Prod.fst).Nodup) :
    List.foldl
      (fun w kv => carrierSet w (defaultBaggageHeaderKeyStart ++ kv.1) kv.2)
      (if og ≠ [] then
        carrierSet
          (if pr.2 = true then
            carrierSet (carrierSet (carrierSet []
              defaultTraceIDHeader (formatUintDec lo))
              defaultParentIDHeader (formatUintDec sid))
              defaultPriorityHeader (goItoa pr.1)
          else
            carrierSet (carrierSet []
              defaultTraceIDHeader (formatUintDec lo))
              defaultParentIDHeader (formatUintDec sid))
          originHeader og
      else
        if pr.2 = true then
          carrierSet (carrierSet (carrierSet []
            defaultTraceIDHeader (formatUintDec lo))
            defaultParentIDHeader (formatUintDec sid))
            defaultPriorityHeader (goItoa pr.1)
        else
          carrierSet (carrierSet []
            defaultTraceIDHeader (formatUintDec lo))
            defaultParentIDHeader (formatUintDec sid))
      bag =
    ([(defaultTraceIDHeader, formatUintDec lo),
      (defaultParentIDHeader, formatUintDec sid)] ++
     (if pr.2 = true then [(defaultPriorityHeader, goItoa pr.1)] else []) ++
     (if og = [] then [] else [(originHeader, og)])) ++
    bag.map (fun kv => (gs ("ot-baggage-") ++ kv.1, kv.2)) := by
  by_cases hp : pr.2 = true <;> by_cases ho : og = []
  · subst ho
    rw [if_neg (fun h => h rfl), if_pos hp]
    have hW : carrierSet (carrierSet (carrierSet []
        defaultTraceIDHeader (formatUintDec lo))
        defaultParentIDHeader (formatUintDec sid))
        defaultPriorityHeader (goItoa pr.1) =
        [(defaultTraceIDHeader, formatUintDec lo),
         (defaultParentIDHeader, formatUintDec sid),
         (defaultPriorityHeader, goItoa pr.1)] := rfl
    have hbag : List.foldl
        (fun w kv => carrierSet w (defaultBaggageHeaderKeyStart ++ kv.1) kv.2)
        [(defaultTraceIDHeader, formatUintDec lo),
         (defaultParentIDHeader, formatUintDec sid),
         (defaultPriorityHeader, goItoa pr.1)] bag =
        [(defaultTraceIDHeader, formatUintDec lo),
         (defaultParentIDHeader, formatUintDec sid),
         (defaultPriorityHeader, goItoa pr.1)] ++
        bag.map (fun kv => (gs ("ot-baggage-") ++ kv.1, kv.2)) :=
      by
        refine inject_baggage_carrier bag _ ?_ hnd
        intro kv _ q hq
        simp only [List.mem_cons, List.not_mem_nil, or_false] at hq
        rcases hq with rfl | rfl | rfl <;>
          exact cons_ne_cons_of_head (by decide)
    rw [hW, hbag]
    simp [hp]
  · rw [if_pos ho, if_pos hp]
    have hW : carrierSet (carrierSet (carrierSet (carrierSet []
        defaultTraceIDHeader (formatUintDec lo))
        defaultParentIDHeader (formatUintDec sid))
        defaultPriorityHeader (goItoa pr.1)) originHeader og =
        [(defaultTraceIDHeader, formatUintDec lo),
         (defaultParentIDHeader, formatUintDec sid),
         (defaultPriorityHeader, goItoa pr.1),
         (originHeader, og)] := rfl
    have hbag : List.foldl
        (fun w kv => carrierSet w (defaultBaggageHeaderKeyStart ++ kv.1) kv.2)
        [(defaultTraceIDHeader, formatUintDec lo),
         (defaultParentIDHeader, formatUintDec sid),
         (defaultPriorityHeader, goItoa pr.1),
         (originHeader, og)] bag =
        [(defaultTraceIDHeader, formatUintDec lo),
         (defaultParentIDHeader, formatUintDec sid),
         (defaultPriorityHeader, goItoa pr.1),
         (originHeader, og)] ++
        bag.map (fun kv => (gs ("ot-baggage-") ++ kv.1, kv.2)) :=
      by
        refine inject_baggage_carrier bag _ ?_ hnd
        intro kv _ q hq
        simp only [List.mem_cons, List.not_mem_nil, or_false] at hq
        rcases hq with rfl | rfl | rfl | rfl <;>
          exact cons_ne_cons_of_head (by decide)
    rw [hW, hbag]
    simp [hp, ho]
  · subst ho
    rw [if_neg (fun h => h rfl), if_neg hp]
    have hW : carrierSet (carrierSet []
        defaultTraceIDHeader (formatUintDec lo))
        defaultParentIDHeader (formatUintDec sid) =
        [(defaultTraceIDHeader, formatUintDec lo),
         (defaultParentIDHeader, formatUintDec sid)] := rfl
    have hbag : List.foldl
        (fun w kv => carrierSet w (defaultBaggageHeaderKeyStart ++ kv.1) kv.2)
        [(defaultTraceIDHeader, formatUintDec lo),
         (defaultParentIDHeader, formatUintDec sid)] bag =
        [(defaultTraceIDHeader, formatUintDec lo),
         (defaultParentIDHeader, formatUintDec sid)] ++
        bag.map (fun kv => (gs ("ot-baggage-") ++ kv.1, kv.2)) :=
      by
        refine inject_baggage_carrier bag _ ?_ hnd
        intro kv _ q hq
        simp only [List.mem_cons, List.not_mem_nil, or_false] at hq
        rcases hq with rfl | rfl <;>
          exact cons_ne_cons_of_head (by decide)
    rw [hW, hbag]
    simp [hp]
  · rw [if_pos ho, if_neg hp]
    have hW : carrierSet (carrierSet (carrierSet []
        defaultTraceIDHeader (formatUintDec lo))
        defaultParentIDHeader (formatUintDec sid)) originHeader og =
        [(defaultTraceIDHeader, formatUintDec lo),
         (defaultParentIDHeader, formatUintDec sid),
         (originHeader, og)] := rfl
    have hbag : List.foldl
        (fun w kv => carrierSet w (defaultBaggageHeaderKeyStart ++ kv.1) kv.2)
        [(defaultTraceIDHeader, formatUintDec lo),
         (defaultParentIDHeader, formatUintDec sid),
         (originHeader, og)] bag =
        [(defaultTraceIDHeader, formatUintDec lo),
         (defaultParentIDHeader, formatUintDec sid),
         (originHeader, og)] ++
        bag.map (fun kv => (gs ("ot-baggage-") ++ kv.1, kv.2)) :=
      by
        refine inject_baggage_carrier bag _ ?_ hnd
        intro kv _ q hq
        simp only [List.mem_cons, List.not_mem_nil, or_false] at hq
        rcases hq with rfl | rfl | rfl <;>
          exact cons_ne_cons_of_head (by decide)
    rw [hW, hbag]
    simp [hp, ho]


theorem mem_opt {q x : GoStr × GoStr} {b : Prop} [Decidable b]
    (h : q ∈ (if b then ([x] : Carrier) else [])) : q = x := by
  by_cases hb : b
  · rw [if_pos hb] at h
    simpa using h
  · rw [if_neg hb] at h
    simp at h

theorem mem_opt2 {q x : GoStr × GoStr} {b : Prop} [Decidable b]
    (h : q ∈ (if b then ([] : Carrier) else [x])) : q = x := by
  by_cases hb : b
  · rw [if_pos hb] at h
    simp at h
  · rw [if_neg hb] at h
    simpa using h

theorem headCar_fresh (c : SpanContext) (k : GoStr)
    (h1 : ¬ defaultTraceIDHeader = k) (h2 : ¬ defaultParentIDHeader = k)
    (h3 : ¬ defaultPriorityHeader = k) (h4 : ¬ originHeader = k)
    (h5 : ∀ kv : GoStr × GoStr, ¬ gs ("ot-baggage-") ++ kv.1 = k) :
    ∀ q ∈ ddHeadCar c ++
      c.baggage.map (fun kv => (gs ("ot-baggage-") ++ kv.1, kv.2)),
      ¬ q.1 = k := by
  intro q hq
  rcases List.mem_append.mp hq with h | h
  · unfold ddHeadCar at h
    rcases List.mem_append.mp h with h | h
    · rcases List.mem_append.mp h with h | h
      · simp only [List.mem_cons, List.not_mem_nil, or_false] at h
        rcases h with rfl | rfl
        · exact h1
        · exact h2
      · rcases mem_opt h with rfl
        exact h3
    · rcases mem_opt2 h with rfl
      exact h4
  · rcases List.mem_map.mp h with ⟨kv, _, rfl⟩
    exact h5 kv

theorem injA_eval (c : SpanContext) (ts : List (GoStr × GoStr))
    (hts : (match c.trace with
      | none => ([] : List (GoStr × GoStr))
      | some t => t.propagatingTags) = ts)
    (hU : c.traceIDUpper = 0) (hL : ¬ c.traceIDLower = 0)
    (hsid0 : ¬ c.spanID = 0)
    (hgood : goodTags ts) (htidf : ∀ q ∈ ts, ¬ q.1 = keyTraceID128)
    (hnd : (c.baggage.map Prod.fst).Nodup) :
    ∃ ctxI tseg,
      injectTextMapDD {} c [] = .ok (ctxI, ddHeadCar c ++
        c.baggage.map (fun kv => (gs ("ot-baggage-") ++ kv.1, kv.2)) ++
        tseg) ∧
      (tseg = [(traceTagsHeader, tagsWire ts)] ∧ ¬ ts = [] ∨ tseg = []) := by
  have hguard : (c.traceIDEmpty || (c.spanID == 0)) = false := by
    simp [SpanContext.traceIDEmpty, hU, hL, hsid0]
  have hhu : c.hasUpper = false := by
    simp [SpanContext.hasUpper, hU]
  have hcar := dd_carrier_eval c.traceIDLower c.spanID c.samplingPriority
    c.origin c.baggage hnd
  have hHC : ([(defaultTraceIDHeader, formatUintDec c.traceIDLower),
      (defaultParentIDHeader, formatUintDec c.spanID)] ++
     (if (c.samplingPriority).2 = true then
       [(defaultPriorityHeader, goItoa (c.samplingPriority).1)] else []) ++
     (if c.origin = [] then [] else [(originHeader, c.origin)])) =
      ddHeadCar c := rfl
  rw [hHC] at hcar
  rcases hct : c.trace with _ | t
  · have hts0 : ts = [] := by
      rw [← hts, hct]
    subst hts0
    have hm : marshalPropagatingTags {} c = ([], c) := by
      unfold marshalPropagatingTags
      rw [hct]
    have heq : injectTextMapDD {} c [] = .ok (c, ddHeadCar c ++
        c.baggage.map (fun kv => (gs ("ot-baggage-") ++ kv.1, kv.2)) ++
        ([] : Carrier)) := by
      simp only [injectTextMapDD, hguard, Bool.false_eq_true, if_false, hhu,
        hct]
      rw [hcar]
      simp [hm]
    exact ⟨c, [], heq, Or.inr rfl⟩
  · have hts2 : t.propagatingTags = ts := by
      rw [← hts, hct]
    have hpt : (t.unsetPropagatingTag keyTraceID128).propagatingTags = ts := by
      show assocDel t.propagatingTags keyTraceID128 = ts
      rw [hts2]
      exact assocDel_of_not_has htidf
    have hsp : ({ c with
        trace := some (t.unsetPropagatingTag keyTraceID128) } :
        SpanContext).samplingPriority = c.samplingPriority := by
      simp [SpanContext.samplingPriority, Trace.unsetPropagatingTag, hct]
    rcases marshal_top_cases ts hgood with hm | hm
    · by_cases hne : ts = []
      · subst hne
        have hmar : marshalPropagatingTags {} { c with
            trace := some (t.unsetPropagatingTag keyTraceID128) } =
            ([], { c with
              trace := some (t.unsetPropagatingTag keyTraceID128) }) := by
          simp [marshalPropagatingTags, hpt, hm, tagsWire]
        have heq : injectTextMapDD {} c [] = .ok
            ({ c with trace := some (t.unsetPropagatingTag keyTraceID128) },
             ddHeadCar c ++
              c.baggage.map (fun kv => (gs ("ot-baggage-") ++ kv.1, kv.2)) ++
              ([] : Carrier)) := by
          simp only [injectTextMapDD, hguard, Bool.false_eq_true, if_false,
            hhu, hct]
          rw [hsp, hcar, hmar]
          simp
        exact ⟨_, [], heq, Or.inr rfl⟩
      · have hw0 : tagsWire ts ≠ [] := tagsWire_ne_nil hgood hne
        have hmar : marshalPropagatingTags {} { c with
            trace := some (t.unsetPropagatingTag keyTraceID128) } =
            (tagsWire ts, { c with
              trace := some (t.unsetPropagatingTag keyTraceID128) }) := by
          simp +decide [marshalPropagatingTags, hpt, hm]
        have hfresh := headCar_fresh c traceTagsHeader (by decide)
          (by decide) (by decide) (by decide)
          (fun kv => cons_ne_cons_of_head (by decide))
        have hset : carrierSet (ddHeadCar c ++
            c.baggage.map (fun kv => (gs ("ot-baggage-") ++ kv.1, kv.2)))
            traceTagsHeader (tagsWire ts) =
            (ddHeadCar c ++
              c.baggage.map (fun kv => (gs ("ot-baggage-") ++ kv.1, kv.2)))
              ++ [(traceTagsHeader, tagsWire ts)] :=
          assocSet_fresh _ hfresh
        have heq : injectTextMapDD {} c [] = .ok
            ({ c with trace := some (t.unsetPropagatingTag keyTraceID128) },
             ddHeadCar c ++
              c.baggage.map (fun kv => (gs ("ot-baggage-") ++ kv.1, kv.2)) ++
              [(traceTagsHeader, tagsWire ts)]) := by
          simp only [injectTextMapDD, hguard, Bool.false_eq_true, if_false,
            hhu, hct]
          rw [hsp, hcar, hmar, hset]
          simp [List.length_pos.mpr hw0]
        exact ⟨_, _, heq, Or.inl ⟨rfl, hne⟩⟩
    · have hmar : marshalPropagatingTags {} { c with
          trace := some (t.unsetPropagatingTag keyTraceID128) } =
          ([], { c with
            trace := some ((t.unsetPropagatingTag keyTraceID128).setTag
              keyPropagationError (gs ("inject_max_size"))) }) := by
        simp +decide [marshalPropagatingTags, hpt, hm]
      have heq : injectTextMapDD {} c [] = .ok
          ({ c with
            trace := some ((t.unsetPropagatingTag keyTraceID128).setTag
              keyPropagationError (gs ("inject_max_size"))) },
           ddHeadCar c ++
            c.baggage.map (fun kv => (gs ("ot-baggage-") ++ kv.1, kv.2)) ++
            ([] : Carrier)) := by
        simp only [injectTextMapDD, hguard, Bool.false_eq_true, if_false,
          hhu, hct]
        rw [hsp, hcar, hmar]
        simp
      exact ⟨_, [], heq, Or.inr rfl⟩


theorem injB_eval (c : SpanContext) (ts : List (GoStr × GoStr))
    (hts : (match c.trace with
      | none => ([] : List (GoStr × GoStr))
      | some t => t.propagatingTags) = ts)
    (hU : ¬ c.traceIDUpper = 0) (hUb : c.traceIDUpper < 2 ^ 64)
    (hsid0 : ¬ c.spanID = 0)
    (hgood : goodTags ts) (htidf : ∀ q ∈ ts, ¬ q.1 = keyTraceID128)
    (hfit : (tagsWire (ts ++
      [(keyTraceID128, formatHexPad 16 c.traceIDUpper)])).length ≤ 128)
    (hnd : (c.baggage.map Prod.fst).Nodup) :
    ∃ ctxI,
      injectTextMapDD {} c [] = .ok (ctxI, ddHeadCar c ++
        c.baggage.map (fun kv => (gs ("ot-baggage-") ++ kv.1, kv.2)) ++
        [(traceTagsHeader, tagsWire (ts ++
          [(keyTraceID128, formatHexPad 16 c.traceIDUpper)]))]) := by
  have hguard : (c.traceIDEmpty || (c.spanID == 0)) = false := by
    simp [SpanContext.traceIDEmpty, hU, hsid0]
  have hhu : c.hasUpper = true := by
    simp [SpanContext.hasUpper, hU]
  have hcar := dd_carrier_eval c.traceIDLower c.spanID c.samplingPriority
    c.origin c.baggage hnd
  have hHC : ([(defaultTraceIDHeader, formatUintDec c.traceIDLower),
      (defaultParentIDHeader, formatUintDec c.spanID)] ++
     (if (c.samplingPriority).2 = true then
       [(defaultPriorityHeader, goItoa (c.samplingPriority).1)] else []) ++
     (if c.origin = [] then [] else [(originHeader, c.origin)])) =
      ddHeadCar c := rfl
  rw [hHC] at hcar
  have hgood2 : goodTags (ts ++
      [(keyTraceID128, formatHexPad 16 c.traceIDUpper)]) := by
    intro kv hkv
    rcases List.mem_append.mp hkv with h | h
    · exact hgood kv h
    · simp only [List.mem_cons, List.not_mem_nil, or_false] at h
      subst h
      exact ⟨tid_tag_valid hUb,
        (by decide : ¬ keyTraceID128 = tracestateHeader),
        (by decide : ¬ keyTraceID128 = traceparentHeader)⟩
  have hptB : ((c.trace.getD newTrace).setPropagatingTag keyTraceID128
      (formatHexPad 16 c.traceIDUpper)).propagatingTags =
      ts ++ [(keyTraceID128, formatHexPad 16 c.traceIDUpper)] := by
    show assocSet (c.trace.getD newTrace).propagatingTags keyTraceID128
      (formatHexPad 16 c.traceIDUpper) = _
    rcases hct : c.trace with _ | t
    · have hts0 : ts = [] := by
        rw [← hts, hct]
      rw [hts0]
      simp [newTrace, assocSet]
    · have hts2 : t.propagatingTags = ts := by
        rw [← hts, hct]
      simp only [Option.getD_some]
      rw [hts2]
      exact assocSet_fresh _ htidf
  have hprB : ({ c with
      trace := some ((c.trace.getD newTrace).setPropagatingTag keyTraceID128
        (formatHexPad 16 c.traceIDUpper)) } :
      SpanContext).samplingPriority = c.samplingPriority := by
    rcases hct : c.trace with _ | t
    · simp [SpanContext.samplingPriority, Trace.setPropagatingTag, newTrace,
        hct]
    · simp [SpanContext.samplingPriority, Trace.setPropagatingTag, hct]
  have hm := marshal_top (ts ++
    [(keyTraceID128, formatHexPad 16 c.traceIDUpper)]) hgood2 hfit
  have hmar : marshalPropagatingTags {} { c with
      trace := some ((c.trace.getD newTrace).setPropagatingTag keyTraceID128
        (formatHexPad 16 c.traceIDUpper)) } =
      (tagsWire (ts ++ [(keyTraceID128, formatHexPad 16 c.traceIDUpper)]),
       { c with
        trace := some ((c.trace.getD newTrace).setPropagatingTag
          keyTraceID128 (formatHexPad 16 c.traceIDUpper)) }) := by
    simp +decide [marshalPropagatingTags, hptB, hm]
  have hw0 : tagsWire (ts ++
      [(keyTraceID128, formatHexPad 16 c.traceIDUpper)]) ≠ [] :=
    tagsWire_ne_nil hgood2 (by simp)
  have hfresh := headCar_fresh c traceTagsHeader (by decide)
    (by decide) (by decide) (by decide)
    (fun kv => cons_ne_cons_of_head (by decide))
  have hset : carrierSet (ddHeadCar c ++
      c.baggage.map (fun kv => (gs ("ot-baggage-") ++ kv.1, kv.2)))
      traceTagsHeader
      (tagsWire (ts ++ [(keyTraceID128, formatHexPad 16 c.traceIDUpper)])) =
      (ddHeadCar c ++
        c.baggage.map (fun kv => (gs ("ot-baggage-") ++ kv.1, kv.2)))
        ++ [(traceTagsHeader, tagsWire (ts ++
          [(keyTraceID128, formatHexPad 16 c.traceIDUpper)]))] :=
    assocSet_fresh _ hfresh
  have heq : injectTextMapDD {} c [] = .ok
      ({ c with
        trace := some ((c.trace.getD newTrace).setPropagatingTag
          keyTraceID128 (formatHexPad 16 c.traceIDUpper)) },
       ddHeadCar c ++
        c.baggage.map (fun kv => (gs ("ot-baggage-") ++ kv.1, kv.2)) ++
        [(traceTagsHeader, tagsWire (ts ++
          [(keyTraceID128, formatHexPad 16 c.traceIDUpper)]))]) := by
    simp only [injectTextMapDD, hguard, Bool.false_eq_true, if_false, hhu,
      eq_self_iff_true, if_true, setPropagatingTagSC, SpanContext.upperHex]
    rw [hprB, hcar, hmar, hset]
    simp [List.length_pos.mpr hw0]
  exact ⟨_, heq⟩


theorem dd_fold_headbag (c : SpanContext)
    (hlow : c.traceIDLower < 2 ^ 64) (hs : c.spanID < 2 ^ 64)
    (hplo : -(2 ^ 63) ≤ (c.samplingPriority).1)
    (hphi : (c.samplingPriority).1 < 2 ^ 63)
    (hkeys : ∀ kv ∈ c.baggage, strToLower kv.1 = kv.1) :
    List.foldl (ddExtractStep {}) (.ok ({} : SpanContext))
      (ddHeadCar c ++
        c.baggage.map (fun kv => (gs ("ot-baggage-") ++ kv.1, kv.2))) =
      .ok (c.baggage.foldl (fun a kv => a.setBaggageItem kv.1 kv.2)
        (ddHeadCtx c.traceIDLower c.spanID c.samplingPriority c.origin)) := by
  rw [List.foldl_append]
  rw [show ddHeadCar c =
    ([(defaultTraceIDHeader, formatUintDec c.traceIDLower),
      (defaultParentIDHeader, formatUintDec c.spanID)] ++
     (if (c.samplingPriority).2 = true then
       [(defaultPriorityHeader, goItoa (c.samplingPriority).1)] else []) ++
     (if c.origin = [] then [] else [(originHeader, c.origin)])) from rfl]
  rw [ddHead_eval c.samplingPriority c.origin hlow hs hplo hphi]
  exact ddFold_baggage c.baggage _ hkeys

theorem headbag_fields (c : SpanContext)
    (hnd : (c.baggage.map Prod.fst).Nodup) :
    (c.baggage.foldl (fun a kv => a.setBaggageItem kv.1 kv.2)
      (ddHeadCtx c.traceIDLower c.spanID c.samplingPriority
        c.origin)).trace =
      (if (c.samplingPriority).2 then
        some { priority := some (c.samplingPriority).1,
               samplerName := .unknown } else none) ∧
    (c.baggage.foldl (fun a kv => a.setBaggageItem kv.1 kv.2)
      (ddHeadCtx c.traceIDLower c.spanID c.samplingPriority
        c.origin)).traceIDUpper = 0 ∧
    (c.baggage.foldl (fun a kv => a.setBaggageItem kv.1 kv.2)
      (ddHeadCtx c.traceIDLower c.spanID c.samplingPriority
        c.origin)).traceIDLower = c.traceIDLower ∧
    (c.baggage.foldl (fun a kv => a.setBaggageItem kv.1 kv.2)
      (ddHeadCtx c.traceIDLower c.spanID c.samplingPriority
        c.origin)).spanID = c.spanID ∧
    (c.baggage.foldl (fun a kv => a.setBaggageItem kv.1 kv.2)
      (ddHeadCtx c.traceIDLower c.spanID c.samplingPriority
        c.origin)).origin = c.origin ∧
    (c.baggage.foldl (fun a kv => a.setBaggageItem kv.1 kv.2)
      (ddHeadCtx c.traceIDLower c.spanID c.samplingPriority
        c.origin)).baggage = c.baggage := by
  have hf := foldl_setBaggage_fields c.baggage
    (ddHeadCtx c.traceIDLower c.spanID c.samplingPriority c.origin)
  refine ⟨hf.1, hf.2.1, hf.2.2.1, hf.2.2.2.1, hf.2.2.2.2.1, ?_⟩
  have h0 := hf.2.2.2.2.2
  rw [show (ddHeadCtx c.traceIDLower c.spanID c.samplingPriority
    c.origin).baggage = [] from rfl] at h0
  rw [assoc_foldl_fresh c.baggage _
    (fun kv _ q hq => absurd hq (List.not_mem_nil q)) hnd] at h0
  simpa using h0

theorem trace_getD_fields {x : SpanContext} {p1 : Int} {b : Bool}
    (h : x.trace = if b then
      some { priority := some p1, samplerName := .unknown } else none) :
    (x.trace.getD newTrace).propagatingTags = [] ∧
    (x.trace.getD newTrace).priority = (if b then some p1 else none) := by
  cases b <;> simp [h, newTrace]

theorem sp_false {c : SpanContext}
    (h : (c.samplingPriority).2 = false) :
    c.samplingPriority = (0, false) := by
  rcases h2 : c.trace with _ | t
  · simp [SpanContext.samplingPriority, h2]
  · rcases h3 : t.priority with _ | p
    · simp [SpanContext.samplingPriority, h2, h3]
    · rw [show c.samplingPriority = (p, true) from by
        simp [SpanContext.samplingPriority, h2, h3]] at h
      simp at h

theorem assocGet_last {m : List (GoStr × GoStr)} {k v : GoStr}
    (h : ∀ q ∈ m, ¬ q.1 = k) : assocGet (m ++ [(k, v)]) k = some v := by
  induction m with
  | nil => simp [assocGet]
  | cons q rest ih =>
    have hq : (q.1 == k) = false :=
      beq_eq_false_iff_ne.mpr (h q (List.mem_cons_self _ _))
    unfold assocGet at ih ⊢
    simp only [List.cons_append, List.find?_cons, hq]
    exact ih (fun p hp => h p (List.mem_cons_of_mem _ hp))


theorem dd_rt_notags (reader : Carrier) (x : SpanContext) (pr : Int × Bool)
    (hfold : reader.foldl (ddExtractStep {}) (.ok {}) = .ok x)
    (htr : x.trace = (if pr.2 then
      some { priority := some pr.1, samplerName := .unknown } else none))
    (hg1 : x.traceIDEmpty = false) (hg2 : (x.spanID == 0) = false) :
    ∃ c', extractTextMapDD {} reader = .ok c' ∧
      c'.traceIDUpper = x.traceIDUpper ∧
      c'.traceIDLower = x.traceIDLower ∧
      c'.spanID = x.spanID ∧
      c'.origin = x.origin ∧
      c'.baggage = x.baggage ∧
      c'.samplingPriority =
        (if pr.2 then (pr.1, true) else ((0 : Int), false)) := by
  cases hp2 : pr.2 with
  | false =>
    have h3 : x.trace = none := by
      rw [htr, hp2]
      simp
    exact ⟨x, ddExtract_of_fold_none _ _ hfold h3 hg1 hg2,
      rfl, rfl, rfl, rfl, rfl,
      by simp [SpanContext.samplingPriority, h3, hp2]⟩
  | true =>
    have h3 :
        x.trace = some { priority := some pr.1, samplerName := .unknown } := by
      rw [htr, hp2]
      simp
    refine ⟨_, ddExtract_of_fold_noTID _ _ _ hfold h3
      (fun q hq => absurd hq (List.not_mem_nil q)) hg1 hg2,
      rfl, rfl, rfl, rfl, rfl, ?_⟩
    simp [SpanContext.samplingPriority, Trace.unsetPropagatingTag, hp2]

theorem dd_rt_tags_notid (reader : Carrier) (x : SpanContext)
    (pr : Int × Bool) (ts : List (GoStr × GoStr))
    (hfold : reader.foldl (ddExtractStep {}) (.ok {}) =
      .ok (unmarshalPropagatingTags x (tagsWire ts)))
    (htr : x.trace = (if pr.2 then
      some { priority := some pr.1, samplerName := .unknown } else none))
    (hgood : goodTags ts) (hndt : (ts.map Prod.fst).Nodup) (hne : ts ≠ [])
    (htid : ∀ q ∈ ts, ¬ q.1 = keyTraceID128)
    (hg1 : x.traceIDEmpty = false) (hg2 : (x.spanID == 0) = false) :
    ∃ c', extractTextMapDD {} reader = .ok c' ∧
      c'.traceIDUpper = x.traceIDUpper ∧
      c'.traceIDLower = x.traceIDLower ∧
      c'.spanID = x.spanID ∧
      c'.origin = x.origin ∧
      c'.baggage = x.baggage ∧
      c'.samplingPriority =
        (if pr.2 then (pr.1, true) else ((0 : Int), false)) := by
  have hgd := trace_getD_fields htr
  by_cases hlen : (tagsWire ts).length ≤ 512
  · rw [unmarshal_wire x ts hgood hndt hne hlen] at hfold
    refine ⟨_, ddExtract_of_fold_noTID _ _
      ((x.trace.getD newTrace).replacePropagatingTags ts) hfold rfl
      htid hg1 hg2,
      rfl, rfl, rfl, rfl, rfl, ?_⟩
    cases hp2 : pr.2 <;>
      simp [SpanContext.samplingPriority, Trace.unsetPropagatingTag,
        Trace.replacePropagatingTags, hgd.2, hp2]
  · rw [unmarshal_big x (tagsWire ts) (by omega)] at hfold
    have htid2 : ∀ q ∈ ((x.trace.getD newTrace).setTag keyPropagationError
        (gs ("extract_max_size"))).propagatingTags,
        ¬ q.1 = keyTraceID128 := by
      intro q hq
      rw [show ((x.trace.getD newTrace).setTag keyPropagationError
        (gs ("extract_max_size"))).propagatingTags =
        (x.trace.getD newTrace).propagatingTags from rfl, hgd.1] at hq
      simp at hq
    refine ⟨_, ddExtract_of_fold_noTID _ _
      ((x.trace.getD newTrace).setTag keyPropagationError
        (gs ("extract_max_size"))) hfold rfl htid2 hg1 hg2,
      rfl, rfl, rfl, rfl, rfl, ?_⟩
    cases hp2 : pr.2 <;>
      simp [SpanContext.samplingPriority, Trace.unsetPropagatingTag,
        Trace.setTag, hgd.2, hp2]

theorem dd_rt_tags_tid (reader : Carrier) (x : SpanContext)
    (pr : Int × Bool) (ts : List (GoStr × GoStr)) (u : Nat)
    (hfold : reader.foldl (ddExtractStep {}) (.ok {}) =
      .ok (unmarshalPropagatingTags x (tagsWire (ts ++
        [(keyTraceID128, formatHexPad 16 u)]))))
    (htr : x.trace = (if pr.2 then
      some { priority := some pr.1, samplerName := .unknown } else none))
    (hgood2 : goodTags (ts ++ [(keyTraceID128, formatHexPad 16 u)]))
    (hnd2 : (((ts ++ [(keyTraceID128, formatHexPad 16 u)])).map
      Prod.fst).Nodup)
    (hlen : (tagsWire (ts ++
      [(keyTraceID128, formatHexPad 16 u)])).length ≤ 512)
    (htid : ∀ q ∈ ts, ¬ q.1 = keyTraceID128)
    (hu : u < 2 ^ 64) (hu0 : ¬ u = 0)
    (hg2 : (x.spanID == 0) = false) :
    ∃ c', extractTextMapDD {} reader = .ok c' ∧
      c'.traceIDUpper = u ∧
      c'.traceIDLower = x.traceIDLower ∧
      c'.spanID = x.spanID ∧
      c'.origin = x.origin ∧
      c'.baggage = x.baggage ∧
      c'.samplingPriority =
        (if pr.2 then (pr.1, true) else ((0 : Int), false)) := by
  have hgd := trace_getD_fields htr
  rw [unmarshal_wire x (ts ++ [(keyTraceID128, formatHexPad 16 u)])
    hgood2 hnd2 (by simp) hlen] at hfold
  have htag : ((x.trace.getD newTrace).replacePropagatingTags
      (ts ++ [(keyTraceID128, formatHexPad 16 u)])).propagatingTag
      keyTraceID128 = formatHexPad 16 u := by
    show (assocGet (ts ++ [(keyTraceID128, formatHexPad 16 u)])
      keyTraceID128).getD [] = _
    rw [assocGet_last htid]
    rfl
  refine ⟨_, ddExtract_of_fold_tid _ _
    ((x.trace.getD newTrace).replacePropagatingTags
      (ts ++ [(keyTraceID128, formatHexPad 16 u)])) u hfold rfl htag
    hu hu0 hg2,
    rfl, rfl, rfl, rfl, rfl, ?_⟩
  cases hp2 : pr.2 <;>
    simp [SpanContext.samplingPriority, Trace.replacePropagatingTags,
      hgd.2, hp2]


/-- **C1, amended (Datadog leg)**: for any span context with a non-empty
128-bit trace id (both halves below `2^64`), a non-zero span id below
`2^64`, a sampling priority in `int64` range when present — priority,
origin and propagating tags all otherwise arbitrary — propagating tags
that are valid propagatable tags with pairwise-distinct keys none of
which is the reserved `_dd.p.tid` key, fitting the 128-byte
`x-datadog-tags` budget together with the `_dd.p.tid` entry when the
upper half of the id is non-zero, and a baggage map with lowercase,
pairwise-distinct keys: Datadog extraction of the carrier produced by
Datadog injection restores the trace-id halves, the span id, the origin,
the baggage map and the sampling priority exactly.  The excluded cases
are refuted in the counterexample. -/
theorem c1_datadog_roundtrip (c : SpanContext) (ts : List (GoStr × GoStr))
    (hts : (match c.trace with
      | none => ([] : List (GoStr × GoStr))
      | some t => t.propagatingTags) = ts)
    (hnz : ¬ (c.traceIDUpper = 0 ∧ c.traceIDLower = 0))
    (hup : c.traceIDUpper < 2 ^ 64) (hlow : c.traceIDLower < 2 ^ 64)
    (hsid0 : ¬ c.spanID = 0) (hsid : c.spanID < 2 ^ 64)
    (hplo : -(2 ^ 63) ≤ (c.samplingPriority).1)
    (hphi : (c.samplingPriority).1 < 2 ^ 63)
    (hgood : goodTags ts) (hndt : (ts.map Prod.fst).Nodup)
    (htidf : ∀ q ∈ ts, ¬ q.1 = keyTraceID128)
    (hfit : ¬ c.traceIDUpper = 0 → (tagsWire (ts ++
      [(keyTraceID128, formatHexPad 16 c.traceIDUpper)])).length ≤ 128)
    (hkeys : ∀ kv ∈ c.baggage, strToLower kv.1 = kv.1)
    (hnd : (c.baggage.map Prod.fst).Nodup) :
    ∃ r c', injectTextMapDD {} c [] = .ok r ∧
      extractTextMapDD {} r.2 = .ok c' ∧
      c'.traceIDUpper = c.traceIDUpper ∧
      c'.traceIDLower = c.traceIDLower ∧
      c'.spanID = c.spanID ∧
      c'.origin = c.origin ∧
      c'.baggage = c.baggage ∧
      c'.samplingPriority = c.samplingPriority := by
  have hB := headbag_fields c hnd
  have hfold1 := dd_fold_headbag c hlow hsid hplo hphi hkeys
  have hg2 : ((c.baggage.foldl (fun a kv => a.setBaggageItem kv.1 kv.2)
      (ddHeadCtx c.traceIDLower c.spanID c.samplingPriority
        c.origin)).spanID == 0) = false := by
    rw [hB.2.2.2.1]
    exact beq_eq_false_iff_ne.mpr hsid0
  by_cases hU : c.traceIDUpper = 0
  · have hL : ¬ c.traceIDLower = 0 := fun h => hnz ⟨hU, h⟩
    have hg1 : (c.baggage.foldl (fun a kv => a.setBaggageItem kv.1 kv.2)
        (ddHeadCtx c.traceIDLower c.spanID c.samplingPriority
          c.origin)).traceIDEmpty = false := by
      simp [SpanContext.traceIDEmpty, hB.2.1, hB.2.2.1, hL]
    obtain ⟨ctxI, tseg, heq, hdisj⟩ :=
      injA_eval c ts hts hU hL hsid0 hgood htidf hnd
    rcases hdisj with ⟨htseg, hne⟩ | htseg <;> subst htseg
    · have hfold2 : List.foldl (ddExtractStep {}) (.ok ({} : SpanContext))
          (ddHeadCar c ++
            c.baggage.map (fun kv => (gs ("ot-baggage-") ++ kv.1, kv.2)) ++
            [(traceTagsHeader, tagsWire ts)]) =
          .ok (unmarshalPropagatingTags
            (c.baggage.foldl (fun a kv => a.setBaggageItem kv.1 kv.2)
              (ddHeadCtx c.traceIDLower c.spanID c.samplingPriority
                c.origin)) (tagsWire ts)) := by
        rw [List.foldl_append, hfold1]
        simp only [List.foldl_cons, List.foldl_nil, ddStep_tags]
      obtain ⟨c', hext, f1, f2, f3, f4, f5, f6⟩ :=
        dd_rt_tags_notid _ _ c.samplingPriority ts hfold2 hB.1 hgood hndt
          hne htidf hg1 hg2
      refine ⟨_, c', heq, hext, ?_, ?_, ?_, ?_, ?_, ?_⟩
      · rw [f1, hB.2.1, hU]
      · rw [f2, hB.2.2.1]
      · rw [f3, hB.2.2.2.1]
      · rw [f4, hB.2.2.2.2.1]
      · rw [f5, hB.2.2.2.2.2]
      · rw [f6]
        cases hp2 : (c.samplingPriority).2 with
        | false =>
          rw [if_neg (by simp)]
          exact (sp_false hp2).symm
        | true =>
          rw [if_pos rfl, ← hp2]
    · have hfold2 : List.foldl (ddExtractStep {}) (.ok ({} : SpanContext))
          (ddHeadCar c ++
            c.baggage.map (fun kv => (gs ("ot-baggage-") ++ kv.1, kv.2)) ++
            ([] : Carrier)) =
          .ok (c.baggage.foldl (fun a kv => a.setBaggageItem kv.1 kv.2)
            (ddHeadCtx c.traceIDLower c.spanID c.samplingPriority
              c.origin)) := by
        rw [List.foldl_append, hfold1]
        rfl
      obtain ⟨c', hext, f1, f2, f3, f4, f5, f6⟩ :=
        dd_rt_notags _ _ c.samplingPriority hfold2 hB.1 hg1 hg2
      refine ⟨_, c', heq, hext, ?_, ?_, ?_, ?_, ?_, ?_⟩
      · rw [f1, hB.2.1, hU]
      · rw [f2, hB.2.2.1]
      · rw [f3, hB.2.2.2.1]
      · rw [f4, hB.2.2.2.2.1]
      · rw [f5, hB.2.2.2.2.2]
      · rw [f6]
        cases hp2 : (c.samplingPriority).2 with
        | false =>
          rw [if_neg (by simp)]
          exact (sp_false hp2).symm
        | true =>
          rw [if_pos rfl, ← hp2]
  · obtain ⟨ctxI, heq⟩ :=
      injB_eval c ts hts hU hup hsid0 hgood htidf (hfit hU) hnd
    have hfold2 : List.foldl (ddExtractStep {}) (.ok ({} : SpanContext))
        (ddHeadCar c ++
          c.baggage.map (fun kv => (gs ("ot-baggage-") ++ kv.1, kv.2)) ++
          [(traceTagsHeader, tagsWire (ts ++
            [(keyTraceID128, formatHexPad 16 c.traceIDUpper)]))]) =
        .ok (unmarshalPropagatingTags
          (c.baggage.foldl (fun a kv => a.setBaggageItem kv.1 kv.2)
            (ddHeadCtx c.traceIDLower c.spanID c.samplingPriority
              c.origin))
          (tagsWire (ts ++
            [(keyTraceID128, formatHexPad 16 c.traceIDUpper)]))) := by
      rw [List.foldl_append, hfold1]
      simp only [List.foldl_cons, List.foldl_nil, ddStep_tags]
    have hdisj2 : (List.map Prod.fst ts).Disjoint
        (List.map Prod.fst
          [((keyTraceID128 : GoStr), formatHexPad 16 c.traceIDUpper)]) := by
      intro a ha hb
      simp only [List.map_cons, List.map_nil, List.mem_singleton] at hb
      subst hb
      rcases List.mem_map.mp ha with ⟨q, hq, hqa⟩
      exact htidf q hq hqa
    have hnd2 : ((ts ++
        [((keyTraceID128 : GoStr), formatHexPad 16
          c.traceIDUpper)]).map Prod.fst).Nodup := by
      rw [List.map_append]
      exact List.Nodup.append hndt (List.nodup_singleton _) hdisj2
    have hgood2 : goodTags (ts ++
        [(keyTraceID128, formatHexPad 16 c.traceIDUpper)]) := by
      intro kv hkv
      rcases List.mem_append.mp hkv with h | h
      · exact hgood kv h
      · simp only [List.mem_cons, List.not_mem_nil, or_false] at h
        subst h
        exact ⟨tid_tag_valid hup,
          (by decide : ¬ keyTraceID128 = tracestateHeader),
          (by decide : ¬ keyTraceID128 = traceparentHeader)⟩
    have hlen512 : (tagsWire (ts ++
        [(keyTraceID128, formatHexPad 16 c.traceIDUpper)])).length ≤ 512 :=
      le_trans (hfit hU) (by norm_num)
    obtain ⟨c', hext, f1, f2, f3, f4, f5, f6⟩ :=
      dd_rt_tags_tid _ _ c.samplingPriority ts c.traceIDUpper hfold2 hB.1
        hgood2 hnd2 hlen512 htidf hup hU hg2
    refine ⟨_, c', heq, hext, ?_, ?_, ?_, ?_, ?_, ?_⟩
    · exact f1
    · rw [f2, hB.2.2.1]
    · rw [f3, hB.2.2.2.1]
    · rw [f4, hB.2.2.2.2.1]
    · rw [f5, hB.2.2.2.2.2]
    · rw [f6]
      cases hp2 : (c.samplingPriority).2 with
      | false =>
        rw [if_neg (by simp)]
        exact (sp_false hp2).symm
      | true =>
        rw [if_pos rfl, ← hp2]


def c1w3cCtx : SpanContext :=
  { traceIDLower := 1, spanID := 2, trace := some { priority := some 1 },
    baggage := [(gs ("foo"), gs ("bar"))], hasBaggage := true }

def c1b3Ctx : SpanContext :=
  { traceIDLower := 1, spanID := 2, trace := some { priority := some 2 } }

def c1bgCtx : SpanContext :=
  { traceIDLower := 1, spanID := 2,
    baggage := [(gs ("foo"), gs ("bar"))], hasBaggage := true }

def c1bigCtx : SpanContext :=
  { traceIDUpper := 1, traceIDLower := 1, spanID := 2,
    trace := some { propagatingTags := [(gs ("k"),
      gs ("aaaaaaaaaaaaaaaaaaaaaaaaaaaaaaaaaaaaaaaaaaaaaaaaaaaaaaaaaaaaaaaaaaaaaaaaaaaaaaaaaaaaaaaaaaaaaaaaaaaaaaaaaaaaaaaaaaaaaaaaaaaaaa"))] } }

set_option maxRecDepth 4096 in
/-- **C1, counterexample**: the unrestricted round-trip claim fails, for
each format and for two of the Datadog side conditions. (a) Datadog: a
baggage key with an upper-case letter comes back lowercased
(`Foo ↦ foo`), because the extractor lowercases carrier keys before
stripping `ot-baggage-`. (b) Datadog: with a 128-bit trace id and a
propagating tag that makes the `x-datadog-tags` header overflow its
128-byte budget, the whole header is dropped at inject time and the
upper half of the trace id is lost. (c) W3C: the injector writes no
baggage headers, so the baggage map does not survive. (d) B3 multi:
sampling priority 2 is flattened to the sampled bit `1` and extracts as
priority 1. (e) B3 single header: the same flattening. (f) the baggage
propagator writes only baggage, so the trace id is lost. -/
theorem c1_counterexample :
    (((injectTextMapDD {} c1ctx []).toOption.bind
        (fun r => (extractTextMapDD {} r.2).toOption)).map
      (fun c => c.baggage) = some [(gs ("foo"), gs ("bar"))] ∧
     ¬ [(gs ("foo"), gs ("bar"))] = c1ctx.baggage) ∧
    (((injectTextMapDD {} c1bigCtx []).toOption.bind
        (fun r => (extractTextMapDD {} r.2).toOption)).map
      (fun c => c.traceIDUpper) = some 0 ∧
     ¬ (0 : Nat) = c1bigCtx.traceIDUpper) ∧
    (((injectTextMapW3C c1w3cCtx []).toOption.bind
        (fun w => (extractTextMapW3C w).toOption)).map
      (fun c => c.baggage) = some [] ∧
     ¬ ([] : List (GoStr × GoStr)) = c1w3cCtx.baggage) ∧
    (((injectTextMapB3 c1b3Ctx []).toOption.bind
        (fun w => (extractTextMapB3 w).toOption)).map
      (fun c => c.samplingPriority) = some (1, true) ∧
     ¬ ((1 : Int), true) = c1b3Ctx.samplingPriority) ∧
    (((injectTextMapB3Single c1b3Ctx []).toOption.bind
        (fun w => (extractTextMapB3Single w).toOption)).map
      (fun c => c.samplingPriority) = some (1, true) ∧
     ¬ ((1 : Int), true) = c1b3Ctx.samplingPriority) ∧
    (((injectTextMapBaggage c1bgCtx []).toOption.bind
        (fun w => (extractTextMapBaggage w).toOption)).map
      (fun c => c.traceIDLower) = some 0 ∧
     ¬ (0 : Nat) = c1bgCtx.traceIDLower) := by decide


def c1wCtx : SpanContext :=
  { traceIDUpper := 3, traceIDLower := 5, spanID := 7,
    origin := gs ("rum"),
    baggage := [(gs ("foo"), gs ("bar"))], hasBaggage := true,
    trace := some { priority := some 2, propagatingTags := [(gs ("_dd.p.dm"), gs ("-4"))] } }

/-- Witness: a concrete context with a 128-bit id, an origin, a present
priority, a propagating tag and lowercase baggage round-trips through the
Datadog propagator. -/
theorem c1_datadog_roundtrip_witness :
    ∃ r c', injectTextMapDD {} c1wCtx [] = .ok r ∧
      extractTextMapDD {} r.2 = .ok c' ∧
      c'.traceIDUpper = c1wCtx.traceIDUpper ∧
      c'.traceIDLower = c1wCtx.traceIDLower ∧
      c'.spanID = c1wCtx.spanID ∧
      c'.origin = c1wCtx.origin ∧
      c'.baggage = c1wCtx.baggage ∧
      c'.samplingPriority = c1wCtx.samplingPriority :=
  c1_datadog_roundtrip c1wCtx [(gs ("_dd.p.dm"), gs ("-4"))] (by decide)
    (by decide) (by decide) (by decide) (by decide) (by decide)
    (by decide) (by decide) (by decide) (by decide) (by decide)
    (fun h => by decide) (by decide) (by decide)


end DDTrace
